import Mathlib

/-!
Orders store: a shallow embedding of `src/app.js`.

The development follows the record store of `OrdersManager` (IndexedDB object
store `orders`, key path `id`), the form of the primary window
(`validateForm`, `collectFormData`, `submitForm`), the handlers of the primary
window (`handleImportOrders`, `handleRestoreBackup`, `handleClearAllData` and
the `message` listener) and the CSV export and reader of the control panel
(`exportToCSV`, `escapeCSV`, `parseCSV`, `parseCSVLine`).

Conventions of the embedding.

* A property that holds a string or is `undefined` is an `Option String`
  (`none` is `undefined`).  JavaScript truthiness of such a value is `truthy`.
* A promise is the `Except StoreError _` it settles with; an operation that may
  write also returns the table after it.
* What the code reads from its surroundings is an explicit argument: the
  outcome of an IndexedDB request (`fails`), a reading of
  `new Date().toISOString()`, the bytes of `crypto.getRandomValues`.
* The platform methods `localeCompare` and `toLowerCase` are parameters of the
  functions that call them; `trim` and `split` are written out.
* The object store is the list of its records in ascending key order, the
  order in which IndexedDB keeps and returns them.  Keys are compared
  character by character, by code point (IndexedDB compares UTF-16 code units;
  the two orders agree on the Basic Multilingual Plane below the surrogates).
-/

namespace Orders

/-! ## Values -/

/-- JavaScript truthiness of a value that is a string or `undefined`. -/
def truthy : Option String → Bool
  | some s => s != ""
  | none => false

/-- The expression `v || ''` for a value that is a string or `undefined`:
a non-empty string is kept, the empty string and `undefined` give `''`. -/
def orEmpty (v : Option String) : String :=
  if truthy v then v.getD "" else ""

/-- One executor slot `{ name, date }`. -/
structure Executor where
  name : String
  date : String
deriving DecidableEq, Repr

/-- An order record.  `id` is the key path of the object store; the code under
study only ever saves records that carry a string `id` (`collectFormData` and
`handleImportOrders` both assign one).  A missing `executors` array is the
empty list: every reader in the source treats the two alike. -/
structure OrderRecord where
  id : String
  date : Option String := none
  orderNumber : Option String := none
  diameter : Option String := none
  thickness : Option String := none
  typeSize : Option String := none
  cutting : Option String := none
  bottomNumber : Option String := none
  material : Option String := none
  heatTreatment : Option String := none
  treatmentDate : Option String := none
  executors : List Executor := []
  createdAt : Option String := none
  updatedAt : Option String := none
deriving DecidableEq, Repr

/-- The string-valued properties of a record, as names usable for `a[sortBy]`
and as index names. -/
inductive Field
  | id | date | orderNumber | diameter | thickness | typeSize | cutting
  | bottomNumber | material | heatTreatment | treatmentDate | createdAt | updatedAt
deriving DecidableEq, Repr

/-- Property access `record[field]`. -/
def OrderRecord.prop (r : OrderRecord) : Field → Option String
  | .id => some r.id
  | .date => r.date
  | .orderNumber => r.orderNumber
  | .diameter => r.diameter
  | .thickness => r.thickness
  | .typeSize => r.typeSize
  | .cutting => r.cutting
  | .bottomNumber => r.bottomNumber
  | .material => r.material
  | .heatTreatment => r.heatTreatment
  | .treatmentDate => r.treatmentDate
  | .createdAt => r.createdAt
  | .updatedAt => r.updatedAt

/-- The indexes created by `initDatabase` (`store.createIndex`, lines 101-107). -/
def Field.indexed : Field → Bool
  | .orderNumber | .date | .material | .bottomNumber | .diameter | .thickness
  | .createdAt => true
  | _ => false

/-! ## The object store `orders` -/

/-- Contents of the object store, in ascending key order. -/
abbrev Table := List OrderRecord

namespace Table

/-- The order of keys: two strings are compared character by character. -/
def keyLt (a b : String) : Prop := a.toList < b.toList

instance : DecidableRel keyLt := fun a b => by
  unfold keyLt; infer_instance

/-- Representation invariant of an object store: strictly ascending keys. -/
def WF (t : Table) : Prop := t.Pairwise (fun a b => keyLt a.id b.id)

instance (t : Table) : Decidable t.WF := by
  unfold WF; infer_instance

/-- The request `store.get(id)`: the record stored under the key, or `undefined`. -/
def get (t : Table) (id : String) : Option OrderRecord :=
  t.find? (fun r => r.id == id)

/-- The request `store.put(record)`: insert at the key, replacing the record
stored under the same key. -/
def put (r : OrderRecord) : Table → Table
  | [] => [r]
  | x :: xs =>
    if keyLt r.id x.id then r :: x :: xs
    else if r.id = x.id then r :: xs
    else x :: put r xs

/-- The request `store.delete(id)`. -/
def delete (id : String) (t : Table) : Table :=
  t.filter (fun r => r.id != id)

/-- The request `store.clear()`. -/
def clear (_t : Table) : Table := []

/-- The request `store.getAll()`: every record, in key order. -/
def getAll (t : Table) : List OrderRecord := t

/-- The request `store.index(field).getAll(key)`: the records whose indexed
property equals the key, in key order of the object store.  A record without
the property is not in the index. -/
def indexGetAll (field : Field) (key : String) (t : Table) : List OrderRecord :=
  t.filter (fun r => r.prop field == some key)

end Table

/-- Store states the program can reach: the object store starts empty (it is
created by `initDatabase`) and is only ever changed by the requests `put`,
`delete` and `clear`. -/
inductive Reachable : Table → Prop
  | empty : Reachable []
  | put (r : OrderRecord) {t : Table} : Reachable t → Reachable (Table.put r t)
  | delete (id : String) {t : Table} : Reachable t → Reachable (Table.delete id t)
  | clear {t : Table} : Reachable t → Reachable (Table.clear t)

/-! ## OrdersManager -/

/-- What a promise of the store rejects with. -/
inductive StoreError
  /-- The `new Error('База данных не инициализирована')` of the `!this.db` guard. -/
  | notInitialised
  /-- The `request.error` handed to `reject` by `request.onerror`. -/
  | requestFailed
  /-- The `NotFoundError` of `store.index(name)` for a name without an index. -/
  | noSuchIndex
  /-- The `TypeError` of `ordersManager.db.transaction(…)` when `db` is `null`. -/
  | nullHandle
deriving DecidableEq, Repr

deriving instance DecidableEq for Except

/-- An open connection, the value `initDatabase` stores in `this.db`. -/
structure IDBDatabase where
  name : String
  version : Nat
deriving DecidableEq, Repr

/-- The fields of `OrdersManager` set by its constructor. -/
structure OrdersManager where
  db : Option IDBDatabase
  isEditMode : Bool
  currentRecordId : String
deriving DecidableEq, Repr

namespace OrdersManager

def DB_NAME : String := "OrdersDB"
def DB_VERSION : Nat := 3
def STORE_NAME : String := "orders"

/-- The constructor: `this.db = null`. -/
def new : OrdersManager :=
  { db := none, isEditMode := false, currentRecordId := "" }

/-- A manager after a successful `initDatabase`. -/
def opened : OrdersManager :=
  { new with db := some { name := DB_NAME, version := DB_VERSION } }

/-- Lines 125-139.  `fails` tells whether the request fires `onerror`. -/
def getRecordById (self : OrdersManager) (fails : Bool) (id : String) (t : Table) :
    Except StoreError (Option OrderRecord) :=
  match self.db with
  | none => .error .notInitialised
  | some _ => if fails then .error .requestFailed else .ok (t.get id)

/-- The stamping of lines 150-153: `createdAt` is set when it is falsy,
`updatedAt` always.  `createdNow` and `updatedNow` are the two readings of
`new Date().toISOString()`. -/
def stamp (createdNow updatedNow : String) (record : OrderRecord) : OrderRecord :=
  let record :=
    if !truthy record.createdAt then { record with createdAt := some createdNow } else record
  { record with updatedAt := some updatedNow }

/-- Lines 142-162.  Resolves with `request.result`, the key of the record. -/
def saveRecord (self : OrdersManager) (createdNow updatedNow : String) (fails : Bool)
    (record : OrderRecord) (t : Table) : Except StoreError String × Table :=
  match self.db with
  | none => (.error .notInitialised, t)
  | some _ =>
    let record := stamp createdNow updatedNow record
    if fails then (.error .requestFailed, t) else (.ok record.id, t.put record)

/-- Lines 165-179.  Resolves with `true` whenever the request succeeds. -/
def deleteRecordById (self : OrdersManager) (fails : Bool) (id : String) (t : Table) :
    Except StoreError Bool × Table :=
  match self.db with
  | none => (.error .notInitialised, t)
  | some _ => if fails then (.error .requestFailed, t) else (.ok true, t.delete id)

/-- The comparator of lines 199-208, over the platform function
`String.prototype.localeCompare`, which is a parameter. -/
def compareRecords (localeCompare : String → String → Int) (sortBy : Field)
    (sortDirection : String) (a b : OrderRecord) : Int :=
  let valueA := orEmpty (a.prop sortBy)
  let valueB := orEmpty (b.prop sortBy)
  if sortDirection = "desc" then localeCompare valueB valueA
  else localeCompare valueA valueB

/-- Lines 182-213.  `Array.prototype.sort` is a stable sort: an element goes
before another when the comparator is negative, and stays in place when it is
zero. -/
def getAllRecords (self : OrdersManager) (localeCompare : String → String → Int)
    (fails : Bool) (sortBy : Field := .createdAt) (sortDirection : String := "desc")
    (t : Table) : Except StoreError (List OrderRecord) :=
  match self.db with
  | none => .error .notInitialised
  | some _ =>
    if fails then .error .requestFailed
    else .ok (t.getAll.insertionSort
      (fun a b => compareRecords localeCompare sortBy sortDirection a b ≤ 0))

/-- Lines 216-234. -/
def searchByBottomNumber (self : OrdersManager) (fails : Bool) (bottomNumber : String)
    (t : Table) : Except StoreError (List OrderRecord) :=
  match self.db with
  | none => .error .notInitialised
  | some _ =>
    if fails then .error .requestFailed else .ok (t.indexGetAll .bottomNumber bottomNumber)

/-- Lines 237-254. -/
def searchByOrderNumber (self : OrdersManager) (fails : Bool) (orderNumber : String)
    (t : Table) : Except StoreError (List OrderRecord) :=
  match self.db with
  | none => .error .notInitialised
  | some _ =>
    if fails then .error .requestFailed else .ok (t.indexGetAll .orderNumber orderNumber)

/-- Lines 257-280. -/
def searchRecords (self : OrdersManager) (fails : Bool) (searchTerm : String)
    (field : Field := .orderNumber) (t : Table) : Except StoreError (List OrderRecord) :=
  match self.db with
  | none => .error .notInitialised
  | some _ =>
    if field = .id then
      if fails then .error .requestFailed
      else .ok (match t.get searchTerm with
        | some r => [r]
        | none => [])
    else if field.indexed then
      if fails then .error .requestFailed else .ok (t.indexGetAll field searchTerm)
    else .error .noSuchIndex

/-- The string `([1e7] + -1e3 + -4e3 + -8e3 + -1e11)`. -/
def idTemplate : String := "10000000-1000-4000-8000-100000000000"

/-- The callback of lines 116-120 for a matched digit `c` and the byte read from
`crypto.getRandomValues(new Uint8Array(1))[0]`:
`(c ^ (byte & (15 >> (c / 4)))).toString(16)`. -/
def replaceDigit (c byte : Nat) : Char :=
  Nat.digitChar (c ^^^ ((byte % 256) &&& (15 >>> (c / 4))))

/-- The `replace(/[018]/g, …)` of line 116: every `0`, `1` and `8` of the
template is replaced, the `k`-th replacement reading the byte `random k`. -/
def replaceAll (random : Nat → Nat) : Nat → List Char → List Char
  | _, [] => []
  | k, c :: cs =>
    if c = '0' ∨ c = '1' ∨ c = '8' then
      replaceDigit (c.toNat - '0'.toNat) (random k) :: replaceAll random (k + 1) cs
    else c :: replaceAll random k cs

/-- Lines 115-122. -/
def generateId (random : Nat → Nat) : String :=
  String.mk (replaceAll random 0 idTemplate.toList)

end OrdersManager

/-! ## Import -/

/-- A candidate row: the object `parseCSV` builds, from header name to value. -/
abbrev Row := List (String × String)

/-- Property access `orderData[name]`. -/
def Row.get (row : Row) (name : String) : Option String := row.lookup name

/-- The counters of `handleImportOrders`, shown by its final `alert`. -/
structure ImportSummary where
  imported : Nat := 0
  skipped : Nat := 0
  errors : Nat := 0
  updated : Nat := 0
deriving DecidableEq, Repr

/-- What one iteration of the loop of `handleImportOrders` reads from its
surroundings. -/
structure RowEnv where
  /-- The index lookup of lines 1403/1406 fires `onerror`. -/
  searchFails : Bool := false
  /-- The bytes `generateId` reads. -/
  random : Nat → Nat := fun _ => 0
  /-- The reading of `new Date().toISOString()` at line 1446. -/
  createdNow : String
  /-- The reading at line 1447. -/
  updatedNow : String
  /-- The reading at line 151, inside `saveRecord`. -/
  saveCreatedNow : String
  /-- The reading at line 153, inside `saveRecord`. -/
  saveUpdatedNow : String
  /-- The `put` of line 157 fires `onerror`. -/
  putFails : Bool := false

/-- Lines 1395-1397: the value of the match column. -/
def searchKeyOf (searchByBottomNumber : Bool) (orderData : Row) : Option String :=
  if searchByBottomNumber then orderData.get "номер днища" else orderData.get "номер заказа"

/-- Lines 1394-1412: the lookup of the existing record.  A failing search is
caught and logged, and leaves `existingOrder` at `null`. -/
def findExisting (self : OrdersManager) (searchByBottomNumber : Bool) (fails : Bool)
    (orderData : Row) (t : Table) : Option OrderRecord :=
  let searchKey := searchKeyOf searchByBottomNumber orderData
  if truthy searchKey then
    let results :=
      if searchByBottomNumber then self.searchByBottomNumber fails (searchKey.getD "") t
      else self.searchRecords fails (searchKey.getD "") .orderNumber t
    match results with
    | .ok rs => rs.head?
    | .error _ => none
  else none

/-- Lines 1426-1448: the record handed to `saveRecord`. -/
def orderToSave (orderId : String) (orderData : Row) (existingOrder : Option OrderRecord)
    (createdNow updatedNow : String) : OrderRecord :=
  { id := orderId
    date := some (orEmpty (orderData.get "дата заказа"))
    orderNumber := some (orEmpty (orderData.get "номер заказа"))
    diameter := some (orEmpty (orderData.get "диаметр (мм)"))
    thickness := some (orEmpty (orderData.get "толщина (мм)"))
    typeSize := some (orEmpty (orderData.get "типоразмер"))
    cutting := some (orEmpty (orderData.get "раскрой"))
    bottomNumber := some (orEmpty (orderData.get "номер днища"))
    material := some (orEmpty (orderData.get "материал"))
    heatTreatment := some (orEmpty (orderData.get "режим то"))
    treatmentDate := some (orEmpty (orderData.get "дата то"))
    executors :=
      [ { name := orEmpty (orderData.get "сварщик")
          date := orEmpty (orderData.get "дата сварки") },
        { name := orEmpty (orderData.get "штамповка")
          date := orEmpty (orderData.get "дата штамповки") },
        { name := orEmpty (orderData.get "отбортовка")
          date := orEmpty (orderData.get "дата отбортовки") },
        { name := orEmpty (orderData.get "калибровка")
          date := orEmpty (orderData.get "дата калибровки") },
        { name := orEmpty (orderData.get "сварщик (заглушки)")
          date := orEmpty (orderData.get "дата сварки заглушек") },
        { name := orEmpty (orderData.get "резчик")
          date := orEmpty (orderData.get "дата резки") } ]
    createdAt :=
      match existingOrder with
      | some e => e.createdAt
      | none => some createdNow
    updatedAt := some updatedNow }

/-- Lines 1393-1462: the body of the loop, one candidate row. -/
def importRow (self : OrdersManager) (overwrite searchByBottomNumber : Bool)
    (acc : ImportSummary × Table) (item : Row × RowEnv) : ImportSummary × Table :=
  let counts := acc.1
  let t := acc.2
  let orderData := item.1
  let env := item.2
  let existingOrder := findExisting self searchByBottomNumber env.searchFails orderData t
  if existingOrder.isSome && !overwrite then
    ({ counts with skipped := counts.skipped + 1 }, t)
  else
    let orderId :=
      match existingOrder with
      | some e => e.id
      | none => OrdersManager.generateId env.random
    let order := orderToSave orderId orderData existingOrder env.createdNow env.updatedNow
    match self.saveRecord env.saveCreatedNow env.saveUpdatedNow env.putFails order t with
    | (.ok _, t') =>
      if existingOrder.isSome then ({ counts with updated := counts.updated + 1 }, t')
      else ({ counts with imported := counts.imported + 1 }, t')
    | (.error _, t') => ({ counts with errors := counts.errors + 1 }, t')

/-- Lines 1385-1470.  Each candidate row comes with what its iteration reads
from the surroundings; the result is the counters of the final `alert` and the
table after the batch. -/
def handleImportOrders (self : OrdersManager) (ordersToImport : List (Row × RowEnv))
    (overwrite : Bool) (searchByBottomNumber : Bool := false) (t : Table) :
    ImportSummary × Table :=
  ordersToImport.foldl (importRow self overwrite searchByBottomNumber) ({}, t)

/-- The match field of a stored record: `bottomNumber` or `orderNumber`. -/
def matchField (searchByBottomNumber : Bool) : Field :=
  if searchByBottomNumber then .bottomNumber else .orderNumber

/-- The values of the match field stored in a table. -/
def storedKeys (searchByBottomNumber : Bool) (t : Table) : List String :=
  t.filterMap (fun r => r.prop (matchField searchByBottomNumber))

/-- A candidate row matches a table by the match key: its key is non-empty and
equals the match field of a stored record. -/
def rowMatches (searchByBottomNumber : Bool) (t : Table) (orderData : Row) : Bool :=
  truthy (searchKeyOf searchByBottomNumber orderData) &&
    (storedKeys searchByBottomNumber t).contains
      ((searchKeyOf searchByBottomNumber orderData).getD "")

/-- The number of rows of a batch whose key is non-empty and is among the keys
`known` or is the key of an earlier row of the batch.  With `known` the keys
stored before the batch, these are the rows that match a record stored before
the batch or an earlier row. -/
def matchCount (searchByBottomNumber : Bool) : List String → List Row → Nat
  | _, [] => 0
  | known, row :: rest =>
    let key := searchKeyOf searchByBottomNumber row
    if truthy key then
      if known.contains (key.getD "") then 1 + matchCount searchByBottomNumber known rest
      else matchCount searchByBottomNumber (key.getD "" :: known) rest
    else matchCount searchByBottomNumber known rest

/-! ## Opening the database, restore and clear -/

/-- The persistent database `OrdersDB`: its version (0 when it has never been
opened) and the contents of its object store. -/
structure Database where
  version : Nat
  orders : Table
deriving DecidableEq, Repr

/-- Lines 70-112.  `indexedDB.open(DB_NAME, DB_VERSION)`: the request fires
`onerror` when it fails or when the stored version is higher than the one
asked for; when the stored version is lower, `onupgradeneeded` deletes the
object store if it exists and creates it anew; `onsuccess` stores the
connection in `this.db`. -/
def OrdersManager.initDatabase (self : OrdersManager) (fails : Bool) (d : Database) :
    Except StoreError OrdersManager × Database :=
  if fails then (.error .requestFailed, d)
  else if OrdersManager.DB_VERSION < d.version then (.error .requestFailed, d)
  else
    let self := { self with db := some { name := DB_NAME, version := DB_VERSION } }
    if d.version < OrdersManager.DB_VERSION then
      (.ok self, { version := OrdersManager.DB_VERSION, orders := [] })
    else (.ok self, d)

/-- The loop of lines 1489-1495 inside the transaction of `handleRestoreBackup`:
each record is put as it is; the flag paired with a record tells whether its
`put` request fires `onerror`, which ends the loop. -/
def restorePuts : List (OrderRecord × Bool) → Table → Except StoreError Table
  | [], t => .ok t
  | (order, fails) :: rest, t =>
    if fails then .error .requestFailed else restorePuts rest (t.put order)

/-- Lines 1473-1502.  The result is what the final `alert` shows: the number of
records on success, the error otherwise; the function itself never throws.
Clear and puts run in one transaction, so a failing request aborts it and the
table is left as it was. -/
def handleRestoreBackup (self : OrdersManager) (clearFails : Bool)
    (orders : List (OrderRecord × Bool)) (t : Table) : Except StoreError Nat × Table :=
  match self.db with
  | none => (.error .nullHandle, t)
  | some _ =>
    if clearFails then (.error .requestFailed, t)
    else
      match restorePuts orders t.clear with
      | .ok t' => (.ok orders.length, t')
      | .error e => (.error e, t)

/-- Lines 1505-1524.  The result is what the final `alert` shows; the function
itself never throws. -/
def handleClearAllData (self : OrdersManager) (clearFails : Bool) (t : Table) :
    Except StoreError Unit × Table :=
  match self.db with
  | none => (.error .nullHandle, t)
  | some _ => if clearFails then (.error .requestFailed, t) else (.ok (), t.clear)

/-! ## The message handler of the primary window -/

/-- An inbound message, by `event.data.type`.  The rows of an import come with
the surroundings of their iterations and the records of a restore with the
outcome of their `put`, as for `handleImportOrders` and `restorePuts`. -/
inductive Request
  | deleteOrder (id : String)
  | importOrders (orders : List (Row × RowEnv)) (overwrite searchByBottomNumber : Bool)
  | restoreBackup (orders : List (OrderRecord × Bool))
  | clearAllData
  | other (type : String)

/-- A message posted to `event.source`. -/
inductive Reply
  /-- The reply `{ type: 'ORDER_DELETED', id }`. -/
  | orderDeleted (id : String)
  /-- The reply `{ type: 'ERROR', error: error.message }`. -/
  | error (e : StoreError)
deriving DecidableEq, Repr

/-- What the handler reads from its surroundings besides the message. -/
structure HandlerEnv where
  /-- The open request of `initDatabase` fires `onerror`. -/
  openFails : Bool := false
  /-- The `delete` or `clear` request of the operation fires `onerror`. -/
  requestFails : Bool := false

/-- Lines 1333-1382: the replies posted to the source of the message, in
order, and the database afterwards. -/
def onMessage (env : HandlerEnv) (request : Request) (d : Database) :
    List Reply × Database :=
  match OrdersManager.new.initDatabase env.openFails d with
  | (.error e, d) => ([.error e], d)
  | (.ok ordersManager, d) =>
    match request with
    | .deleteOrder id =>
      match ordersManager.deleteRecordById env.requestFails id d.orders with
      | (.ok _, t) => ([.orderDeleted id], { d with orders := t })
      | (.error e, t) => ([.error e], { d with orders := t })
    | .importOrders orders overwrite searchByBottomNumber =>
      ([], { d with orders :=
        (handleImportOrders ordersManager orders overwrite searchByBottomNumber d.orders).2 })
    | .restoreBackup orders =>
      ([], { d with orders :=
        (handleRestoreBackup ordersManager env.requestFails orders d.orders).2 })
    | .clearAllData =>
      ([], { d with orders := (handleClearAllData ordersManager env.requestFails d.orders).2 })
    | .other _ => ([], d)

/-! ## CSV import -/

/-- The characters `String.prototype.trim` removes: the WhiteSpace and
LineTerminator code points of ECMAScript. -/
def isWhiteSpace (c : Char) : Bool :=
  c.toNat = 0x09 || c.toNat = 0x0A || c.toNat = 0x0B || c.toNat = 0x0C || c.toNat = 0x0D ||
  c.toNat = 0x20 || c.toNat = 0xA0 || c.toNat = 0x1680 ||
  (0x2000 ≤ c.toNat && c.toNat ≤ 0x200A) ||
  c.toNat = 0x2028 || c.toNat = 0x2029 || c.toNat = 0x202F || c.toNat = 0x205F ||
  c.toNat = 0x3000 || c.toNat = 0xFEFF

/-- The method `String.prototype.trim`. -/
def trim (s : String) : String :=
  String.mk ((s.toList.dropWhile isWhiteSpace).reverse.dropWhile isWhiteSpace).reverse

/-- The method `String.prototype.split` for a separator of one character. -/
def splitChars (sep : Char) : List Char → List (List Char)
  | [] => [[]]
  | c :: cs =>
    if c = sep then [] :: splitChars sep cs
    else
      match splitChars sep cs with
      | [] => [[c]]
      | field :: fields => (c :: field) :: fields

/-- The call `s.split(sep)` on strings. -/
def split (sep : Char) (s : String) : List String :=
  (splitChars sep s.toList).map String.mk

/-- The loop of lines 1206-1222 over the characters from position `i` on.
`skip` tells that the character at `i` was consumed by the `i++` of line 1212. -/
def parseCSVLoop : List Char → String → Bool → Bool → List String → List String
  | [], currentValue, _, _, values => values ++ [currentValue]
  | char :: rest, currentValue, inQuotes, skip, values =>
    if skip then parseCSVLoop rest currentValue inQuotes false values
    else if char = '"' then
      if inQuotes && rest.head? == some '"' then
        parseCSVLoop rest (currentValue.push '"') inQuotes true values
      else parseCSVLoop rest currentValue (!inQuotes) false values
    else if char = ',' && !inQuotes then
      parseCSVLoop rest "" inQuotes false (values ++ [currentValue])
    else parseCSVLoop rest (currentValue.push char) inQuotes false values

/-- Lines 1201-1226. -/
def parseCSVLine (line : String) : List String :=
  parseCSVLoop line.toList "" false false []

/-- The assignment `order[name] = value`: an existing property keeps its place
and takes the new value, a new one is added last. -/
def Row.set (row : Row) (name value : String) : Row :=
  if row.any (fun p => p.1 == name) then
    row.map (fun p => if p.1 == name then (name, value) else p)
  else row ++ [(name, value)]

/-- Line 1176: the non-blank lines of the text. -/
def csvLines (csvContent : String) : List String :=
  (split '\n' csvContent).filter (fun line => trim line != "")

/-- Line 1179: the header names, trimmed and lower-cased.  The platform method
`String.prototype.toLowerCase` is a parameter. -/
def csvHeaders (toLowerCase : String → String) (headerLine : String) : List String :=
  (split ',' headerLine).map (fun h => toLowerCase (trim h))

/-- Lines 1186-1190: the object built from the values of one line. -/
def csvRow (headers values : List String) : Row :=
  (headers.zip values).foldl (fun order p => order.set p.1 (trim p.2)) []

/-- Lines 1193: the validation of a built row. -/
def csvRowValid (order : Row) : Bool :=
  truthy (order.get "номер заказа") && truthy (order.get "дата заказа")

/-- Lines 1175-1199. -/
def parseCSV (toLowerCase : String → String) (csvContent : String) : List Row :=
  let lines := csvLines csvContent
  if lines.length < 2 then []
  else
    let headers := csvHeaders toLowerCase (lines.headD "")
    lines.tail.filterMap (fun line =>
      let values := parseCSVLine line
      if values.length ≠ headers.length then none
      else
        let order := csvRow headers values
        if csvRowValid order then some order else none)

/-- The method `String.prototype.toLowerCase` on Latin and Russian letters,
the alphabets of the export header; other characters are left as they are. -/
def lowerChar (c : Char) : Char :=
  if (0x41 ≤ c.toNat && c.toNat ≤ 0x5A) || (0x410 ≤ c.toNat && c.toNat ≤ 0x42F) then
    Char.ofNat (c.toNat + 32)
  else if c.toNat = 0x401 then Char.ofNat 0x451
  else c

/-- A lower-casing of strings used to evaluate examples. -/
def lowerBasic (s : String) : String := String.mk (s.toList.map lowerChar)

/-- The columns of a data line: each header name with the trimmed value parsed
at its position. -/
def csvColumns (headers : List String) (line : String) : List (String × String) :=
  headers.zip ((parseCSVLine line).map trim)

/-- The text `text'` is `text` with its columns rearranged and its header names
re-cased: the header names of the two, trimmed and lower-cased, are
permutations of each other, and line by line the data lines have the same
number of fields and the same columns up to order. -/
def ColumnsPermuted (toLowerCase : String → String) (text text' : String) : Prop :=
  (csvHeaders toLowerCase ((csvLines text').headD "")).Perm
    (csvHeaders toLowerCase ((csvLines text).headD "")) ∧
  List.Forall₂
    (fun line line' =>
      (parseCSVLine line').length = (parseCSVLine line).length ∧
      (csvColumns (csvHeaders toLowerCase ((csvLines text').headD "")) line').Perm
        (csvColumns (csvHeaders toLowerCase ((csvLines text).headD "")) line))
    (csvLines text).tail (csvLines text').tail

/-! ## The primary form -/

/-- The values of the fields of the primary form, by element id: `recordId`,
the ten inputs, and `executor1` … `executor6` with `date1` … `date6`. -/
structure FormValues where
  recordId : String := ""
  date : String := ""
  orderNumber : String := ""
  diameter : String := ""
  thickness : String := ""
  typeSize : String := ""
  cutting : String := ""
  bottomNumber : String := ""
  material : String := ""
  heatTreatment : String := ""
  treatmentDate : String := ""
  /-- The value of the element `executor{i}`. -/
  executor : Nat → String := fun _ => ""
  /-- The value of the element `date{i}`. -/
  executorDate : Nat → String := fun _ => ""

/-- A character of the class `[A-Za-z0-9\-]`. -/
def isOrderNumberChar (c : Char) : Bool :=
  c.isAlpha || c.isDigit || c == '-'

/-- The test `/^[A-Za-z0-9\-]+$/.test(orderNumber)` of line 461: one or more
characters, all of the class. -/
def orderNumberPattern (orderNumber : String) : Bool :=
  !orderNumber.toList.isEmpty && orderNumber.toList.all isOrderNumberChar

/-- Lines 450-470. -/
def OrdersManager.validateForm (form : FormValues) : Bool :=
  if !truthy (some form.orderNumber) || !truthy (some form.date) then false
  else if !orderNumberPattern form.orderNumber then false
  else true

/-- Lines 473-499.  `now` is the reading of the clock at line 497. -/
def OrdersManager.collectFormData (form : FormValues) (random : Nat → Nat) (now : String) :
    OrderRecord :=
  let recordId := form.recordId
  let id := if truthy (some recordId) then recordId else generateId random
  let executors := (List.range 6).map
    (fun i => ({ name := form.executor (i + 1), date := form.executorDate (i + 1) } : Executor))
  { id := id
    date := some form.date
    orderNumber := some form.orderNumber
    diameter := some form.diameter
    thickness := some form.thickness
    typeSize := some form.typeSize
    cutting := some form.cutting
    bottomNumber := some form.bottomNumber
    material := some form.material
    executors := executors
    heatTreatment := some form.heatTreatment
    treatmentDate := some form.treatmentDate
    createdAt := if truthy (some recordId) then none else some now }

/-- Lines 370-398, up to the toast: `none` when the validation fails and the
function returns before saving, else the outcome of `saveRecord`. -/
def OrdersManager.submitForm (self : OrdersManager) (form : FormValues) (random : Nat → Nat)
    (now createdNow updatedNow : String) (fails : Bool) (t : Table) :
    Option (Except StoreError String) × Table :=
  if !validateForm form then (none, t)
  else
    let formData := collectFormData form random now
    let result := self.saveRecord createdNow updatedNow fails formData t
    (some result.1, result.2)

/-! ## CSV export -/

/-- The replacement `stringValue.replace(/"/g, '""')`. -/
def doubleQuotes : List Char → List Char
  | [] => []
  | c :: cs => if c = '"' then '"' :: '"' :: doubleQuotes cs else c :: doubleQuotes cs

/-- Lines 1114-1121, for a value that is a string. -/
def escapeCSV (value : String) : String :=
  if value.toList.any (fun c => c == ',') || value.toList.any (fun c => c == '"') ||
      value.toList.any (fun c => c == '\n') then
    String.mk ('"' :: (doubleQuotes value.toList ++ ['"']))
  else value

/-- The method `Array.prototype.join` for a separator of one character. -/
def joinChars (sep : Char) : List (List Char) → List Char
  | [] => []
  | x :: rest =>
    match rest with
    | [] => x
    | _ :: _ => x ++ sep :: joinChars sep rest

/-- The call `xs.join(sep)` on strings. -/
def join (sep : Char) (xs : List String) : String :=
  String.mk (joinChars sep (xs.map String.toList))

/-- The header of the export, lines 1053-1059. -/
def exportHeaders : List String :=
  ["ID", "Дата заказа", "Номер заказа", "Диаметр (мм)", "Толщина (мм)",
   "Типоразмер", "Раскрой", "Номер днища", "Материал", "Режим ТО", "Дата ТО",
   "Сварщик", "Дата сварки", "Штамповка", "Дата штамповки", "Отбортовка",
   "Дата отбортовки", "Калибровка", "Дата калибровки", "Сварщик (заглушки)",
   "Дата сварки заглушек", "Резчик", "Дата резки", "Дата создания", "Дата обновления"]

/-- The expression `order.executors?.[i]?.name || ''`. -/
def executorName (order : OrderRecord) (i : Nat) : String :=
  orEmpty ((order.executors.get? i).map (fun e => e.name))

/-- The expression `order.executors?.[i]?.date || ''`. -/
def executorDate (order : OrderRecord) (i : Nat) : String :=
  orEmpty ((order.executors.get? i).map (fun e => e.date))

/-- The 25 values of a record that the export writes, lines 1065-1089, before
they are escaped. -/
def exportValues (order : OrderRecord) : List String :=
  [orEmpty (some order.id), orEmpty order.date, orEmpty order.orderNumber,
   orEmpty order.diameter, orEmpty order.thickness, orEmpty order.typeSize,
   orEmpty order.cutting, orEmpty order.bottomNumber, orEmpty order.material,
   orEmpty order.heatTreatment, orEmpty order.treatmentDate,
   executorName order 0, executorDate order 0, executorName order 1, executorDate order 1,
   executorName order 2, executorDate order 2, executorName order 3, executorDate order 3,
   executorName order 4, executorDate order 4, executorName order 5, executorDate order 5,
   orEmpty order.createdAt, orEmpty order.updatedAt]

/-- Lines 1046-1094: the text of the CSV file, or `none` when there is nothing
to export. -/
def exportToCSV (allOrders : List OrderRecord) : Option String :=
  if allOrders.length = 0 then none
  else
    some (join '\n'
      (join ',' exportHeaders ::
        allOrders.map (fun order => join ',' ((exportValues order).map escapeCSV))))

/-- A lower-case hexadecimal digit. -/
def isLowerHex (c : Char) : Bool :=
  c.isDigit || (c.toNat ≥ 'a'.toNat && c.toNat ≤ 'f'.toNat)

/-! ## Words of the specification -/

/-- The stored records whose `bottomNumber` equals `b`, in storage order. -/
def recordsWithBottomNumber (b : String) (t : Table) : List OrderRecord :=
  t.filter (fun r => decide (r.bottomNumber = some b))

/-- A comparison of strings character by character, a total order; it stands
for `localeCompare` where an example is evaluated. -/
def codePointCompare (a b : String) : Int :=
  if Table.keyLt a b then -1 else if a = b then 0 else 1

/-- Canonical composition of the two Russian letters that have a decomposed
form: `е` followed by U+0308 is `ё`, and `и` followed by U+0306 is `й`.
`skip` tells that the character at hand is a combining mark already used. -/
def composeLoop : List Char → Bool → List Char
  | [], _ => []
  | c :: rest, skip =>
    if skip then composeLoop rest false
    else if c.toNat = 0x435 && rest.head?.map Char.toNat == some 0x308 then
      Char.ofNat 0x451 :: composeLoop rest true
    else if c.toNat = 0x438 && rest.head?.map Char.toNat == some 0x306 then
      Char.ofNat 0x439 :: composeLoop rest true
    else c :: composeLoop rest false

/-- A comparison of strings that, as ECMA-402 requires of `localeCompare`,
gives zero for canonically equivalent strings: the strings are compared
character by character after canonical composition. -/
def canonicalCompare (a b : String) : Int :=
  codePointCompare (String.mk (composeLoop a.toList false))
    (String.mk (composeLoop b.toList false))

/-- The ten scalar fields of a record: date, orderNumber, diameter, thickness,
typeSize, cutting, bottomNumber, material, heatTreatment, treatmentDate. -/
def scalarFields (r : OrderRecord) : List (Option String) :=
  [r.date, r.orderNumber, r.diameter, r.thickness, r.typeSize, r.cutting, r.bottomNumber,
   r.material, r.heatTreatment, r.treatmentDate]

/-! ## Sample inputs -/

/-- A candidate row with an order number and a date, as `parseCSV` keeps it. -/
def sampleRow (orderNumber : String) : Row :=
  [("номер заказа", orderNumber), ("дата заказа", "2024-03-01")]

/-- Surroundings of an iteration in which no request fails; every read of the
random source returns `byte`. -/
def sampleEnv (byte : Nat) : RowEnv :=
  { random := fun _ => byte
    createdNow := "2024-06-01T12:00:00.000Z"
    updatedNow := "2024-06-01T12:00:00.001Z"
    saveCreatedNow := "2024-06-01T12:00:00.002Z"
    saveUpdatedNow := "2024-06-01T12:00:00.003Z" }

/-- A record with order number `ORD-1`, created on 2024-01-01. -/
def sampleRecord : OrderRecord :=
  { id := "a1", orderNumber := some "ORD-1", createdAt := some "2024-01-01T00:00:00Z" }

/-- A store that holds the one record `sampleRecord`. -/
def sampleTable : Table := [sampleRecord]

/-- A batch of three rows: one with the stored order number, two that share a
new one. -/
def sampleBatch : List (Row × RowEnv) :=
  [(sampleRow "ORD-1", sampleEnv 0), (sampleRow "ORD-2", sampleEnv 1),
   (sampleRow "ORD-2", sampleEnv 2)]

/-- A batch of two rows with the same order number. -/
def twinBatch : List (Row × RowEnv) :=
  [(sampleRow "ORD-7", sampleEnv 0), (sampleRow "ORD-7", sampleEnv 1)]

/-- A stored record without `createdAt`, as `handleRestoreBackup` can put it. -/
def bareTable : Table := [{ id := "a1", orderNumber := some "ORD-1" }]

/-- A store that holds three records with diameters `9`, `10` and `10`. -/
def sizeTable : Table :=
  [{ id := "a1", diameter := some "9" }, { id := "b2", diameter := some "10" },
   { id := "c3", diameter := some "10" }]

/-- A store that holds two records with diameters `9` and `10`. -/
def twoSizes : Table :=
  [{ id := "a1", diameter := some "9" }, { id := "b2", diameter := some "10" }]

/-- An iteration whose lookup request fails. -/
def lookupFailsEnv : RowEnv := { sampleEnv 5 with searchFails := true }

/-- An iteration whose `put` request fails. -/
def putFailsEnv : RowEnv := { sampleEnv 6 with putFails := true }

/-- The database at the version the code opens, holding `sampleTable`. -/
def sampleDatabase : Database := { version := 3, orders := sampleTable }

/-- A CSV text whose only data line has an order number and no date. -/
def csvNoDate : String := "номер заказа,дата заказа\nORD-1,\n"

/-- A CSV text with a blank line, a line that lacks the date and a line with a
wrong number of fields. -/
def csvMixed : String :=
  "Номер заказа,Дата заказа\nORD-1,2024-03-01\n\nORD-2,\n ORD-3 , 2024-03-02 ,\n"

/-- A CSV text in which two columns carry the same header name. -/
def csvTwin : String :=
  "номер заказа,дата заказа,материал,материал\nORD-1,2024-03-01,сталь,медь"

/-- The text `csvTwin` with its last two columns exchanged. -/
def csvTwinSwapped : String :=
  "номер заказа,дата заказа,материал,материал\nORD-1,2024-03-01,медь,сталь"

/-- A CSV text with three columns. -/
def csvPlain : String :=
  "Номер заказа,Дата заказа,Материал\nORD-1,2024-03-01,сталь\nORD-2,2024-03-02,медь"

/-- The text `csvPlain` with its columns rearranged and its header re-cased. -/
def csvPlainPermuted : String :=
  "МАТЕРИАЛ,номер ЗАКАЗА,дата заказа\nсталь,ORD-1,2024-03-01\nмедь,ORD-2,2024-03-02"

/-- A store with two records whose materials are the word `ёлка`, once with
the letter `ё` as one character and once as `е` followed by U+0308. -/
def yoTable : Table :=
  [{ id := "a1", material := some (String.mk [Char.ofNat 0x451, 'л', 'к', 'а']) },
   { id := "b2", material := some (String.mk [Char.ofNat 0x435, Char.ofNat 0x308, 'л', 'к', 'а']) }]

/-- A candidate row with an order number, a date and a welder. -/
def welderRow : Row :=
  [("номер заказа", "ORD-1"), ("дата заказа", "2024-03-01"), ("сварщик", "Иванов"),
   ("дата сварки", "2024-03-02")]

/-- A store in which two records carry the order number `ORD-1`. -/
def twinKeyTable : Table :=
  [{ id := "a1", orderNumber := some "ORD-1", material := some "сталь" },
   { id := "b2", orderNumber := some "ORD-1", material := some "медь" }]

/-- Two records to export: the first has a comma and a double quote in its
fields and a welder, the second leaves most fields undefined. -/
def exportSample : List OrderRecord :=
  [{ id := "a1", date := some "2024-03-01", orderNumber := some "ORD-1",
     typeSize := some "1200, эллипт.", material := some "сталь \"09Г2С\"",
     executors := [{ name := "Иванов", date := "2024-03-02" }] },
   { id := "b2", date := some "2024-03-05", orderNumber := some "ORD-2" }]

/-! ## Lemmas on the object store -/

namespace Table

theorem keyLt_iff {a b : String} : keyLt a b ↔ a < b :=
  String.lt_iff_toList_lt.symm

theorem keyLt_trans {a b c : String} (h1 : keyLt a b) (h2 : keyLt b c) : keyLt a c :=
  keyLt_iff.2 (lt_trans (keyLt_iff.1 h1) (keyLt_iff.1 h2))

theorem ne_of_keyLt {a b : String} (h : keyLt a b) : a ≠ b :=
  ne_of_lt (keyLt_iff.1 h)

theorem keyLt_of_not {a b : String} (h1 : ¬ keyLt a b) (h2 : a ≠ b) : keyLt b a :=
  keyLt_iff.2 (lt_of_le_of_ne (not_lt.1 (fun h => h1 (keyLt_iff.2 h))) (fun e => h2 e.symm))

theorem get_put_self (r : OrderRecord) (t : Table) : (put r t).get r.id = some r := by
  induction t with
  | nil => simp [put, get]
  | cons x xs ih =>
    unfold put
    split_ifs with h1 h2
    · simp [get]
    · simp [get]
    · have hx : (x.id == r.id) = false := by
        simp only [beq_eq_false_iff_ne, ne_eq]
        exact fun h => h2 h.symm
      simp only [get, List.find?_cons, hx]
      exact ih

theorem get_put_of_ne (r : OrderRecord) (t : Table) (j : String) (h : j ≠ r.id) :
    (put r t).get j = t.get j := by
  have hr : (r.id == j) = false := by
    simp only [beq_eq_false_iff_ne, ne_eq]
    exact fun e => h e.symm
  induction t with
  | nil => simp [put, get, hr]
  | cons x xs ih =>
    unfold put
    split_ifs with h1 h2
    · simp [get, hr]
    · have hx : (x.id == j) = false := by rw [← h2]; exact hr
      simp [get, hr, hx]
    · simp only [get, List.find?_cons] at ih ⊢
      rw [ih]

theorem filter_ne_put (r : OrderRecord) (t : Table) :
    (put r t).filter (fun x => x.id != r.id) = t.filter (fun x => x.id != r.id) := by
  induction t with
  | nil => simp [put]
  | cons x xs ih =>
    unfold put
    split_ifs with h1 h2
    · simp
    · simp [← h2]
    · simp only [List.filter_cons, ih]

theorem wf_cons {x : OrderRecord} {xs : Table} :
    WF (x :: xs) ↔ (∀ y ∈ xs, keyLt x.id y.id) ∧ WF xs := by
  simp [WF]

theorem lt_of_mem_put {a r : OrderRecord} {t : Table} (har : keyLt a.id r.id)
    (hat : ∀ y ∈ t, keyLt a.id y.id) : ∀ y ∈ put r t, keyLt a.id y.id := by
  induction t with
  | nil => intro y hy; simp [put] at hy; subst hy; exact har
  | cons x xs ih =>
    intro y hy
    unfold put at hy
    split_ifs at hy with h1 h2
    · rcases List.mem_cons.1 hy with rfl | hy
      · exact har
      · exact hat y hy
    · rcases List.mem_cons.1 hy with rfl | hy
      · exact har
      · exact hat y (List.mem_cons_of_mem _ hy)
    · rcases List.mem_cons.1 hy with rfl | hy
      · exact hat y (List.mem_cons_self _ _)
      · exact ih (fun z hz => hat z (List.mem_cons_of_mem _ hz)) y hy

theorem wf_put (r : OrderRecord) {t : Table} (h : WF t) : WF (put r t) := by
  induction t with
  | nil => simp [put, WF]
  | cons x xs ih =>
    obtain ⟨hx, hxs⟩ := wf_cons.1 h
    unfold put
    split_ifs with h1 h2
    · refine wf_cons.2 ⟨?_, h⟩
      intro y hy
      rcases List.mem_cons.1 hy with rfl | hy
      · exact h1
      · exact keyLt_trans h1 (hx y hy)
    · refine wf_cons.2 ⟨?_, hxs⟩
      intro y hy
      rw [h2]
      exact hx y hy
    · have hlt : keyLt x.id r.id := keyLt_of_not h1 h2
      exact wf_cons.2 ⟨lt_of_mem_put hlt hx, ih hxs⟩

theorem wf_delete (id : String) {t : Table} (h : WF t) : WF (delete id t) :=
  List.Pairwise.filter _ h

theorem wf_of_reachable {t : Table} (h : Reachable t) : WF t := by
  induction h with
  | empty => simp [WF]
  | put r _ ih => exact wf_put r ih
  | delete id _ ih => exact wf_delete id ih
  | clear _ _ => simp [clear, WF]

theorem nodup_ids {t : Table} (h : WF t) : (t.map (fun r => r.id)).Nodup := by
  unfold WF at h
  rw [List.Nodup, List.pairwise_map]
  exact h.imp (fun hlt => ne_of_keyLt hlt)

theorem get_eq_none_of_lt {r : OrderRecord} {t : Table} (h : ∀ y ∈ t, keyLt r.id y.id) :
    t.get r.id = none := by
  simp only [get, List.find?_eq_none, beq_iff_eq]
  intro y hy e
  exact absurd e.symm (ne_of_keyLt (h y hy))

theorem filter_eq_nil_of_lt {r : OrderRecord} {t : Table} (h : ∀ y ∈ t, keyLt r.id y.id) :
    t.filter (fun x => x.id == r.id) = [] := by
  simp only [List.filter_eq_nil_iff, beq_iff_eq]
  intro y hy e
  exact absurd e.symm (ne_of_keyLt (h y hy))

theorem filter_eq_put (r : OrderRecord) {t : Table} (h : WF t) :
    (put r t).filter (fun x => x.id == r.id) = [r] := by
  induction t with
  | nil => simp [put]
  | cons x xs ih =>
    obtain ⟨hx, hxs⟩ := wf_cons.1 h
    unfold put
    split_ifs with h1 h2
    · have hall : ∀ y ∈ x :: xs, keyLt r.id y.id := by
        intro y hy
        rcases List.mem_cons.1 hy with rfl | hy
        · exact h1
        · exact keyLt_trans h1 (hx y hy)
      rw [List.filter_cons_of_pos (by simp), filter_eq_nil_of_lt hall]
    · have hall : ∀ y ∈ xs, keyLt r.id y.id := fun y hy => h2 ▸ hx y hy
      rw [List.filter_cons_of_pos (by simp), filter_eq_nil_of_lt hall]
    · have hx2 : (x.id == r.id) = false := by
        simp only [beq_eq_false_iff_ne, ne_eq]
        exact fun e => h2 e.symm
      rw [List.filter_cons_of_neg (by simp [hx2]), ih hxs]

theorem get_cons_of_ne {x : OrderRecord} {xs : Table} {j : String} (h : x.id ≠ j) :
    get (x :: xs) j = get xs j := by
  have hx : (x.id == j) = false := by
    simp only [beq_eq_false_iff_ne, ne_eq]
    exact h
  simp [get, hx]

theorem length_put (r : OrderRecord) {t : Table} (h : WF t) :
    (put r t).length = if (t.get r.id).isSome then t.length else t.length + 1 := by
  induction t with
  | nil => simp [put, get]
  | cons x xs ih =>
    obtain ⟨hx, hxs⟩ := wf_cons.1 h
    unfold put
    by_cases h1 : keyLt r.id x.id
    · have hall : ∀ y ∈ x :: xs, keyLt r.id y.id := by
        intro y hy
        rcases List.mem_cons.1 hy with rfl | hy
        · exact h1
        · exact keyLt_trans h1 (hx y hy)
      rw [if_pos h1, get_eq_none_of_lt hall]
      simp
    · rw [if_neg h1]
      by_cases h2 : r.id = x.id
      · rw [if_pos h2]
        have hg : get (x :: xs) r.id = some x := by simp [get, h2]
        rw [hg]
        simp
      · rw [if_neg h2, get_cons_of_ne (fun e => h2 e.symm), List.length_cons, ih hxs]
        split_ifs <;> simp

theorem get_delete_self (id : String) (t : Table) : (delete id t).get id = none := by
  simp [get, delete, List.find?_eq_none]

theorem get_delete_of_ne (id j : String) (t : Table) (h : j ≠ id) :
    (delete id t).get j = t.get j := by
  induction t with
  | nil => rfl
  | cons x xs ih =>
    by_cases hx : x.id = id
    · have hd : delete id (x :: xs) = delete id xs := by
        simp [delete, List.filter_cons, hx]
      rw [hd, ih, get_cons_of_ne (fun e => h (e.symm.trans hx))]
    · have hd : delete id (x :: xs) = x :: delete id xs := by
        simp [delete, List.filter_cons, hx]
      rw [hd]
      by_cases hj : x.id = j
      · simp [get, hj]
      · rw [get_cons_of_ne hj, get_cons_of_ne hj, ih]

theorem delete_eq_self_of_get_none (id : String) (t : Table) (h : t.get id = none) :
    delete id t = t := by
  simp only [get, List.find?_eq_none, beq_iff_eq] at h
  simp only [delete, List.filter_eq_self, bne_iff_ne, ne_eq]
  exact h

end Table

/-! ## Lemmas on `saveRecord` -/

namespace OrdersManager

theorem stamp_id (c u : String) (r : OrderRecord) : (stamp c u r).id = r.id := by
  unfold stamp; split_ifs <;> rfl

theorem stamp_updatedAt (c u : String) (r : OrderRecord) :
    (stamp c u r).updatedAt = some u := by
  unfold stamp; split_ifs <;> rfl

theorem stamp_createdAt (c u : String) (r : OrderRecord) :
    (stamp c u r).createdAt = if truthy r.createdAt then r.createdAt else some c := by
  unfold stamp; split_ifs <;> simp_all

theorem stamp_rest (c u : String) (r : OrderRecord) :
    { stamp c u r with createdAt := r.createdAt, updatedAt := r.updatedAt } = r := by
  unfold stamp; split_ifs <;> rfl

theorem saveRecord_ok (self : OrdersManager) (db : IDBDatabase) (hdb : self.db = some db)
    (c u : String) (r : OrderRecord) (t : Table) :
    self.saveRecord c u false r t = (.ok r.id, t.put (stamp c u r)) := by
  simp [saveRecord, hdb, stamp_id]

end OrdersManager

open OrdersManager

/-! ## Lemmas on values and membership -/

theorem truthy_some {v : Option String} (h : truthy v = true) :
    v = some (v.getD "") ∧ v.getD "" ≠ "" := by
  cases v with
  | none => simp [truthy] at h
  | some s => simpa [truthy] using h

theorem orEmpty_of_truthy {v : Option String} (h : truthy v = true) :
    orEmpty v = v.getD "" := by
  simp [orEmpty, h]

theorem orEmpty_of_not_truthy {v : Option String} (h : truthy v = false) :
    orEmpty v = "" := by
  simp [orEmpty, h]

namespace Table

theorem mem_put_self (r : OrderRecord) (t : Table) : r ∈ put r t := by
  induction t with
  | nil => simp [put]
  | cons x xs ih =>
    unfold put
    split_ifs <;> simp [ih]

theorem mem_put {y r : OrderRecord} {t : Table} (h : y ∈ put r t) : y = r ∨ y ∈ t := by
  induction t with
  | nil => simpa [put] using h
  | cons x xs ih =>
    unfold put at h
    split_ifs at h
    · simpa using h
    · rcases List.mem_cons.1 h with h | h
      · exact Or.inl h
      · exact Or.inr (List.mem_cons_of_mem _ h)
    · rcases List.mem_cons.1 h with h | h
      · exact Or.inr (h ▸ List.mem_cons_self _ _)
      · rcases ih h with h | h
        · exact Or.inl h
        · exact Or.inr (List.mem_cons_of_mem _ h)

theorem mem_put_of_ne {y r : OrderRecord} {t : Table} (h : y ∈ t) (hne : y.id ≠ r.id) :
    y ∈ put r t := by
  induction t with
  | nil => simp at h
  | cons x xs ih =>
    unfold put
    split_ifs with h1 h2
    · exact List.mem_cons_of_mem _ h
    · rcases List.mem_cons.1 h with h | h
      · exact absurd (h ▸ h2.symm) hne
      · exact List.mem_cons_of_mem _ h
    · rcases List.mem_cons.1 h with h | h
      · exact h ▸ List.mem_cons_self _ _
      · exact List.mem_cons_of_mem _ (ih h)

theorem eq_of_mem_of_id_eq {a b : OrderRecord} {t : Table} (h : WF t) (ha : a ∈ t)
    (hb : b ∈ t) (hid : a.id = b.id) : a = b := by
  have hn := nodup_ids h
  exact List.inj_on_of_nodup_map hn ha hb hid

theorem get_eq_some_of_mem {a : OrderRecord} {t : Table} (h : WF t) (ha : a ∈ t) :
    t.get a.id = some a := by
  induction t with
  | nil => simp at ha
  | cons x xs ih =>
    obtain ⟨hx, hxs⟩ := wf_cons.1 h
    rcases List.mem_cons.1 ha with rfl | ha
    · simp [get]
    · rw [get_cons_of_ne (ne_of_keyLt (hx a ha)), ih hxs ha]

theorem mem_storedKeys {bn : Bool} {t : Table} {k : String} :
    k ∈ storedKeys bn t ↔ ∃ r ∈ t, r.prop (matchField bn) = some k := by
  simp [storedKeys, List.mem_filterMap]

theorem head?_indexGetAll_isSome (f : Field) (k : String) (t : Table) :
    ((indexGetAll f k t).head?).isSome = true ↔ ∃ r ∈ t, r.prop f = some k := by
  induction t with
  | nil => simp [indexGetAll]
  | cons x xs ih =>
    by_cases hx : x.prop f = some k
    · simp [indexGetAll, List.filter_cons, hx]
    · simp only [indexGetAll, List.filter_cons] at ih ⊢
      simp [hx, ih]

theorem head?_indexGetAll_some {f : Field} {k : String} {t : Table} {e : OrderRecord}
    (h : (indexGetAll f k t).head? = some e) : e ∈ t ∧ e.prop f = some k := by
  have hm : e ∈ indexGetAll f k t := List.mem_of_mem_head? h
  simpa [indexGetAll, List.mem_filter] using hm

end Table

/-! ## Lemmas on the import -/

theorem findExisting_eq (self : OrdersManager) (db : IDBDatabase) (hdb : self.db = some db)
    (bn : Bool) (row : Row) (t : Table) :
    findExisting self bn false row t =
      if truthy (searchKeyOf bn row) then
        (t.indexGetAll (matchField bn) ((searchKeyOf bn row).getD "")).head?
      else none := by
  cases bn <;>
    simp [findExisting, matchField, OrdersManager.searchByBottomNumber,
      OrdersManager.searchRecords, hdb, Field.indexed]

theorem findExisting_some {self : OrdersManager} {bn fails : Bool} {row : Row} {t : Table}
    {e : OrderRecord} (h : findExisting self bn fails row t = some e) :
    truthy (searchKeyOf bn row) = true ∧ e ∈ t ∧
      e.prop (matchField bn) = some ((searchKeyOf bn row).getD "") := by
  unfold findExisting at h
  by_cases hk : truthy (searchKeyOf bn row) = true
  · refine ⟨hk, ?_⟩
    cases hdb : self.db with
    | none =>
      cases bn <;>
        simp [hk, OrdersManager.searchByBottomNumber, OrdersManager.searchRecords, hdb] at h
    | some db =>
      cases fails
      · cases bn
        · simp only [hk, OrdersManager.searchRecords, hdb, Field.indexed] at h
          simp at h
          exact Table.head?_indexGetAll_some h
        · simp only [hk, OrdersManager.searchByBottomNumber, hdb] at h
          simp at h
          exact Table.head?_indexGetAll_some h
      · cases bn <;>
          simp [hk, OrdersManager.searchByBottomNumber, OrdersManager.searchRecords, hdb,
            Field.indexed] at h
  · simp [hk] at h

theorem findExisting_isSome (self : OrdersManager) (db : IDBDatabase)
    (hdb : self.db = some db) (bn : Bool) (row : Row) (t : Table) :
    (findExisting self bn false row t).isSome = rowMatches bn t row := by
  rw [findExisting_eq self db hdb]
  unfold rowMatches
  by_cases hk : truthy (searchKeyOf bn row) = true
  · rw [if_pos hk, hk, Bool.true_and]
    rw [Bool.eq_iff_iff, Table.head?_indexGetAll_isSome, List.contains_iff_exists_mem_beq]
    simp only [beq_iff_eq, exists_eq_right', ← Table.mem_storedKeys]
  · simp [hk]

theorem prop_matchField_saved (bn : Bool) (c u : String) (orderId : String) (row : Row)
    (existing : Option OrderRecord) (cn un : String) :
    (stamp c u (orderToSave orderId row existing cn un)).prop (matchField bn)
      = some (orEmpty (searchKeyOf bn row)) := by
  cases bn <;>
    (simp only [matchField, OrderRecord.prop, stamp, searchKeyOf]
     split_ifs <;> rfl)

theorem id_saved (c u : String) (orderId : String) (row : Row)
    (existing : Option OrderRecord) (cn un : String) :
    (stamp c u (orderToSave orderId row existing cn un)).id = orderId := by
  rw [stamp_id]; rfl

/-- One iteration that finds no existing record and whose `put` succeeds
creates a record under a generated id. -/
theorem importRow_create (self : OrdersManager) (db : IDBDatabase) (hdb : self.db = some db)
    (ow bn : Bool) (c : ImportSummary) (t : Table) (row : Row) (env : RowEnv)
    (hnone : findExisting self bn env.searchFails row t = none)
    (hput : env.putFails = false) :
    importRow self ow bn (c, t) (row, env) =
      ({ c with imported := c.imported + 1 },
        t.put (stamp env.saveCreatedNow env.saveUpdatedNow
          (orderToSave (generateId env.random) row none env.createdNow env.updatedNow))) := by
  simp only [importRow, hnone, hput, saveRecord_ok self db hdb]
  simp

theorem importRow_skip (self : OrdersManager) (bn : Bool) (c : ImportSummary) (t : Table)
    (row : Row) (env : RowEnv) (e : OrderRecord)
    (hsome : findExisting self bn env.searchFails row t = some e) :
    importRow self false bn (c, t) (row, env) = ({ c with skipped := c.skipped + 1 }, t) := by
  simp [importRow, hsome]

theorem importRow_update (self : OrdersManager) (db : IDBDatabase) (hdb : self.db = some db)
    (bn : Bool) (c : ImportSummary) (t : Table) (row : Row) (env : RowEnv) (e : OrderRecord)
    (hsome : findExisting self bn env.searchFails row t = some e)
    (hput : env.putFails = false) :
    importRow self true bn (c, t) (row, env) =
      ({ c with updated := c.updated + 1 },
        t.put (stamp env.saveCreatedNow env.saveUpdatedNow
          (orderToSave e.id row (some e) env.createdNow env.updatedNow))) := by
  simp only [importRow, hsome, hput, saveRecord_ok self db hdb]
  simp


theorem rowMatches_iff {bn : Bool} {t : Table} {row : Row} :
    rowMatches bn t row = true ↔
      truthy (searchKeyOf bn row) = true ∧ (searchKeyOf bn row).getD "" ∈ storedKeys bn t := by
  simp [rowMatches]

theorem storedKeys_put_new {bn : Bool} {t : Table} {n : OrderRecord} {v : String}
    (hn : n.prop (matchField bn) = some v) (hfresh : ∀ r ∈ t, r.id ≠ n.id) (k : String) :
    k ∈ storedKeys bn (t.put n) ↔ k = v ∨ k ∈ storedKeys bn t := by
  simp only [Table.mem_storedKeys]
  constructor
  · rintro ⟨r, hr, hp⟩
    rcases Table.mem_put hr with rfl | hr
    · left
      rw [hn] at hp
      exact (Option.some.inj hp).symm
    · exact Or.inr ⟨r, hr, hp⟩
  · rintro (rfl | ⟨r, hr, hp⟩)
    · exact ⟨n, Table.mem_put_self n t, hn⟩
    · exact ⟨r, Table.mem_put_of_ne hr (hfresh r hr), hp⟩

theorem storedKeys_put_same {bn : Bool} {t : Table} (ht : t.WF) {u e : OrderRecord}
    {v : String} (he : e ∈ t) (hid : u.id = e.id) (hu : u.prop (matchField bn) = some v)
    (hev : e.prop (matchField bn) = some v) (k : String) :
    k ∈ storedKeys bn (t.put u) ↔ k ∈ storedKeys bn t := by
  simp only [Table.mem_storedKeys]
  constructor
  · rintro ⟨r, hr, hp⟩
    rcases Table.mem_put hr with rfl | hr
    · rw [hu] at hp
      exact ⟨e, he, hp ▸ hev⟩
    · exact ⟨r, hr, hp⟩
  · rintro ⟨r, hr, hp⟩
    by_cases hre : r.id = u.id
    · have : r = e := Table.eq_of_mem_of_id_eq ht hr he (hre.trans hid)
      subst this
      rw [hev] at hp
      exact ⟨u, Table.mem_put_self u t, hp ▸ hu⟩
    · exact ⟨r, Table.mem_put_of_ne hr hre, hp⟩

theorem matchCount_le (bn : Bool) : ∀ (rows : List Row) (known : List String),
    matchCount bn known rows ≤ rows.length := by
  intro rows
  induction rows with
  | nil => intro known; simp [matchCount]
  | cons row rest ih =>
    intro known
    simp only [matchCount, List.length_cons]
    split_ifs
    · have := ih known; omega
    · have := ih ((searchKeyOf bn row).getD "" :: known); omega
    · have := ih known; omega

/-- The counters of a batch in which no request fails and the generated ids
are new and pairwise distinct. -/
theorem import_counts (self : OrdersManager) (db : IDBDatabase) (hdb : self.db = some db)
    (ow bn : Bool) :
    ∀ (items : List (Row × RowEnv)) (c : ImportSummary) (t : Table) (known : List String),
      t.WF →
      (∀ k, k ≠ "" → (k ∈ known ↔ k ∈ storedKeys bn t)) →
      (∀ it ∈ items, it.2.searchFails = false ∧ it.2.putFails = false) →
      (∀ it ∈ items, ∀ r ∈ t, r.id ≠ generateId it.2.random) →
      (items.map (fun it => generateId it.2.random)).Nodup →
      (items.foldl (importRow self ow bn) (c, t)).1.imported
          + matchCount bn known (items.map Prod.fst) = c.imported + items.length ∧
      (items.foldl (importRow self ow bn) (c, t)).1.skipped
          = c.skipped + (if ow then 0 else matchCount bn known (items.map Prod.fst)) ∧
      (items.foldl (importRow self ow bn) (c, t)).1.errors = c.errors ∧
      (items.foldl (importRow self ow bn) (c, t)).1.updated
          = c.updated + (if ow then matchCount bn known (items.map Prod.fst) else 0) := by
  intro items
  induction items with
  | nil => intro c t known _ _ _ _ _; simp [matchCount]
  | cons it rest ih =>
    intro c t known hwf hinv hok hfresh hnd
    obtain ⟨row, env⟩ := it
    obtain ⟨hs, hp⟩ := hok (row, env) (List.mem_cons_self _ _)
    simp only at hs hp
    have hok2 : ∀ it ∈ rest, it.2.searchFails = false ∧ it.2.putFails = false :=
      fun it hit => hok it (List.mem_cons_of_mem _ hit)
    have hnd2 : (rest.map (fun it => generateId it.2.random)).Nodup := by
      rw [List.map_cons] at hnd
      exact (List.nodup_cons.1 hnd).2
    have hg : ∀ it ∈ rest, generateId env.random ≠ generateId it.2.random := by
      rw [List.map_cons] at hnd
      have hnot := (List.nodup_cons.1 hnd).1
      intro it hit e
      exact hnot (List.mem_map.2 ⟨it, hit, e.symm⟩)
    simp only [List.foldl_cons, List.map_cons, List.length_cons]
    by_cases hm : rowMatches bn t row = true
    · have hsomeB : (findExisting self bn env.searchFails row t).isSome = true := by
        rw [hs, findExisting_isSome self db hdb, hm]
      obtain ⟨e, he⟩ := Option.isSome_iff_exists.1 hsomeB
      obtain ⟨hk, hemem, heprop⟩ := findExisting_some he
      obtain ⟨hkey, hkne⟩ := truthy_some hk
      have hkin : (searchKeyOf bn row).getD "" ∈ known :=
        (hinv _ hkne).2 (rowMatches_iff.1 hm).2
      have hmc : matchCount bn known (row :: rest.map Prod.fst)
          = 1 + matchCount bn known (rest.map Prod.fst) := by
        simp [matchCount, hk, hkin]
      rw [hmc]
      cases ow
      · rw [importRow_skip self bn c t row env e he]
        have := ih { c with skipped := c.skipped + 1 } t known hwf hinv hok2
          (fun it hit => hfresh it (List.mem_cons_of_mem _ hit)) hnd2
        simp only [Bool.false_eq_true, if_false] at this ⊢
        omega
      · rw [importRow_update self db hdb bn c t row env e he hp]
        have hu := prop_matchField_saved bn env.saveCreatedNow env.saveUpdatedNow e.id row
          (some e) env.createdNow env.updatedNow
        rw [orEmpty_of_truthy hk] at hu
        have hid := id_saved env.saveCreatedNow env.saveUpdatedNow e.id row
          (some e) env.createdNow env.updatedNow
        have := ih { c with updated := c.updated + 1 } _ known (Table.wf_put _ hwf)
          (fun k hk2 => (hinv k hk2).trans
            (storedKeys_put_same hwf hemem hid hu heprop k).symm)
          hok2
          (fun it hit r hr => by
            rcases Table.mem_put hr with rfl | hr
            · rw [hid]
              exact hfresh it (List.mem_cons_of_mem _ hit) e hemem
            · exact hfresh it (List.mem_cons_of_mem _ hit) r hr)
          hnd2
        simp only [if_true] at this ⊢
        omega
    · have hnone : findExisting self bn env.searchFails row t = none := by
        have h := findExisting_isSome self db hdb bn row t
        rw [← hs] at h
        rw [← Option.not_isSome_iff_eq_none, h]
        exact hm
      rw [importRow_create self db hdb ow bn c t row env hnone hp]
      have hu := prop_matchField_saved bn env.saveCreatedNow env.saveUpdatedNow
        (generateId env.random) row none env.createdNow env.updatedNow
      have hid := id_saved env.saveCreatedNow env.saveUpdatedNow (generateId env.random) row
        none env.createdNow env.updatedNow
      have hnew : ∀ r ∈ t, r.id ≠ (stamp env.saveCreatedNow env.saveUpdatedNow
          (orderToSave (generateId env.random) row none env.createdNow env.updatedNow)).id := by
        intro r hr
        rw [hid]
        exact hfresh (row, env) (List.mem_cons_self _ _) r hr
      have hfresh2 : ∀ it ∈ rest, ∀ r ∈ Table.put (stamp env.saveCreatedNow env.saveUpdatedNow
          (orderToSave (generateId env.random) row none env.createdNow env.updatedNow)) t,
          r.id ≠ generateId it.2.random := by
        intro it hit r hr
        rcases Table.mem_put hr with rfl | hr
        · rw [hid]
          exact hg it hit
        · exact hfresh it (List.mem_cons_of_mem _ hit) r hr
      by_cases hk : truthy (searchKeyOf bn row) = true
      · obtain ⟨hkey, hkne⟩ := truthy_some hk
        rw [orEmpty_of_truthy hk] at hu
        have hnotin : (searchKeyOf bn row).getD "" ∉ known := by
          intro hin
          exact hm (rowMatches_iff.2 ⟨hk, (hinv _ hkne).1 hin⟩)
        have hmc : matchCount bn known (row :: rest.map Prod.fst)
            = matchCount bn ((searchKeyOf bn row).getD "" :: known) (rest.map Prod.fst) := by
          simp [matchCount, hk, hnotin]
        rw [hmc]
        have := ih { c with imported := c.imported + 1 } _
          ((searchKeyOf bn row).getD "" :: known) (Table.wf_put _ hwf)
          (fun k hk2 => by
            rw [storedKeys_put_new hu hnew k, List.mem_cons, hinv k hk2])
          hok2 hfresh2 hnd2
        simp only at this ⊢
        omega
      · have hk2 : truthy (searchKeyOf bn row) = false := by simpa using hk
        rw [orEmpty_of_not_truthy hk2] at hu
        have hmc : matchCount bn known (row :: rest.map Prod.fst)
            = matchCount bn known (rest.map Prod.fst) := by
          simp [matchCount, hk2]
        rw [hmc]
        have := ih { c with imported := c.imported + 1 } _ known (Table.wf_put _ hwf)
          (fun k hk3 => by
            rw [storedKeys_put_new hu hnew k, hinv k hk3]
            constructor
            · exact Or.inr
            · rintro (h | h)
              · exact absurd h hk3
              · exact h)
          hok2 hfresh2 hnd2
        simp only at this ⊢
        omega


/-- Without overwrite an iteration leaves the table alone or puts a record
under the generated id, whatever the outcome of its requests. -/
theorem importRow_table_no_overwrite (self : OrdersManager) (bn : Bool) (c : ImportSummary)
    (t : Table) (row : Row) (env : RowEnv) :
    (importRow self false bn (c, t) (row, env)).2 = t ∨
    ∃ w : OrderRecord, w.id = generateId env.random ∧
      (importRow self false bn (c, t) (row, env)).2 = t.put w := by
  cases hex : findExisting self bn env.searchFails row t with
  | some e => left; simp [importRow, hex]
  | none =>
    cases hdb : self.db with
    | none => left; simp [importRow, hex, saveRecord, hdb]
    | some db =>
      cases hp : env.putFails
      · right
        refine ⟨_, id_saved env.saveCreatedNow env.saveUpdatedNow (generateId env.random) row
          none env.createdNow env.updatedNow, ?_⟩
        rw [importRow_create self db hdb false bn c t row env hex hp]
      · left; simp [importRow, hex, saveRecord, hdb, hp]

theorem import_frame_no_overwrite (self : OrdersManager) (bn : Bool) (t0 : Table) :
    ∀ (items : List (Row × RowEnv)) (c : ImportSummary) (t : Table),
      t.WF → (∀ r ∈ t0, r ∈ t) →
      (∀ it ∈ items, ∀ r ∈ t0, r.id ≠ generateId it.2.random) →
      (items.foldl (importRow self false bn) (c, t)).2.WF ∧
      ∀ r ∈ t0, r ∈ (items.foldl (importRow self false bn) (c, t)).2 := by
  intro items
  induction items with
  | nil => intro c t hwf hsub _; exact ⟨hwf, hsub⟩
  | cons it rest ih =>
    intro c t hwf hsub hfresh
    obtain ⟨row, env⟩ := it
    rw [List.foldl_cons]
    have hrest : ∀ it ∈ rest, ∀ r ∈ t0, r.id ≠ generateId it.2.random :=
      fun it hit => hfresh it (List.mem_cons_of_mem _ hit)
    have hstep : (importRow self false bn (c, t) (row, env)).2.WF ∧
        ∀ r ∈ t0, r ∈ (importRow self false bn (c, t) (row, env)).2 := by
      rcases importRow_table_no_overwrite self bn c t row env with h | ⟨w, hw, h⟩
      · rw [h]; exact ⟨hwf, hsub⟩
      · rw [h]
        refine ⟨Table.wf_put w hwf, fun r hr => Table.mem_put_of_ne (hsub r hr) ?_⟩
        rw [hw]
        exact hfresh (row, env) (List.mem_cons_self _ _) r hr
    exact ih (importRow self false bn (c, t) (row, env)).1 _ hstep.1 hstep.2 hrest

/-! ## The claims -/

/-- C1: on an initialised store, `saveRecord(r)` followed by
`getRecordById(r.id)` returns a record whose every field other than
`createdAt` and `updatedAt` equals that of `r`, and whose `updatedAt` is the
time of that save, whatever `updatedAt` the record carried.  (Its `createdAt`
is the one `r` carried when that is non-empty, else the time of the save.) -/
theorem saveRecord_then_getRecordById (self : OrdersManager) (db : IDBDatabase)
    (hdb : self.db = some db) (t : Table) (r : OrderRecord) (createdNow updatedNow : String) :
    (self.saveRecord createdNow updatedNow false r t).1 = .ok r.id ∧
    ∃ s, self.getRecordById false r.id (self.saveRecord createdNow updatedNow false r t).2
          = .ok (some s)
      ∧ { s with createdAt := r.createdAt, updatedAt := r.updatedAt } = r
      ∧ s.updatedAt = some updatedNow
      ∧ s.createdAt = (if truthy r.createdAt then r.createdAt else some createdNow) := by
  rw [saveRecord_ok self db hdb]
  refine ⟨rfl, stamp createdNow updatedNow r, ?_, stamp_rest _ _ _, stamp_updatedAt _ _ _,
    stamp_createdAt _ _ _⟩
  have h := Table.get_put_self (stamp createdNow updatedNow r) t
  rw [stamp_id] at h
  simp [getRecordById, hdb, h]

/-- Witness of C1: a record that carries a stale `updatedAt`, saved into a
store that holds another record. -/
theorem saveRecord_then_getRecordById_witness :
    opened.db = some { name := "OrdersDB", version := 3 } ∧
    ((opened.saveRecord "2024-05-01T10:00:00.000Z" "2024-05-01T10:00:00.001Z" false
        { id := "b2", orderNumber := some "ORD-2", updatedAt := some "1999-01-01T00:00:00.000Z" }
        [{ id := "a1" }]).1 = .ok "b2" ∧
    ∃ s, opened.getRecordById false "b2"
        (opened.saveRecord "2024-05-01T10:00:00.000Z" "2024-05-01T10:00:00.001Z" false
          { id := "b2", orderNumber := some "ORD-2",
            updatedAt := some "1999-01-01T00:00:00.000Z" } [{ id := "a1" }]).2
          = .ok (some s)
      ∧ { s with createdAt := none, updatedAt := some "1999-01-01T00:00:00.000Z" }
          = ({ id := "b2", orderNumber := some "ORD-2",
               updatedAt := some "1999-01-01T00:00:00.000Z" } : OrderRecord)
      ∧ s.updatedAt = some "2024-05-01T10:00:00.001Z"
      ∧ s.createdAt = (if truthy none then none else some "2024-05-01T10:00:00.000Z")) :=
  ⟨rfl, saveRecord_then_getRecordById opened _ rfl [{ id := "a1" }]
    { id := "b2", orderNumber := some "ORD-2", updatedAt := some "1999-01-01T00:00:00.000Z" }
    "2024-05-01T10:00:00.000Z" "2024-05-01T10:00:00.001Z"⟩

/-- C2 (the code at the failing input): the store holds
`{id:'a1', orderNumber:'ORD-1', createdAt:'2024-01-01T00:00:00Z'}` and the
record `{id:'a1', orderNumber:'ORD-1-X'}`, which carries no `createdAt` (as
`collectFormData` builds it in edit mode), is saved on 2024-06-01.  The stored
record then has the new order number, but its `createdAt` is the time of the
save and not the original one. -/
theorem saveRecord_edit_overwrites_createdAt :
    opened.getRecordById false "a1"
      (opened.saveRecord "2024-06-01T12:00:00.000Z" "2024-06-01T12:00:00.001Z" false
        { id := "a1", orderNumber := some "ORD-1-X" }
        [{ id := "a1", orderNumber := some "ORD-1",
           createdAt := some "2024-01-01T00:00:00Z" }]).2
      = .ok (some { id := "a1", orderNumber := some "ORD-1-X",
                    createdAt := some "2024-06-01T12:00:00.000Z",
                    updatedAt := some "2024-06-01T12:00:00.001Z" }) := by
  decide

/-- C3: `saveRecord` is an upsert keyed by `id`.  After `saveRecord(r)` on an
initialised store the records with the id of `r` are exactly the one saved
record, the records with another id are the same as before, and the number of
records grows by one if the id was absent and is unchanged if it was present;
the table stays in key order, and no reachable store state holds two records
with the same id. -/
theorem saveRecord_upsert (self : OrdersManager) (db : IDBDatabase)
    (hdb : self.db = some db) (t : Table) (ht : t.WF) (r : OrderRecord)
    (createdNow updatedNow : String) :
    (self.saveRecord createdNow updatedNow false r t).2.filter (fun x => x.id == r.id)
        = [stamp createdNow updatedNow r] ∧
    (self.saveRecord createdNow updatedNow false r t).2.filter (fun x => x.id != r.id)
        = t.filter (fun x => x.id != r.id) ∧
    (self.saveRecord createdNow updatedNow false r t).2.length
        = (if (t.get r.id).isSome then t.length else t.length + 1) ∧
    (self.saveRecord createdNow updatedNow false r t).2.WF ∧
    ∀ s : Table, Reachable s → s.WF ∧ (s.map (fun x => x.id)).Nodup := by
  rw [saveRecord_ok self db hdb]
  have h1 := Table.filter_eq_put (stamp createdNow updatedNow r) ht
  have h2 := Table.filter_ne_put (stamp createdNow updatedNow r) t
  have h3 := Table.length_put (stamp createdNow updatedNow r) ht
  rw [stamp_id] at h1 h2 h3
  exact ⟨h1, h2, h3, Table.wf_put _ ht,
    fun s hs => ⟨Table.wf_of_reachable hs, Table.nodup_ids (Table.wf_of_reachable hs)⟩⟩

/-- Witness of C3: a record saved over a stored record with the same id. -/
theorem saveRecord_upsert_witness :
    opened.db = some { name := "OrdersDB", version := 3 } ∧
    Table.WF [{ id := "a1", orderNumber := some "ORD-1" }, { id := "b2" }] ∧
    ((opened.saveRecord "t1" "t2" false { id := "a1", orderNumber := some "ORD-1-X" }
        [{ id := "a1", orderNumber := some "ORD-1" }, { id := "b2" }]).2.filter
          (fun x => x.id == "a1")
        = [stamp "t1" "t2" { id := "a1", orderNumber := some "ORD-1-X" }] ∧
    (opened.saveRecord "t1" "t2" false { id := "a1", orderNumber := some "ORD-1-X" }
        [{ id := "a1", orderNumber := some "ORD-1" }, { id := "b2" }]).2.filter
          (fun x => x.id != "a1")
        = List.filter (fun x => x.id != "a1")
            [{ id := "a1", orderNumber := some "ORD-1" }, { id := "b2" }] ∧
    (opened.saveRecord "t1" "t2" false { id := "a1", orderNumber := some "ORD-1-X" }
        [{ id := "a1", orderNumber := some "ORD-1" }, { id := "b2" }]).2.length
        = (if (Table.get [{ id := "a1", orderNumber := some "ORD-1" }, { id := "b2" }]
                "a1").isSome
           then [({ id := "a1", orderNumber := some "ORD-1" } : OrderRecord), { id := "b2" }].length
           else [({ id := "a1", orderNumber := some "ORD-1" } : OrderRecord), { id := "b2" }].length
                  + 1) ∧
    (opened.saveRecord "t1" "t2" false { id := "a1", orderNumber := some "ORD-1-X" }
        [{ id := "a1", orderNumber := some "ORD-1" }, { id := "b2" }]).2.WF ∧
    ∀ s : Table, Reachable s → s.WF ∧ (s.map (fun x => x.id)).Nodup) :=
  ⟨rfl, by decide,
    saveRecord_upsert opened _ rfl [{ id := "a1", orderNumber := some "ORD-1" }, { id := "b2" }]
      (by decide) { id := "a1", orderNumber := some "ORD-1-X" } "t1" "t2"⟩

/-- C4: on an initialised store that holds a record with id `i`,
`deleteRecordById(i)` succeeds, a following `getRecordById(i)` returns no
record, and every record with another id is still stored unchanged. -/
theorem deleteRecordById_then_getRecordById (self : OrdersManager) (db : IDBDatabase)
    (hdb : self.db = some db) (t : Table) (i : String) (hi : (t.get i).isSome) :
    (self.deleteRecordById false i t).1 = .ok true ∧
    self.getRecordById false i (self.deleteRecordById false i t).2 = .ok none ∧
    (∀ x ∈ t, x.id ≠ i → x ∈ (self.deleteRecordById false i t).2) ∧
    (∀ j, j ≠ i → self.getRecordById false j (self.deleteRecordById false i t).2
        = self.getRecordById false j t) ∧
    (self.deleteRecordById false i t).2.length < t.length := by
  have hd : self.deleteRecordById false i t = (.ok true, t.delete i) := by
    simp [deleteRecordById, hdb]
  rw [hd]
  refine ⟨rfl, ?_, ?_, ?_, ?_⟩
  · simp [getRecordById, hdb, Table.get_delete_self]
  · intro x hx hne
    simp only [Table.delete, List.mem_filter, bne_iff_ne, ne_eq]
    exact ⟨hx, hne⟩
  · intro j hj
    simp [getRecordById, hdb, Table.get_delete_of_ne i j t hj]
  · obtain ⟨e, he⟩ := Option.isSome_iff_exists.1 hi
    have hmem : e ∈ t := List.mem_of_find?_eq_some he
    have hid : e.id = i := by simpa using List.find?_some he
    have hlt := List.length_filter_lt_length_iff_exists.2
      (⟨e, hmem, by simp [hid]⟩ : ∃ x ∈ t, ¬ ((fun r : OrderRecord => r.id != i) x) = true)
    exact hlt

/-- Witness of C4: the record `a1` is deleted from a store that also holds `b2`. -/
theorem deleteRecordById_then_getRecordById_witness :
    opened.db = some { name := "OrdersDB", version := 3 } ∧
    (Table.get [{ id := "a1" }, { id := "b2" }] "a1").isSome ∧
    ((opened.deleteRecordById false "a1" [{ id := "a1" }, { id := "b2" }]).1 = .ok true ∧
    opened.getRecordById false "a1"
      (opened.deleteRecordById false "a1" [{ id := "a1" }, { id := "b2" }]).2 = .ok none ∧
    (∀ x ∈ ([{ id := "a1" }, { id := "b2" }] : Table), x.id ≠ "a1" →
      x ∈ (opened.deleteRecordById false "a1" [{ id := "a1" }, { id := "b2" }]).2) ∧
    (∀ j, j ≠ "a1" → opened.getRecordById false j
        (opened.deleteRecordById false "a1" [{ id := "a1" }, { id := "b2" }]).2
        = opened.getRecordById false j [{ id := "a1" }, { id := "b2" }]) ∧
    (opened.deleteRecordById false "a1" [{ id := "a1" }, { id := "b2" }]).2.length
      < ([{ id := "a1" }, { id := "b2" }] : Table).length) :=
  ⟨rfl, by decide,
    deleteRecordById_then_getRecordById opened _ rfl [{ id := "a1" }, { id := "b2" }] "a1"
      (by decide)⟩

/-- C5 (counterexample): deleting the id `zz`, which the store does not hold,
resolves with the same value as deleting the stored id `a1`; no marker tells
the two apart. -/
theorem deleteRecordById_absent_not_marked :
    ¬ ((opened.deleteRecordById false "zz" [{ id := "a1" }]).1
        ≠ (opened.deleteRecordById false "a1" [{ id := "a1" }]).1) := by
  decide

/-- C5 (amended): on an initialised store that does not hold the id `i`,
`deleteRecordById(i)` raises no error, leaves the store unchanged and resolves
with `true`, the same value it resolves with when it deletes a stored record. -/
theorem deleteRecordById_absent (self : OrdersManager) (db : IDBDatabase)
    (hdb : self.db = some db) (t : Table) (i : String) (hi : t.get i = none) :
    self.deleteRecordById false i t = (.ok true, t) ∧
    ∀ (t2 : Table) (i2 : String),
      (self.deleteRecordById false i2 t2).1 = (self.deleteRecordById false i t).1 := by
  have hd : ∀ (t2 : Table) (i2 : String),
      self.deleteRecordById false i2 t2 = (.ok true, t2.delete i2) := by
    intro t2 i2
    simp [deleteRecordById, hdb]
  refine ⟨?_, ?_⟩
  · rw [hd, Table.delete_eq_self_of_get_none i t hi]
  · intro t2 i2
    rw [hd, hd]

/-- Witness of C5 (amended): the id `zz` is deleted from a store that holds `a1`. -/
theorem deleteRecordById_absent_witness :
    opened.db = some { name := "OrdersDB", version := 3 } ∧
    Table.get [{ id := "a1" }] "zz" = none ∧
    (opened.deleteRecordById false "zz" [{ id := "a1" }] = (.ok true, [{ id := "a1" }]) ∧
    ∀ (t2 : Table) (i2 : String),
      (opened.deleteRecordById false i2 t2).1
        = (opened.deleteRecordById false "zz" [{ id := "a1" }]).1) :=
  ⟨rfl, by decide, deleteRecordById_absent opened _ rfl [{ id := "a1" }] "zz" (by decide)⟩

/-- C6: while the handle `db` is `null`, each of `getRecordById`, `saveRecord`,
`deleteRecordById`, `getAllRecords`, `searchByBottomNumber`,
`searchByOrderNumber` and `searchRecords` rejects with the error of the guard,
for every argument, every table content and every outcome the requests would
have had; the result does not depend on the table, and `saveRecord` and
`deleteRecordById` leave the table as it was. -/
theorem operations_fail_without_db (self : OrdersManager) (hdb : self.db = none)
    (t : Table) (fails : Bool) (id term : String) (record : OrderRecord)
    (createdNow updatedNow sortDirection : String) (field : Field)
    (localeCompare : String → String → Int) :
    self.getRecordById fails id t = .error .notInitialised ∧
    self.saveRecord createdNow updatedNow fails record t = (.error .notInitialised, t) ∧
    self.deleteRecordById fails id t = (.error .notInitialised, t) ∧
    self.getAllRecords localeCompare fails field sortDirection t = .error .notInitialised ∧
    self.searchByBottomNumber fails term t = .error .notInitialised ∧
    self.searchByOrderNumber fails term t = .error .notInitialised ∧
    self.searchRecords fails term field t = .error .notInitialised := by
  simp [getRecordById, saveRecord, deleteRecordById, getAllRecords, searchByBottomNumber,
    searchByOrderNumber, searchRecords, hdb]

/-- Witness of C6: the manager as its constructor leaves it, over a store that
holds a record. -/
theorem operations_fail_without_db_witness :
    new.db = none ∧
    (new.getRecordById false "a1" [{ id := "a1" }] = .error .notInitialised ∧
    new.saveRecord "t1" "t2" false { id := "b2" } [{ id := "a1" }]
      = (.error .notInitialised, [{ id := "a1" }]) ∧
    new.deleteRecordById false "a1" [{ id := "a1" }]
      = (.error .notInitialised, [{ id := "a1" }]) ∧
    new.getAllRecords (fun _ _ => 0) false .createdAt "desc" [{ id := "a1" }]
      = .error .notInitialised ∧
    new.searchByBottomNumber false "7" [{ id := "a1" }] = .error .notInitialised ∧
    new.searchByOrderNumber false "7" [{ id := "a1" }] = .error .notInitialised ∧
    new.searchRecords false "7" .createdAt [{ id := "a1" }] = .error .notInitialised) :=
  ⟨rfl, operations_fail_without_db new rfl [{ id := "a1" }] false "a1" "7" { id := "b2" }
    "t1" "t2" "desc" .createdAt (fun _ _ => 0)⟩

/-- C7 (counterexample): two rows with the same order number are imported
into an empty store without overwrite.  No row matches a stored record, so the
claim gives created = 2 and skipped = 0; the code creates the first row and
skips the second, which matches the record the first one created. -/
theorem import_no_overwrite_twin_rows :
    (twinBatch.map Prod.fst).countP (rowMatches false []) = 0 ∧
    ¬ ((handleImportOrders opened twinBatch false false []).1
        = { imported := twinBatch.length - (twinBatch.map Prod.fst).countP (rowMatches false [])
            skipped := (twinBatch.map Prod.fst).countP (rowMatches false [])
            errors := 0
            updated := 0 }) ∧
    (handleImportOrders opened twinBatch false false []).1
      = { imported := 1, skipped := 1, errors := 0, updated := 0 } := by
  decide

/-- C7 (amended): a batch of N rows is imported with `overwrite = false`, no
request fails, and the generated ids are new to the store and pairwise
distinct.  If M is the number of rows whose key is non-empty and equals the
match field of a record stored before the batch or the key of an earlier row
of the batch, the summary is created = N - M, updated = 0, skipped = M,
errored = 0. -/
theorem import_no_overwrite_counts (self : OrdersManager) (db : IDBDatabase)
    (hdb : self.db = some db) (bn : Bool) (t : Table) (ht : t.WF)
    (items : List (Row × RowEnv))
    (hok : ∀ it ∈ items, it.2.searchFails = false ∧ it.2.putFails = false)
    (hfresh : ∀ it ∈ items, ∀ r ∈ t, r.id ≠ generateId it.2.random)
    (hnd : (items.map (fun it => generateId it.2.random)).Nodup) :
    (handleImportOrders self items false bn t).1
      = { imported := items.length - matchCount bn (storedKeys bn t) (items.map Prod.fst)
          skipped := matchCount bn (storedKeys bn t) (items.map Prod.fst)
          errors := 0
          updated := 0 } ∧
    matchCount bn (storedKeys bn t) (items.map Prod.fst) ≤ items.length := by
  have hle := matchCount_le bn (items.map Prod.fst) (storedKeys bn t)
  rw [List.length_map] at hle
  obtain ⟨h1, h2, h3, h4⟩ := import_counts self db hdb false bn items {} t (storedKeys bn t) ht
    (fun _ _ => Iff.rfl) hok hfresh hnd
  refine ⟨?_, hle⟩
  unfold handleImportOrders
  cases hres : (List.foldl (importRow self false bn) ({}, t) items).1 with
  | mk i s e u =>
    rw [hres] at h1 h2 h3 h4
    simp only [Bool.false_eq_true, if_false] at h1 h2 h3 h4
    simp only [ImportSummary.mk.injEq]
    refine ⟨?_, ?_, ?_, ?_⟩ <;> omega

/-- Witness of C7 (amended): of three rows, one matches the stored record and
one matches the row before it. -/
theorem import_no_overwrite_counts_witness :
    opened.db = some { name := "OrdersDB", version := 3 } ∧
    sampleTable.WF ∧
    (∀ it ∈ sampleBatch, it.2.searchFails = false ∧ it.2.putFails = false) ∧
    (∀ it ∈ sampleBatch, ∀ r ∈ sampleTable, r.id ≠ generateId it.2.random) ∧
    (sampleBatch.map (fun it => generateId it.2.random)).Nodup ∧
    ((handleImportOrders opened sampleBatch false false sampleTable).1
      = { imported := sampleBatch.length
            - matchCount false (storedKeys false sampleTable) (sampleBatch.map Prod.fst)
          skipped := matchCount false (storedKeys false sampleTable) (sampleBatch.map Prod.fst)
          errors := 0
          updated := 0 } ∧
    matchCount false (storedKeys false sampleTable) (sampleBatch.map Prod.fst)
      ≤ sampleBatch.length) :=
  ⟨rfl, by decide, by decide, by decide, by decide,
    import_no_overwrite_counts opened _ rfl false sampleTable (by decide) sampleBatch
      (by decide) (by decide) (by decide)⟩

/-- C8 (counterexample): two rows with the same order number are imported
into an empty store with overwrite.  No row matches a stored record, so the
claim gives created = 2 and updated = 0; the code creates the first row and
updates the record it created with the second. -/
theorem import_overwrite_twin_rows :
    (twinBatch.map Prod.fst).countP (rowMatches false []) = 0 ∧
    ¬ ((handleImportOrders opened twinBatch true false []).1
        = { imported := twinBatch.length - (twinBatch.map Prod.fst).countP (rowMatches false [])
            skipped := 0
            errors := 0
            updated := (twinBatch.map Prod.fst).countP (rowMatches false []) }) ∧
    (handleImportOrders opened twinBatch true false []).1
      = { imported := 1, skipped := 0, errors := 0, updated := 1 } := by
  decide

/-- C8 (amended): a batch of N rows is imported with `overwrite = true`, no
request fails, and the generated ids are new to the store and pairwise
distinct.  If M is the number of rows whose key is non-empty and equals the
match field of a record stored before the batch or the key of an earlier row
of the batch, the summary is created = N - M, updated = M, skipped = 0,
errored = 0. -/
theorem import_overwrite_counts (self : OrdersManager) (db : IDBDatabase)
    (hdb : self.db = some db) (bn : Bool) (t : Table) (ht : t.WF)
    (items : List (Row × RowEnv))
    (hok : ∀ it ∈ items, it.2.searchFails = false ∧ it.2.putFails = false)
    (hfresh : ∀ it ∈ items, ∀ r ∈ t, r.id ≠ generateId it.2.random)
    (hnd : (items.map (fun it => generateId it.2.random)).Nodup) :
    (handleImportOrders self items true bn t).1
      = { imported := items.length - matchCount bn (storedKeys bn t) (items.map Prod.fst)
          skipped := 0
          errors := 0
          updated := matchCount bn (storedKeys bn t) (items.map Prod.fst) } ∧
    matchCount bn (storedKeys bn t) (items.map Prod.fst) ≤ items.length := by
  have hle := matchCount_le bn (items.map Prod.fst) (storedKeys bn t)
  rw [List.length_map] at hle
  obtain ⟨h1, h2, h3, h4⟩ := import_counts self db hdb true bn items {} t (storedKeys bn t) ht
    (fun _ _ => Iff.rfl) hok hfresh hnd
  refine ⟨?_, hle⟩
  unfold handleImportOrders
  cases hres : (List.foldl (importRow self true bn) ({}, t) items).1 with
  | mk i s e u =>
    rw [hres] at h1 h2 h3 h4
    simp only [if_true] at h1 h2 h3 h4
    simp only [ImportSummary.mk.injEq]
    refine ⟨?_, ?_, ?_, ?_⟩ <;> omega

/-- Witness of C8 (amended): of three rows, one updates the stored record and
one updates the record created by the row before it. -/
theorem import_overwrite_counts_witness :
    opened.db = some { name := "OrdersDB", version := 3 } ∧
    sampleTable.WF ∧
    (∀ it ∈ sampleBatch, it.2.searchFails = false ∧ it.2.putFails = false) ∧
    (∀ it ∈ sampleBatch, ∀ r ∈ sampleTable, r.id ≠ generateId it.2.random) ∧
    (sampleBatch.map (fun it => generateId it.2.random)).Nodup ∧
    ((handleImportOrders opened sampleBatch true false sampleTable).1
      = { imported := sampleBatch.length
            - matchCount false (storedKeys false sampleTable) (sampleBatch.map Prod.fst)
          skipped := 0
          errors := 0
          updated :=
            matchCount false (storedKeys false sampleTable) (sampleBatch.map Prod.fst) } ∧
    matchCount false (storedKeys false sampleTable) (sampleBatch.map Prod.fst)
      ≤ sampleBatch.length) :=
  ⟨rfl, by decide, by decide, by decide, by decide,
    import_overwrite_counts opened _ rfl false sampleTable (by decide) sampleBatch
      (by decide) (by decide) (by decide)⟩

/-- C9 (counterexample): the stored record `a1` carries no `createdAt` and a
row with its order number is imported with overwrite.  The row is applied as
an update of `a1`, and the record written has the time of the save as its
`createdAt`, not the (absent) `createdAt` of the existing record. -/
theorem import_update_stamps_missing_createdAt :
    findExisting opened false false (sampleRow "ORD-1") bareTable
      = some { id := "a1", orderNumber := some "ORD-1" } ∧
    (importRow opened true false ({}, bareTable) (sampleRow "ORD-1", sampleEnv 0)).1
      = { updated := 1 } ∧
    ((importRow opened true false ({}, bareTable) (sampleRow "ORD-1", sampleEnv 0)).2.get
        "a1").map (fun w => w.createdAt) = some (some "2024-06-01T12:00:00.002Z") ∧
    ¬ (((importRow opened true false ({}, bareTable) (sampleRow "ORD-1", sampleEnv 0)).2.get
        "a1").map (fun w => w.createdAt)
      = some ({ id := "a1", orderNumber := some "ORD-1" } : OrderRecord).createdAt) := by
  decide

/-- C9 (amended): when a row is applied as an update (`overwrite = true`, the
lookup finds the existing record `e`, the `put` succeeds), the record written
has the id of `e`, so it replaces `e` and the number of stored records does
not change; its `createdAt` is that of `e` whenever `e` carries a non-empty
`createdAt`, and the time of the save when `e` carries none. -/
theorem import_update_keeps_id_createdAt (self : OrdersManager) (db : IDBDatabase)
    (hdb : self.db = some db) (bn : Bool) (c : ImportSummary) (t : Table) (ht : t.WF)
    (row : Row) (env : RowEnv) (e : OrderRecord)
    (hsome : findExisting self bn env.searchFails row t = some e)
    (hput : env.putFails = false) :
    ∃ w : OrderRecord,
      importRow self true bn (c, t) (row, env)
        = ({ c with updated := c.updated + 1 }, t.put w) ∧
      w.id = e.id ∧
      (truthy e.createdAt = true → w.createdAt = e.createdAt) ∧
      (truthy e.createdAt = false → w.createdAt = some env.saveCreatedNow) ∧
      (t.put w).get e.id = some w ∧
      (t.put w).length = t.length := by
  have hid := id_saved env.saveCreatedNow env.saveUpdatedNow e.id row (some e)
    env.createdNow env.updatedNow
  have hmem : e ∈ t := (findExisting_some hsome).2.1
  refine ⟨_, importRow_update self db hdb bn c t row env e hsome hput, hid, ?_, ?_, ?_, ?_⟩
  · intro h
    rw [stamp_createdAt]
    simp [orderToSave, h]
  · intro h
    rw [stamp_createdAt]
    simp [orderToSave, h]
  · have h := Table.get_put_self (stamp env.saveCreatedNow env.saveUpdatedNow
      (orderToSave e.id row (some e) env.createdNow env.updatedNow)) t
    rw [hid] at h
    exact h
  · rw [Table.length_put _ ht, hid, Table.get_eq_some_of_mem ht hmem]
    simp

/-- Witness of C9 (amended): the stored record `a1`, which carries a
`createdAt`, is updated by a row with its order number. -/
theorem import_update_keeps_id_createdAt_witness :
    opened.db = some { name := "OrdersDB", version := 3 } ∧
    sampleTable.WF ∧
    findExisting opened false (sampleEnv 0).searchFails (sampleRow "ORD-1") sampleTable
      = some sampleRecord ∧
    (sampleEnv 0).putFails = false ∧
    ∃ w : OrderRecord,
      importRow opened true false ({}, sampleTable) (sampleRow "ORD-1", sampleEnv 0)
        = ({ ({} : ImportSummary) with updated := ({} : ImportSummary).updated + 1 },
            sampleTable.put w) ∧
      w.id = sampleRecord.id ∧
      (truthy sampleRecord.createdAt = true → w.createdAt = sampleRecord.createdAt) ∧
      (truthy sampleRecord.createdAt = false →
        w.createdAt = some (sampleEnv 0).saveCreatedNow) ∧
      (sampleTable.put w).get sampleRecord.id = some w ∧
      (sampleTable.put w).length = sampleTable.length :=
  ⟨rfl, by decide, by decide, rfl,
    import_update_keeps_id_createdAt opened _ rfl false {} sampleTable (by decide)
      (sampleRow "ORD-1") (sampleEnv 0) sampleRecord (by decide) rfl⟩

/-- C10: with `overwrite = false` and generated ids that are new to the store,
every record stored before the batch is stored afterwards unchanged, whatever
requests fail during the batch; and a row whose non-empty key matches a stored
record (its lookup succeeding) writes nothing and is counted as skipped. -/
theorem import_no_overwrite_frame (self : OrdersManager) (bn : Bool) (t : Table)
    (ht : t.WF) (items : List (Row × RowEnv))
    (hfresh : ∀ it ∈ items, ∀ r ∈ t, r.id ≠ generateId it.2.random) :
    (∀ r ∈ t, r ∈ (handleImportOrders self items false bn t).2 ∧
      (handleImportOrders self items false bn t).2.get r.id = some r) ∧
    (∀ (db : IDBDatabase) (c : ImportSummary) (tc : Table) (row : Row) (env : RowEnv),
      self.db = some db → env.searchFails = false → rowMatches bn tc row = true →
      importRow self false bn (c, tc) (row, env)
        = ({ c with skipped := c.skipped + 1 }, tc)) := by
  constructor
  · intro r hr
    obtain ⟨hwf, hsub⟩ := import_frame_no_overwrite self bn t items {} t ht
      (fun r hr => hr) hfresh
    exact ⟨hsub r hr, Table.get_eq_some_of_mem hwf (hsub r hr)⟩
  · intro db c tc row env hdb hs hm
    have hsomeB : (findExisting self bn env.searchFails row tc).isSome = true := by
      rw [hs, findExisting_isSome self db hdb, hm]
    obtain ⟨e, he⟩ := Option.isSome_iff_exists.1 hsomeB
    exact importRow_skip self bn c tc row env e he

/-- Witness of C10: the batch of three rows over the store that holds `a1`. -/
theorem import_no_overwrite_frame_witness :
    sampleTable.WF ∧
    (∀ it ∈ sampleBatch, ∀ r ∈ sampleTable, r.id ≠ generateId it.2.random) ∧
    (∀ r ∈ sampleTable, r ∈ (handleImportOrders opened sampleBatch false false sampleTable).2 ∧
      (handleImportOrders opened sampleBatch false false sampleTable).2.get r.id = some r) ∧
    (∀ (db : IDBDatabase) (c : ImportSummary) (tc : Table) (row : Row) (env : RowEnv),
      opened.db = some db → env.searchFails = false → rowMatches false tc row = true →
      importRow opened false false (c, tc) (row, env)
        = ({ c with skipped := c.skipped + 1 }, tc)) :=
  ⟨by decide, by decide,
    import_no_overwrite_frame opened false sampleTable (by decide) sampleBatch (by decide)⟩

/-! ## Lemmas on the counters of the import -/

/-- An iteration increments exactly one of the four counters. -/
theorem importRow_one_counter (self : OrdersManager) (ow bn : Bool) (c : ImportSummary)
    (t : Table) (it : Row × RowEnv) :
    (importRow self ow bn (c, t) it).1 = { c with imported := c.imported + 1 } ∨
    (importRow self ow bn (c, t) it).1 = { c with skipped := c.skipped + 1 } ∨
    (importRow self ow bn (c, t) it).1 = { c with errors := c.errors + 1 } ∨
    (importRow self ow bn (c, t) it).1 = { c with updated := c.updated + 1 } := by
  obtain ⟨row, env⟩ := it
  unfold importRow
  simp only
  cases findExisting self bn env.searchFails row t with
  | none =>
    simp only [Option.isSome_none, Bool.false_and, Bool.false_eq_true, if_false]
    split <;> simp
  | some e =>
    cases ow
    · simp
    · simp only [Option.isSome_some, Bool.not_true, Bool.and_false, Bool.false_eq_true,
        if_false, if_true]
      split <;> simp

theorem import_sum (self : OrdersManager) (ow bn : Bool) :
    ∀ (items : List (Row × RowEnv)) (c : ImportSummary) (t : Table),
      (items.foldl (importRow self ow bn) (c, t)).1.imported
        + (items.foldl (importRow self ow bn) (c, t)).1.updated
        + (items.foldl (importRow self ow bn) (c, t)).1.skipped
        + (items.foldl (importRow self ow bn) (c, t)).1.errors
      = c.imported + c.updated + c.skipped + c.errors + items.length := by
  intro items
  induction items with
  | nil => intro c t; simp
  | cons it rest ih =>
    intro c t
    rw [List.foldl_cons]
    have hstep := importRow_one_counter self ow bn c t it
    have h := ih (importRow self ow bn (c, t) it).1 (importRow self ow bn (c, t) it).2
    simp only [Prod.mk.eta] at h
    rw [h, List.length_cons]
    rcases hstep with h | h | h | h <;> rw [h] <;> simp only <;> omega

/-- A put that is attempted and fails: the iteration counts an error and
leaves the table as it was. -/
theorem importRow_put_fails (self : OrdersManager) (ow bn : Bool) (c : ImportSummary)
    (t : Table) (row : Row) (env : RowEnv)
    (hreach : ¬ ((findExisting self bn env.searchFails row t).isSome = true ∧ ow = false))
    (hput : env.putFails = true) :
    importRow self ow bn (c, t) (row, env) = ({ c with errors := c.errors + 1 }, t) := by
  have hsave : ∀ (cn un : String) (r : OrderRecord),
      self.saveRecord cn un true r t = (.error .notInitialised, t) ∨
      self.saveRecord cn un true r t = (.error .requestFailed, t) := by
    intro cn un r
    cases hdb : self.db <;> simp [saveRecord, hdb]
  unfold importRow
  simp only [hput]
  have hc : ((findExisting self bn env.searchFails row t).isSome && !ow) = false := by
    cases ow <;> simp_all
  rw [hc]
  simp only [Bool.false_eq_true, if_false]
  split
  · rename_i a t' heq
    rcases hsave _ _ _ with h | h <;> rw [h] at heq <;> simp at heq
  · rename_i a t' heq
    rcases hsave _ _ _ with h | h <;> rw [h] at heq <;>
      simp only [Prod.mk.injEq] at heq <;> rw [← heq.2]

/-- The counters only accumulate: an iteration started from counters with one
more error ends with one more error and the same table. -/
theorem importRow_shift (self : OrdersManager) (ow bn : Bool) (c : ImportSummary)
    (t : Table) (it : Row × RowEnv) :
    importRow self ow bn ({ c with errors := c.errors + 1 }, t) it
      = ({ (importRow self ow bn (c, t) it).1 with
            errors := (importRow self ow bn (c, t) it).1.errors + 1 },
          (importRow self ow bn (c, t) it).2) := by
  obtain ⟨row, env⟩ := it
  unfold importRow
  simp only
  cases findExisting self bn env.searchFails row t with
  | none =>
    simp only [Option.isSome_none, Bool.false_and, Bool.false_eq_true, if_false]
    split <;> rfl
  | some e =>
    cases ow
    · simp
    · simp only [Option.isSome_some, Bool.not_true, Bool.and_false, Bool.false_eq_true,
        if_false, if_true]
      split <;> rfl

theorem import_shift (self : OrdersManager) (ow bn : Bool) :
    ∀ (items : List (Row × RowEnv)) (c : ImportSummary) (t : Table),
      items.foldl (importRow self ow bn) ({ c with errors := c.errors + 1 }, t)
        = ({ (items.foldl (importRow self ow bn) (c, t)).1 with
              errors := (items.foldl (importRow self ow bn) (c, t)).1.errors + 1 },
            (items.foldl (importRow self ow bn) (c, t)).2) := by
  intro items
  induction items with
  | nil => intro c t; rfl
  | cons it rest ih =>
    intro c t
    rw [List.foldl_cons, List.foldl_cons, importRow_shift, ih]

theorem findExisting_search_fails (self : OrdersManager) (bn : Bool) (row : Row) (t : Table) :
    findExisting self bn true row t = none := by
  unfold findExisting
  cases hdb : self.db <;> cases bn <;>
    simp [OrdersManager.searchByBottomNumber, OrdersManager.searchRecords, hdb, Field.indexed]

/-- C11: for every store, every batch of N candidate rows and every outcome
of the requests, `handleImportOrders` handles every row and each iteration
increments exactly one of the four counters, so that created + updated +
skipped + errored = N when it finishes. -/
theorem import_counters_total (self : OrdersManager) (items : List (Row × RowEnv))
    (ow bn : Bool) (t : Table) :
    (handleImportOrders self items ow bn t).1.imported
      + (handleImportOrders self items ow bn t).1.updated
      + (handleImportOrders self items ow bn t).1.skipped
      + (handleImportOrders self items ow bn t).1.errors = items.length ∧
    ∀ (c : ImportSummary) (tc : Table) (it : Row × RowEnv),
      (importRow self ow bn (c, tc) it).1 = { c with imported := c.imported + 1 } ∨
      (importRow self ow bn (c, tc) it).1 = { c with skipped := c.skipped + 1 } ∨
      (importRow self ow bn (c, tc) it).1 = { c with errors := c.errors + 1 } ∨
      (importRow self ow bn (c, tc) it).1 = { c with updated := c.updated + 1 } := by
  refine ⟨?_, fun c tc it => importRow_one_counter self ow bn c tc it⟩
  have h := import_sum self ow bn items {} t
  unfold handleImportOrders
  rw [h]
  simp

/-- C12 (counterexample): the store holds a record with order number `ORD-1`
and a row with that order number is imported without overwrite while its
lookup request fails.  The row is not counted as errored and it does write:
it is created as a second record and counted as created. -/
theorem import_lookup_failure_not_counted :
    lookupFailsEnv.searchFails = true ∧
    truthy (searchKeyOf false (sampleRow "ORD-1")) = true ∧
    (importRow opened false false ({}, sampleTable) (sampleRow "ORD-1", lookupFailsEnv)).1
      = { imported := 1, skipped := 0, errors := 0, updated := 0 } ∧
    (importRow opened false false ({}, sampleTable)
      (sampleRow "ORD-1", lookupFailsEnv)).2.length = 2 ∧
    ¬ ((importRow opened false false ({}, sampleTable) (sampleRow "ORD-1", lookupFailsEnv)).1
          = { imported := 0, skipped := 0, errors := 1, updated := 0 } ∧
       (importRow opened false false ({}, sampleTable) (sampleRow "ORD-1", lookupFailsEnv)).2
          = sampleTable) := by
  decide

/-- C12 (amended): a failing `put` is absorbed into the errored counter and
into nothing else.  A row that reaches its `put` (it is not skipped) and whose
`put` fails is counted as errored and writes no record, and the batch ends
with the table and the counters it would have had without that row, plus one
error.  A failing lookup is not counted: the row is handled as a row without
an existing record, and with a successful `put` it is created under a
generated id. -/
theorem import_put_failure_absorbed (self : OrdersManager) (ow bn : Bool) (t : Table)
    (pre post : List (Row × RowEnv)) (row : Row) (env : RowEnv)
    (hput : env.putFails = true)
    (hreach : ¬ ((findExisting self bn env.searchFails row
        (handleImportOrders self pre ow bn t).2).isSome = true ∧ ow = false)) :
    importRow self ow bn (handleImportOrders self pre ow bn t) (row, env)
      = ({ (handleImportOrders self pre ow bn t).1 with
            errors := (handleImportOrders self pre ow bn t).1.errors + 1 },
          (handleImportOrders self pre ow bn t).2) ∧
    (handleImportOrders self (pre ++ (row, env) :: post) ow bn t).2
      = (handleImportOrders self (pre ++ post) ow bn t).2 ∧
    (handleImportOrders self (pre ++ (row, env) :: post) ow bn t).1
      = { (handleImportOrders self (pre ++ post) ow bn t).1 with
          errors := (handleImportOrders self (pre ++ post) ow bn t).1.errors + 1 } ∧
    ∀ (db : IDBDatabase) (c : ImportSummary) (tc : Table) (row2 : Row) (env2 : RowEnv),
      self.db = some db → env2.searchFails = true → env2.putFails = false →
      importRow self ow bn (c, tc) (row2, env2)
        = ({ c with imported := c.imported + 1 },
            tc.put (stamp env2.saveCreatedNow env2.saveUpdatedNow
              (orderToSave (generateId env2.random) row2 none env2.createdNow
                env2.updatedNow))) := by
  have hstep := importRow_put_fails self ow bn (handleImportOrders self pre ow bn t).1
    (handleImportOrders self pre ow bn t).2 row env hreach hput
  rw [Prod.mk.eta] at hstep
  have hwhole : handleImportOrders self (pre ++ (row, env) :: post) ow bn t
      = ({ (handleImportOrders self (pre ++ post) ow bn t).1 with
            errors := (handleImportOrders self (pre ++ post) ow bn t).1.errors + 1 },
          (handleImportOrders self (pre ++ post) ow bn t).2) := by
    unfold handleImportOrders at hstep ⊢
    rw [List.foldl_append, List.foldl_cons, hstep, import_shift, List.foldl_append]
  refine ⟨hstep, ?_, ?_, ?_⟩
  · rw [hwhole]
  · rw [hwhole]
  · intro db c tc row2 env2 hdb hs hp
    have hnone : findExisting self bn env2.searchFails row2 tc = none := by
      rw [hs]; exact findExisting_search_fails self bn row2 tc
    exact importRow_create self db hdb ow bn c tc row2 env2 hnone hp

/-- Witness of C12 (amended): the `put` of the second of three rows fails. -/
theorem import_put_failure_absorbed_witness :
    putFailsEnv.putFails = true ∧
    ¬ ((findExisting opened false putFailsEnv.searchFails (sampleRow "ORD-3")
        (handleImportOrders opened [(sampleRow "ORD-2", sampleEnv 1)] false false
          sampleTable).2).isSome = true ∧ false = false) ∧
    (importRow opened false false
        (handleImportOrders opened [(sampleRow "ORD-2", sampleEnv 1)] false false sampleTable)
        (sampleRow "ORD-3", putFailsEnv)
      = ({ (handleImportOrders opened [(sampleRow "ORD-2", sampleEnv 1)] false false
              sampleTable).1 with
            errors := (handleImportOrders opened [(sampleRow "ORD-2", sampleEnv 1)] false false
              sampleTable).1.errors + 1 },
          (handleImportOrders opened [(sampleRow "ORD-2", sampleEnv 1)] false false
            sampleTable).2) ∧
    (handleImportOrders opened
        ([(sampleRow "ORD-2", sampleEnv 1)] ++ (sampleRow "ORD-3", putFailsEnv)
          :: [(sampleRow "ORD-4", sampleEnv 2)]) false false sampleTable).2
      = (handleImportOrders opened
        ([(sampleRow "ORD-2", sampleEnv 1)] ++ [(sampleRow "ORD-4", sampleEnv 2)])
        false false sampleTable).2 ∧
    (handleImportOrders opened
        ([(sampleRow "ORD-2", sampleEnv 1)] ++ (sampleRow "ORD-3", putFailsEnv)
          :: [(sampleRow "ORD-4", sampleEnv 2)]) false false sampleTable).1
      = { (handleImportOrders opened
            ([(sampleRow "ORD-2", sampleEnv 1)] ++ [(sampleRow "ORD-4", sampleEnv 2)])
            false false sampleTable).1 with
          errors := (handleImportOrders opened
            ([(sampleRow "ORD-2", sampleEnv 1)] ++ [(sampleRow "ORD-4", sampleEnv 2)])
            false false sampleTable).1.errors + 1 } ∧
    ∀ (db : IDBDatabase) (c : ImportSummary) (tc : Table) (row2 : Row) (env2 : RowEnv),
      opened.db = some db → env2.searchFails = true → env2.putFails = false →
      importRow opened false false (c, tc) (row2, env2)
        = ({ c with imported := c.imported + 1 },
            tc.put (stamp env2.saveCreatedNow env2.saveUpdatedNow
              (orderToSave (generateId env2.random) row2 none env2.createdNow
                env2.updatedNow)))) :=
  ⟨rfl, by decide,
    import_put_failure_absorbed opened false false sampleTable
      [(sampleRow "ORD-2", sampleEnv 1)] [(sampleRow "ORD-4", sampleEnv 2)]
      (sampleRow "ORD-3") putFailsEnv rfl (by decide)⟩

/-! ## Lemmas on search and restore -/

theorem searchRecords_id (self : OrdersManager) (db : IDBDatabase) (hdb : self.db = some db)
    (term : String) (t : Table) :
    self.searchRecords false term .id t = .ok (t.get term).toList := by
  simp only [searchRecords, hdb, if_true, Bool.false_eq_true, if_false]
  cases t.get term <;> rfl

theorem searchRecords_index (self : OrdersManager) (db : IDBDatabase)
    (hdb : self.db = some db) (term : String) (field : Field) (hf : field.indexed = true)
    (t : Table) :
    self.searchRecords false term field t = .ok (t.indexGetAll field term) := by
  have hne : field ≠ .id := by
    intro h; rw [h] at hf; simp [Field.indexed] at hf
  simp [searchRecords, hdb, hne, hf]

theorem Table.get_some_mem {t : Table} {j : String} {e : OrderRecord} (h : t.get j = some e) :
    e ∈ t ∧ e.id = j := by
  refine ⟨List.mem_of_find?_eq_some h, ?_⟩
  simpa using List.find?_some h

theorem Table.get_eq_none_of_fresh {t : Table} {j : String} (h : ∀ r ∈ t, r.id ≠ j) :
    t.get j = none := by
  simp only [Table.get, List.find?_eq_none, beq_iff_eq]
  exact h

theorem restorePuts_ok (orders : List OrderRecord) :
    ∀ t : Table, restorePuts (orders.map (fun o => (o, false))) t
      = .ok (orders.foldl (fun t o => Table.put o t) t) := by
  induction orders with
  | nil => intro t; rfl
  | cons o rest ih =>
    intro t
    simp only [List.map_cons, restorePuts, List.foldl_cons]
    exact ih (Table.put o t)

theorem foldl_put_spec :
    ∀ (orders : List OrderRecord) (t : Table), t.WF →
      (orders.map (fun o => o.id)).Nodup →
      (∀ o ∈ orders, ∀ r ∈ t, r.id ≠ o.id) →
      (orders.foldl (fun t o => Table.put o t) t).WF ∧
      (∀ r, r ∈ orders.foldl (fun t o => Table.put o t) t ↔ r ∈ t ∨ r ∈ orders) ∧
      (orders.foldl (fun t o => Table.put o t) t).length = t.length + orders.length := by
  intro orders
  induction orders with
  | nil => intro t hwf _ _; simp [hwf]
  | cons o rest ih =>
    intro t hwf hnd hfresh
    rw [List.map_cons, List.nodup_cons] at hnd
    have hfo : ∀ r ∈ t, r.id ≠ o.id := hfresh o (List.mem_cons_self _ _)
    have hmem : ∀ r, r ∈ Table.put o t ↔ r = o ∨ r ∈ t := by
      intro r
      constructor
      · exact Table.mem_put
      · rintro (rfl | h)
        · exact Table.mem_put_self _ _
        · exact Table.mem_put_of_ne h (hfo r h)
    have hlen : (Table.put o t).length = t.length + 1 := by
      rw [Table.length_put o hwf, Table.get_eq_none_of_fresh hfo]
      simp
    have hfresh2 : ∀ o2 ∈ rest, ∀ r ∈ Table.put o t, r.id ≠ o2.id := by
      intro o2 ho2 r hr
      rcases (hmem r).1 hr with rfl | hr
      · intro e
        exact hnd.1 (List.mem_map.2 ⟨o2, ho2, e.symm⟩)
      · exact hfresh o2 (List.mem_cons_of_mem _ ho2) r hr
    obtain ⟨h1, h2, h3⟩ := ih (Table.put o t) (Table.wf_put o hwf) hnd.2 hfresh2
    rw [List.foldl_cons]
    refine ⟨h1, ?_, ?_⟩
    · intro r
      rw [h2 r, hmem r, List.mem_cons]
      tauto
    · rw [h3, hlen, List.length_cons]
      omega

theorem initDatabase_ok (self : OrdersManager) (fails : Bool) (d : Database) :
    (fails = false ∧ d.version ≤ DB_VERSION ∧
      ∃ m d2, self.initDatabase fails d = (.ok m, d2) ∧ m.db.isSome = true) ∨
    ((fails = true ∨ DB_VERSION < d.version) ∧
      self.initDatabase fails d = (.error .requestFailed, d)) := by
  unfold initDatabase
  cases fails
  · by_cases hv : DB_VERSION < d.version
    · right; exact ⟨Or.inr hv, by simp [hv]⟩
    · left
      refine ⟨rfl, Nat.le_of_not_lt hv, ?_⟩
      simp only [Bool.false_eq_true, if_false, hv]
      split_ifs <;> exact ⟨_, _, rfl, rfl⟩
  · right; exact ⟨Or.inl rfl, by simp⟩

/-- C13 (counterexample): on an open database a `CLEAR_ALL_DATA` message gets
no reply at all, neither when the clear succeeds nor when it fails; the same
holds for a `RESTORE_BACKUP` message whose `put` fails and for an
`IMPORT_ORDERS` message. -/
theorem onMessage_no_reply :
    (handleClearAllData opened false sampleTable).1 = .ok () ∧
    (onMessage {} .clearAllData sampleDatabase).1 = [] ∧
    (handleClearAllData opened true sampleTable).1 = .error .requestFailed ∧
    (onMessage { requestFails := true } .clearAllData sampleDatabase).1 = [] ∧
    (handleRestoreBackup opened false [({ id := "z9" }, true)] sampleTable).1
      = .error .requestFailed ∧
    (onMessage {} (.restoreBackup [({ id := "z9" }, true)]) sampleDatabase).1 = [] ∧
    (onMessage {} (.importOrders sampleBatch false false) sampleDatabase).1 = [] := by
  decide

/-- C13 (amended): a `DELETE_ORDER` message gets exactly one reply,
`ORDER_DELETED` when the database opens and the delete succeeds and `ERROR`
otherwise.  An `IMPORT_ORDERS`, `RESTORE_BACKUP` or `CLEAR_ALL_DATA` message
gets no reply when the database opens, whatever happens inside the operation
(its failures are caught inside the handler functions and shown by `alert`),
and exactly one `ERROR` reply when the database does not open. -/
theorem onMessage_replies (env : HandlerEnv) (d : Database) :
    (∀ id : String, (onMessage env (.deleteOrder id) d).1
      = if env.openFails = false ∧ d.version ≤ DB_VERSION ∧ env.requestFails = false
        then [Reply.orderDeleted id] else [Reply.error .requestFailed]) ∧
    (∀ (orders : List (Row × RowEnv)) (ow bn : Bool),
      (onMessage env (.importOrders orders ow bn) d).1
        = if env.openFails = false ∧ d.version ≤ DB_VERSION then []
          else [Reply.error .requestFailed]) ∧
    (∀ orders : List (OrderRecord × Bool), (onMessage env (.restoreBackup orders) d).1
      = if env.openFails = false ∧ d.version ≤ DB_VERSION then []
        else [Reply.error .requestFailed]) ∧
    (onMessage env .clearAllData d).1
      = if env.openFails = false ∧ d.version ≤ DB_VERSION then []
        else [Reply.error .requestFailed] := by
  rcases initDatabase_ok OrdersManager.new env.openFails d with
    ⟨hf, hv, m, d2, hinit, hm⟩ | ⟨hbad, hinit⟩
  · obtain ⟨db, hdb⟩ := Option.isSome_iff_exists.1 hm
    have hinit2 := hinit
    rw [hf] at hinit2
    refine ⟨?_, ?_, ?_, ?_⟩
    · intro id
      cases hr : env.requestFails <;>
        simp [onMessage, hinit2, deleteRecordById, hdb, hr, hf, hv]
    · intro orders ow bn
      simp [onMessage, hinit2, hf, hv]
    · intro orders
      simp [onMessage, hinit2, hf, hv]
    · simp [onMessage, hinit2, hf, hv]
  · have hcond : ¬ (env.openFails = false ∧ d.version ≤ DB_VERSION) := by
      rintro ⟨h1, h2⟩
      rcases hbad with h | h
      · rw [h1] at h; cases h
      · exact absurd h2 (Nat.not_le_of_lt h)
    have hcond2 : ¬ (env.openFails = false ∧ d.version ≤ DB_VERSION ∧
        env.requestFails = false) := fun h => hcond ⟨h.1, h.2.1⟩
    refine ⟨?_, ?_, ?_, ?_⟩
    · intro id
      rw [if_neg hcond2]
      simp [onMessage, hinit]
    · intro orders ow bn
      rw [if_neg hcond]
      simp [onMessage, hinit]
    · intro orders
      rw [if_neg hcond]
      simp [onMessage, hinit]
    · rw [if_neg hcond]
      simp [onMessage, hinit]

/-- C14: on an open connection and for records with pairwise distinct ids,
`handleRestoreBackup` without a failing request reports the number of records
and leaves a table that holds exactly the supplied records, each as it was
supplied, and therefore none of the records stored before that is not among
them; restoring the empty list leaves the table empty. -/
theorem handleRestoreBackup_replaces (self : OrdersManager) (db : IDBDatabase)
    (hdb : self.db = some db) (t : Table) (orders : List OrderRecord)
    (hnodup : (orders.map (fun o => o.id)).Nodup) :
    (handleRestoreBackup self false (orders.map (fun o => (o, false))) t).1
      = .ok orders.length ∧
    (∀ r, r ∈ (handleRestoreBackup self false (orders.map (fun o => (o, false))) t).2
      ↔ r ∈ orders) ∧
    (handleRestoreBackup self false (orders.map (fun o => (o, false))) t).2.length
      = orders.length ∧
    (∀ o ∈ orders,
      (handleRestoreBackup self false (orders.map (fun o => (o, false))) t).2.get o.id
        = some o) ∧
    (∀ r ∈ t, r ∉ orders →
      r ∉ (handleRestoreBackup self false (orders.map (fun o => (o, false))) t).2) ∧
    (handleRestoreBackup self false [] t).2 = [] := by
  have hres : handleRestoreBackup self false (orders.map (fun o => (o, false))) t
      = (.ok orders.length, orders.foldl (fun t o => Table.put o t) []) := by
    simp [handleRestoreBackup, hdb, restorePuts_ok, Table.clear]
  obtain ⟨hwf, hmem, hlen⟩ := foldl_put_spec orders [] (by simp [Table.WF]) hnodup
    (fun _ _ r hr => by simp at hr)
  rw [hres]
  refine ⟨rfl, ?_, ?_, ?_, ?_, ?_⟩
  · intro r
    rw [hmem r]
    simp
  · rw [hlen]
    simp
  · intro o ho
    exact Table.get_eq_some_of_mem hwf ((hmem o).2 (Or.inr ho))
  · intro r _ hnot hin
    rcases (hmem r).1 hin with h | h
    · simp at h
    · exact hnot h
  · simp [handleRestoreBackup, hdb, restorePuts, Table.clear]

/-- Witness of C14: two records are restored over a store that holds another
one. -/
theorem handleRestoreBackup_replaces_witness :
    opened.db = some { name := "OrdersDB", version := 3 } ∧
    (([{ id := "k2", orderNumber := some "ORD-8" }, { id := "k1" }] : List OrderRecord).map
      (fun o => o.id)).Nodup ∧
    ((handleRestoreBackup opened false
        (([{ id := "k2", orderNumber := some "ORD-8" }, { id := "k1" }] : List OrderRecord).map
          (fun o => (o, false))) sampleTable).1
      = .ok ([{ id := "k2", orderNumber := some "ORD-8" }, { id := "k1" }] :
          List OrderRecord).length ∧
    (∀ r, r ∈ (handleRestoreBackup opened false
        (([{ id := "k2", orderNumber := some "ORD-8" }, { id := "k1" }] : List OrderRecord).map
          (fun o => (o, false))) sampleTable).2
      ↔ r ∈ ([{ id := "k2", orderNumber := some "ORD-8" }, { id := "k1" }] :
          List OrderRecord)) ∧
    (handleRestoreBackup opened false
        (([{ id := "k2", orderNumber := some "ORD-8" }, { id := "k1" }] : List OrderRecord).map
          (fun o => (o, false))) sampleTable).2.length
      = ([{ id := "k2", orderNumber := some "ORD-8" }, { id := "k1" }] :
          List OrderRecord).length ∧
    (∀ o ∈ ([{ id := "k2", orderNumber := some "ORD-8" }, { id := "k1" }] : List OrderRecord),
      (handleRestoreBackup opened false
        (([{ id := "k2", orderNumber := some "ORD-8" }, { id := "k1" }] : List OrderRecord).map
          (fun o => (o, false))) sampleTable).2.get o.id = some o) ∧
    (∀ r ∈ sampleTable,
      r ∉ ([{ id := "k2", orderNumber := some "ORD-8" }, { id := "k1" }] : List OrderRecord) →
      r ∉ (handleRestoreBackup opened false
        (([{ id := "k2", orderNumber := some "ORD-8" }, { id := "k1" }] : List OrderRecord).map
          (fun o => (o, false))) sampleTable).2) ∧
    (handleRestoreBackup opened false [] sampleTable).2 = []) :=
  ⟨rfl, by decide,
    handleRestoreBackup_replaces opened _ rfl sampleTable
      [{ id := "k2", orderNumber := some "ORD-8" }, { id := "k1" }] (by decide)⟩

/-- C17: on an open connection, `searchRecords(term, 'id')` returns at most one
record: the stored record whose id equals `term`, or the empty list when there
is none.  For an indexed field it returns exactly the stored records whose
value of that field equals `term`, in storage order; a record with any other
value, such as one that merely contains `term`, is not returned. -/
theorem searchRecords_exact (self : OrdersManager) (db : IDBDatabase)
    (hdb : self.db = some db) (t : Table) (ht : t.WF) (term : String) :
    (∃ rs, self.searchRecords false term .id t = .ok rs ∧ rs.length ≤ 1 ∧
      (∀ r, r ∈ rs ↔ r ∈ t ∧ r.id = term) ∧
      (rs = [] ↔ ∀ r ∈ t, r.id ≠ term)) ∧
    ∀ field : Field, field.indexed = true →
      ∃ rs, self.searchRecords false term field t = .ok rs ∧
        rs = t.filter (fun r => decide (r.prop field = some term)) ∧
        (∀ r, r ∈ rs ↔ r ∈ t ∧ r.prop field = some term) ∧
        (∀ r ∈ t, ∀ v, r.prop field = some v → v ≠ term → r ∉ rs) := by
  constructor
  · refine ⟨_, searchRecords_id self db hdb term t, ?_, ?_, ?_⟩
    · cases t.get term <;> simp
    · intro r
      constructor
      · intro hr
        cases hg : t.get term with
        | none => rw [hg] at hr; simp at hr
        | some e =>
          rw [hg] at hr
          simp only [Option.toList_some, List.mem_singleton] at hr
          subst hr
          exact Table.get_some_mem hg
      · rintro ⟨hr, hid⟩
        have hg := Table.get_eq_some_of_mem ht hr
        rw [hid] at hg
        rw [hg]
        simp
    · constructor
      · intro hnil r hr hid
        have hg := Table.get_eq_some_of_mem ht hr
        rw [hid] at hg
        rw [hg] at hnil
        simp at hnil
      · intro hall
        rw [Table.get_eq_none_of_fresh hall]
        rfl
  · intro field hf
    have hfilter : t.indexGetAll field term
        = t.filter (fun r => decide (r.prop field = some term)) := by
      unfold Table.indexGetAll
      congr 1
      funext r
      by_cases h : r.prop field = some term <;> simp [h]
    refine ⟨_, searchRecords_index self db hdb term field hf t, hfilter, ?_, ?_⟩
    · intro r
      rw [hfilter]
      simp [List.mem_filter]
    · intro r _ v hv hne
      rw [hfilter]
      simp only [List.mem_filter, decide_eq_true_eq, not_and]
      intro _ h
      rw [hv] at h
      exact hne (Option.some.inj h)

/-- Witness of C17: a store with the order numbers `ORD-1` and `ORD-12`. -/
theorem searchRecords_exact_witness :
    opened.db = some { name := "OrdersDB", version := 3 } ∧
    Table.WF [{ id := "a1", orderNumber := some "ORD-1" },
              { id := "b2", orderNumber := some "ORD-12" }] ∧
    ((∃ rs, opened.searchRecords false "b2" .id
        [{ id := "a1", orderNumber := some "ORD-1" },
         { id := "b2", orderNumber := some "ORD-12" }] = .ok rs ∧ rs.length ≤ 1 ∧
      (∀ r, r ∈ rs ↔ r ∈ ([{ id := "a1", orderNumber := some "ORD-1" },
          { id := "b2", orderNumber := some "ORD-12" }] : Table) ∧ r.id = "b2") ∧
      (rs = [] ↔ ∀ r ∈ ([{ id := "a1", orderNumber := some "ORD-1" },
          { id := "b2", orderNumber := some "ORD-12" }] : Table), r.id ≠ "b2")) ∧
    ∀ field : Field, field.indexed = true →
      ∃ rs, opened.searchRecords false "b2" field
          [{ id := "a1", orderNumber := some "ORD-1" },
           { id := "b2", orderNumber := some "ORD-12" }] = .ok rs ∧
        rs = List.filter (fun r => decide (r.prop field = some "b2"))
          [{ id := "a1", orderNumber := some "ORD-1" },
           { id := "b2", orderNumber := some "ORD-12" }] ∧
        (∀ r, r ∈ rs ↔ r ∈ ([{ id := "a1", orderNumber := some "ORD-1" },
          { id := "b2", orderNumber := some "ORD-12" }] : Table) ∧ r.prop field = some "b2") ∧
        (∀ r ∈ ([{ id := "a1", orderNumber := some "ORD-1" },
          { id := "b2", orderNumber := some "ORD-12" }] : Table),
          ∀ v, r.prop field = some v → v ≠ "b2" → r ∉ rs)) :=
  ⟨rfl, by decide,
    searchRecords_exact opened _ rfl
      [{ id := "a1", orderNumber := some "ORD-1" }, { id := "b2", orderNumber := some "ORD-12" }]
      (by decide) "b2"⟩

/-- C18: `searchByBottomNumber(b)` is an equality lookup.  On an open
connection it returns exactly the stored records whose `bottomNumber` equals
`b`, in storage order; it gives the same result as
`searchRecords(b, 'bottomNumber')` for every state of the manager and every
outcome of the request; and a record whose `bottomNumber` contains `b` with
something before or after it is not returned. -/
theorem searchByBottomNumber_exact (self : OrdersManager) (db : IDBDatabase)
    (hdb : self.db = some db) (t : Table) (b : String) :
    self.searchByBottomNumber false b t = .ok (recordsWithBottomNumber b t) ∧
    (∀ (m : OrdersManager) (fails : Bool),
      m.searchByBottomNumber fails b t = m.searchRecords fails b .bottomNumber t) ∧
    (∀ r, r ∈ recordsWithBottomNumber b t ↔ r ∈ t ∧ r.bottomNumber = some b) ∧
    (∀ r ∈ t, ∀ before after : String, r.bottomNumber = some (before ++ b ++ after) →
      before ++ after ≠ "" → r ∉ recordsWithBottomNumber b t) := by
  have hfilter : t.indexGetAll .bottomNumber b = recordsWithBottomNumber b t := by
    unfold Table.indexGetAll recordsWithBottomNumber
    congr 1
    funext r
    by_cases h : r.bottomNumber = some b <;> simp [h, OrderRecord.prop]
  refine ⟨?_, ?_, ?_, ?_⟩
  · simp [searchByBottomNumber, hdb, hfilter]
  · intro m fails
    cases hm : m.db <;> simp [searchByBottomNumber, searchRecords, hm, Field.indexed]
  · intro r
    simp [recordsWithBottomNumber, List.mem_filter]
  · intro r _ before after hv hne
    simp only [recordsWithBottomNumber, List.mem_filter, decide_eq_true_eq, not_and]
    intro _ h
    rw [hv] at h
    have hlen := congrArg String.length (Option.some.inj h)
    simp only [String.length_append] at hlen
    have h0 : (before ++ after).length = 0 := by
      rw [String.length_append]; omega
    apply hne
    apply String.ext
    have := List.length_eq_zero.1 h0
    simpa using this

/-- Witness of C18: the bottom numbers `12` and `123` are stored and `12` is
looked up. -/
theorem searchByBottomNumber_exact_witness :
    opened.db = some { name := "OrdersDB", version := 3 } ∧
    (opened.searchByBottomNumber false "12"
        [{ id := "a1", bottomNumber := some "12" }, { id := "b2", bottomNumber := some "123" }]
      = .ok (recordsWithBottomNumber "12"
        [{ id := "a1", bottomNumber := some "12" }, { id := "b2", bottomNumber := some "123" }]) ∧
    (∀ (m : OrdersManager) (fails : Bool),
      m.searchByBottomNumber fails "12"
          [{ id := "a1", bottomNumber := some "12" }, { id := "b2", bottomNumber := some "123" }]
        = m.searchRecords fails "12" .bottomNumber
          [{ id := "a1", bottomNumber := some "12" },
           { id := "b2", bottomNumber := some "123" }]) ∧
    (∀ r, r ∈ recordsWithBottomNumber "12"
          [{ id := "a1", bottomNumber := some "12" }, { id := "b2", bottomNumber := some "123" }]
        ↔ r ∈ ([{ id := "a1", bottomNumber := some "12" },
            { id := "b2", bottomNumber := some "123" }] : Table) ∧
          r.bottomNumber = some "12") ∧
    (∀ r ∈ ([{ id := "a1", bottomNumber := some "12" },
            { id := "b2", bottomNumber := some "123" }] : Table),
      ∀ before after : String, r.bottomNumber = some (before ++ "12" ++ after) →
      before ++ after ≠ "" → r ∉ recordsWithBottomNumber "12"
          [{ id := "a1", bottomNumber := some "12" },
           { id := "b2", bottomNumber := some "123" }])) :=
  ⟨rfl, searchByBottomNumber_exact opened _ rfl
    [{ id := "a1", bottomNumber := some "12" }, { id := "b2", bottomNumber := some "123" }] "12"⟩

/-! ## Lemmas on sorting -/

theorem cmp_total {cmp : String → String → Int}
    (hanti : ∀ x y, cmp x y < 0 ↔ 0 < cmp y x) (x y : String) :
    cmp x y ≤ 0 ∨ cmp y x ≤ 0 := by
  by_cases h : cmp x y ≤ 0
  · exact Or.inl h
  · right
    have h1 : 0 < cmp x y := lt_of_not_le h
    exact le_of_lt ((hanti y x).2 h1)

theorem cmp_zero_of_le {cmp : String → String → Int}
    (hanti : ∀ x y, cmp x y < 0 ↔ 0 < cmp y x) {x y : String}
    (h1 : cmp x y ≤ 0) (h2 : cmp y x ≤ 0) : cmp x y = 0 := by
  rcases lt_or_eq_of_le h1 with h | h
  · have := (hanti x y).1 h
    omega
  · exact h

theorem getAllRecords_ok (self : OrdersManager) (db : IDBDatabase) (hdb : self.db = some db)
    (cmp : String → String → Int) (f : Field) (dir : String) (t : Table) :
    self.getAllRecords cmp false f dir t
      = .ok (t.insertionSort (fun a b => compareRecords cmp f dir a b ≤ 0)) := by
  simp [getAllRecords, hdb, Table.getAll]

theorem compareRecords_desc (cmp : String → String → Int) (f : Field) (a b : OrderRecord) :
    compareRecords cmp f "desc" a b = cmp (orEmpty (b.prop f)) (orEmpty (a.prop f)) := by
  simp [compareRecords]

theorem compareRecords_asc (cmp : String → String → Int) (f : Field) (dir : String)
    (hdir : dir ≠ "desc") (a b : OrderRecord) :
    compareRecords cmp f dir a b = cmp (orEmpty (a.prop f)) (orEmpty (b.prop f)) := by
  simp [compareRecords, hdir]

theorem compareRecords_total {cmp : String → String → Int}
    (hanti : ∀ x y, cmp x y < 0 ↔ 0 < cmp y x) (f : Field) (dir : String)
    (a b : OrderRecord) :
    compareRecords cmp f dir a b ≤ 0 ∨ compareRecords cmp f dir b a ≤ 0 := by
  by_cases hdir : dir = "desc"
  · subst hdir
    rw [compareRecords_desc, compareRecords_desc]
    exact cmp_total hanti _ _
  · rw [compareRecords_asc cmp f dir hdir, compareRecords_asc cmp f dir hdir]
    exact cmp_total hanti _ _

theorem compareRecords_trans {cmp : String → String → Int}
    (htrans : ∀ x y z, cmp x y ≤ 0 → cmp y z ≤ 0 → cmp x z ≤ 0) (f : Field) (dir : String)
    (a b c : OrderRecord) (h1 : compareRecords cmp f dir a b ≤ 0)
    (h2 : compareRecords cmp f dir b c ≤ 0) : compareRecords cmp f dir a c ≤ 0 := by
  by_cases hdir : dir = "desc"
  · subst hdir
    rw [compareRecords_desc] at h1 h2 ⊢
    exact htrans _ _ _ h2 h1
  · rw [compareRecords_asc cmp f dir hdir] at h1 h2 ⊢
    exact htrans _ _ _ h1 h2

/-- The sort of `getAllRecords` yields a list in the order of the comparator. -/
theorem sorted_sort {cmp : String → String → Int}
    (hanti : ∀ x y, cmp x y < 0 ↔ 0 < cmp y x)
    (htrans : ∀ x y z, cmp x y ≤ 0 → cmp y z ≤ 0 → cmp x z ≤ 0) (f : Field) (dir : String)
    (t : Table) :
    (t.insertionSort (fun a b => compareRecords cmp f dir a b ≤ 0)).Pairwise
      (fun a b => compareRecords cmp f dir a b ≤ 0) := by
  haveI : IsTotal OrderRecord (fun a b => compareRecords cmp f dir a b ≤ 0) :=
    ⟨compareRecords_total hanti f dir⟩
  haveI : IsTrans OrderRecord (fun a b => compareRecords cmp f dir a b ≤ 0) :=
    ⟨compareRecords_trans htrans f dir⟩
  exact List.sorted_insertionSort _ t

theorem codePointCompare_neg {x y : String} : codePointCompare x y < 0 ↔ x < y := by
  unfold codePointCompare
  rw [← Table.keyLt_iff]
  split_ifs with h1 h2
  · simp [h1]
  · simp [h1]
  · simp [h1]

theorem codePointCompare_pos {x y : String} : 0 < codePointCompare x y ↔ y < x := by
  unfold codePointCompare
  split_ifs with h1 h2
  · have hxy := Table.keyLt_iff.1 h1
    constructor
    · intro h; exact absurd h (by decide)
    · intro h; exact absurd h (lt_asymm hxy)
  · subst h2; simp
  · have h3 : ¬ x < y := fun h => h1 (Table.keyLt_iff.2 h)
    simp only [Int.zero_lt_one, true_iff]
    exact lt_of_le_of_ne (not_lt.1 h3) (fun e => h2 e.symm)

theorem codePointCompare_nonpos {x y : String} : codePointCompare x y ≤ 0 ↔ x ≤ y := by
  rw [← not_lt, codePointCompare_pos, not_lt]

theorem codePointCompare_anti (x y : String) :
    codePointCompare x y < 0 ↔ 0 < codePointCompare y x := by
  rw [codePointCompare_neg, codePointCompare_pos]

theorem codePointCompare_trans (x y z : String) (h1 : codePointCompare x y ≤ 0)
    (h2 : codePointCompare y z ≤ 0) : codePointCompare x z ≤ 0 := by
  rw [codePointCompare_nonpos] at h1 h2 ⊢
  exact le_trans h1 h2

/-- C15: with a comparator that is a consistent comparison of strings,
`getAllRecords(f, dir)` on an open connection returns a permutation of the
stored records that is ordered by the comparison of the values of `f` (an
absent or empty value counting as the empty string), descending for `'desc'`
and ascending otherwise; records with equal values keep their storage order;
and a record whose value is strictly smaller never comes after (ascending) or
before (descending) one whose value is larger, whatever the values look like:
the comparison is that of the strings, so that `'10'` precedes `'9'` when the
comparator orders characters. -/
theorem getAllRecords_sorted (self : OrdersManager) (db : IDBDatabase)
    (hdb : self.db = some db) (cmp : String → String → Int)
    (hanti : ∀ x y, cmp x y < 0 ↔ 0 < cmp y x)
    (htrans : ∀ x y z, cmp x y ≤ 0 → cmp y z ≤ 0 → cmp x z ≤ 0)
    (f : Field) (dir : String) (t : Table) :
    ∃ rs, self.getAllRecords cmp false f dir t = .ok rs ∧
      rs.Perm t ∧
      (dir = "desc" →
        rs.Pairwise (fun a b => cmp (orEmpty (b.prop f)) (orEmpty (a.prop f)) ≤ 0)) ∧
      (dir ≠ "desc" →
        rs.Pairwise (fun a b => cmp (orEmpty (a.prop f)) (orEmpty (b.prop f)) ≤ 0)) ∧
      (∀ a b, orEmpty (a.prop f) = orEmpty (b.prop f) → List.Sublist [a, b] t → List.Sublist [a, b] rs) ∧
      (dir = "desc" →
        ∀ a b, cmp (orEmpty (a.prop f)) (orEmpty (b.prop f)) < 0 → ¬ List.Sublist [a, b] rs) ∧
      (dir ≠ "desc" →
        ∀ a b, cmp (orEmpty (a.prop f)) (orEmpty (b.prop f)) < 0 → ¬ List.Sublist [b, a] rs) := by
  have hsorted := sorted_sort hanti htrans f dir t
  refine ⟨_, getAllRecords_ok self db hdb cmp f dir t, List.perm_insertionSort _ t,
    ?_, ?_, ?_, ?_, ?_⟩
  · intro hdir
    subst hdir
    simpa only [compareRecords_desc] using hsorted
  · intro hdir
    simpa only [compareRecords_asc cmp f dir hdir] using hsorted
  · intro a b hkey hsub
    apply List.pair_sublist_insertionSort _ hsub
    have hrefl : cmp (orEmpty (b.prop f)) (orEmpty (b.prop f)) ≤ 0 := by
      rcases cmp_total hanti (orEmpty (b.prop f)) (orEmpty (b.prop f)) with h | h <;> exact h
    by_cases hdir : dir = "desc"
    · subst hdir
      rw [compareRecords_desc, hkey]
      exact hrefl
    · rw [compareRecords_asc cmp f dir hdir, hkey]
      exact hrefl
  · intro hdir a b hlt hsub
    subst hdir
    have hp := hsorted.sublist hsub
    rw [List.pairwise_pair, compareRecords_desc] at hp
    have := (hanti _ _).1 hlt
    omega
  · intro hdir a b hlt hsub
    have hp := hsorted.sublist hsub
    rw [List.pairwise_pair, compareRecords_asc cmp f dir hdir] at hp
    have := (hanti _ _).1 hlt
    omega

/-- Witness of C15: three records with the diameters `9`, `10` and `10` are
listed by ascending diameter; the two records with `10` come first, in their
storage order, and `9` comes last. -/
theorem getAllRecords_sorted_witness :
    opened.db = some { name := "OrdersDB", version := 3 } ∧
    (∀ x y, codePointCompare x y < 0 ↔ 0 < codePointCompare y x) ∧
    (∀ x y z, codePointCompare x y ≤ 0 → codePointCompare y z ≤ 0 →
      codePointCompare x z ≤ 0) ∧
    (∃ rs, opened.getAllRecords codePointCompare false .diameter "asc" sizeTable = .ok rs ∧
      rs.Perm sizeTable ∧
      ("asc" = "desc" →
        rs.Pairwise (fun a b => codePointCompare (orEmpty (b.prop .diameter))
          (orEmpty (a.prop .diameter)) ≤ 0)) ∧
      ("asc" ≠ "desc" →
        rs.Pairwise (fun a b => codePointCompare (orEmpty (a.prop .diameter))
          (orEmpty (b.prop .diameter)) ≤ 0)) ∧
      (∀ a b, orEmpty (a.prop .diameter) = orEmpty (b.prop .diameter) →
        List.Sublist [a, b] sizeTable → List.Sublist [a, b] rs) ∧
      ("asc" = "desc" →
        ∀ a b, codePointCompare (orEmpty (a.prop .diameter)) (orEmpty (b.prop .diameter)) < 0 →
          ¬ List.Sublist [a, b] rs) ∧
      ("asc" ≠ "desc" →
        ∀ a b, codePointCompare (orEmpty (a.prop .diameter)) (orEmpty (b.prop .diameter)) < 0 →
          ¬ List.Sublist [b, a] rs)) ∧
    codePointCompare "10" "9" < 0 ∧
    opened.getAllRecords codePointCompare false .diameter "asc" sizeTable
      = .ok [{ id := "b2", diameter := some "10" }, { id := "c3", diameter := some "10" },
             { id := "a1", diameter := some "9" }] :=
  ⟨rfl, codePointCompare_anti, codePointCompare_trans,
    getAllRecords_sorted opened _ rfl codePointCompare codePointCompare_anti
      codePointCompare_trans .diameter "asc" sizeTable,
    by decide, by decide⟩

theorem eq_of_perm_of_pairwise {α : Type} {R : α → α → Prop} :
    ∀ (l₁ l₂ : List α), l₁.Perm l₂ → l₁.Pairwise R → l₂.Pairwise R →
      (∀ a ∈ l₁, ∀ b ∈ l₁, R a b → R b a → a = b) → l₁ = l₂ := by
  intro l₁
  induction l₁ with
  | nil => intro l₂ hp _ _ _; exact hp.nil_eq
  | cons a l₁ ih =>
    intro l₂ hp h1 h2 hanti
    cases l₂ with
    | nil => exact absurd hp.length_eq (by simp)
    | cons b l₂ =>
      have hab : a = b := by
        by_contra hne
        have ha : a ∈ l₂ := by
          have : a ∈ b :: l₂ := hp.subset (List.mem_cons_self _ _)
          rcases List.mem_cons.1 this with h | h
          · exact absurd h hne
          · exact h
        have hb : b ∈ l₁ := by
          have : b ∈ a :: l₁ := hp.symm.subset (List.mem_cons_self _ _)
          rcases List.mem_cons.1 this with h | h
          · exact absurd h.symm hne
          · exact h
        have hba : R b a := (List.pairwise_cons.1 h2).1 a ha
        have hab2 : R a b := (List.pairwise_cons.1 h1).1 b hb
        exact hne (hanti a (List.mem_cons_self _ _) b (List.mem_cons_of_mem _ hb) hab2 hba)
      subst hab
      rw [ih l₂ ((List.perm_cons a).1 hp) (List.pairwise_cons.1 h1).2
        (List.pairwise_cons.1 h2).2
        (fun x hx y hy => hanti x (List.mem_cons_of_mem _ hx) y (List.mem_cons_of_mem _ hy))]

theorem cmp_zero_symm {cmp : String → String → Int}
    (hanti : ∀ x y, cmp x y < 0 ↔ 0 < cmp y x) {x y : String} (h : cmp x y = 0) :
    cmp y x = 0 := by
  have h1 : ¬ cmp y x < 0 := fun hlt => by
    have := (hanti y x).1 hlt
    omega
  have h2 : ¬ 0 < cmp y x := fun hlt => by
    have := (hanti x y).2 hlt
    omega
  omega

theorem canonicalCompare_anti (x y : String) :
    canonicalCompare x y < 0 ↔ 0 < canonicalCompare y x :=
  codePointCompare_anti _ _

theorem canonicalCompare_trans (x y z : String) (h1 : canonicalCompare x y ≤ 0)
    (h2 : canonicalCompare y z ≤ 0) : canonicalCompare x z ≤ 0 :=
  codePointCompare_trans _ _ _ h1 h2

/-- C16 (counterexample): two stored records carry as material the word
`ёлка`, once with `ё` as one character and once as `е` followed by the
combining mark U+0308.  The two values are distinct strings, yet a comparison
that gives zero for canonically equivalent strings leaves the records in
their storage order for `'asc'` and for `'desc'` alike, so the descending list
is not the reverse of the ascending one. -/
theorem getAllRecords_desc_not_reverse :
    (∀ x y, canonicalCompare x y < 0 ↔ 0 < canonicalCompare y x) ∧
    (∀ x y z, canonicalCompare x y ≤ 0 → canonicalCompare y z ≤ 0 →
      canonicalCompare x z ≤ 0) ∧
    (yoTable.map (fun r => orEmpty (r.prop .material))).Nodup ∧
    opened.getAllRecords canonicalCompare false .material "asc" yoTable = .ok yoTable ∧
    opened.getAllRecords canonicalCompare false .material "desc" yoTable = .ok yoTable ∧
    yoTable ≠ yoTable.reverse :=
  ⟨canonicalCompare_anti, canonicalCompare_trans, by decide, by decide, by decide, by decide⟩

/-- C16 (amended): with a comparator that is a consistent comparison of
strings, and for stored records no two of whose values of the field `f`
compare as equal, the list `getAllRecords(f, 'desc')` is exactly the reverse
of the list `getAllRecords(f, 'asc')`. -/
theorem getAllRecords_desc_reverse (self : OrdersManager) (db : IDBDatabase)
    (hdb : self.db = some db) (cmp : String → String → Int)
    (hanti : ∀ x y, cmp x y < 0 ↔ 0 < cmp y x)
    (htrans : ∀ x y z, cmp x y ≤ 0 → cmp y z ≤ 0 → cmp x z ≤ 0)
    (f : Field) (t : Table)
    (hdist : t.Pairwise
      (fun a b => cmp (orEmpty (a.prop f)) (orEmpty (b.prop f)) ≠ 0)) :
    ∃ asc desc, self.getAllRecords cmp false f "asc" t = .ok asc ∧
      self.getAllRecords cmp false f "desc" t = .ok desc ∧
      desc = asc.reverse := by
  refine ⟨_, _, getAllRecords_ok self db hdb cmp f "asc" t,
    getAllRecords_ok self db hdb cmp f "desc" t, ?_⟩
  have hasc := sorted_sort hanti htrans f "asc" t
  have hdesc := sorted_sort hanti htrans f "desc" t
  simp only [compareRecords_asc cmp f "asc" (by decide)] at hasc
  simp only [compareRecords_desc] at hdesc
  have hpa : (t.insertionSort (fun a b => compareRecords cmp f "asc" a b ≤ 0)).Perm t :=
    List.perm_insertionSort _ t
  have hpd : (t.insertionSort (fun a b => compareRecords cmp f "desc" a b ≤ 0)).Perm t :=
    List.perm_insertionSort _ t
  have hsymm : Symmetric
      (fun a b : OrderRecord => cmp (orEmpty (a.prop f)) (orEmpty (b.prop f)) ≠ 0) :=
    fun a b hab hba => hab (cmp_zero_symm hanti hba)
  apply eq_of_perm_of_pairwise
    (R := fun a b => cmp (orEmpty (b.prop f)) (orEmpty (a.prop f)) ≤ 0)
  · exact hpd.trans (hpa.symm.trans (List.reverse_perm _).symm)
  · exact hdesc
  · exact List.pairwise_reverse.2 hasc
  · intro a ha b hb h1 h2
    by_contra hne
    exact hdist.forall hsymm (hpd.subset ha) (hpd.subset hb) hne
      (cmp_zero_of_le hanti h2 h1)

/-- Witness of C16 (amended): two records with the diameters `9` and `10`. -/
theorem getAllRecords_desc_reverse_witness :
    opened.db = some { name := "OrdersDB", version := 3 } ∧
    (∀ x y, codePointCompare x y < 0 ↔ 0 < codePointCompare y x) ∧
    (∀ x y z, codePointCompare x y ≤ 0 → codePointCompare y z ≤ 0 →
      codePointCompare x z ≤ 0) ∧
    twoSizes.Pairwise (fun a b =>
      codePointCompare (orEmpty (a.prop .diameter)) (orEmpty (b.prop .diameter)) ≠ 0) ∧
    ∃ asc desc, opened.getAllRecords codePointCompare false .diameter "asc" twoSizes = .ok asc ∧
      opened.getAllRecords codePointCompare false .diameter "desc" twoSizes = .ok desc ∧
      desc = asc.reverse :=
  ⟨rfl, codePointCompare_anti, codePointCompare_trans, by decide,
    getAllRecords_desc_reverse opened _ rfl codePointCompare codePointCompare_anti
      codePointCompare_trans .diameter twoSizes (by decide)⟩

/-! ## Lemmas on the CSV import -/

theorem lookup_map_set_of_ne (name value key : String) (h : key ≠ name) :
    ∀ row : Row, List.lookup key
        (row.map (fun p => if p.1 == name then (name, value) else p)) = List.lookup key row := by
  intro row
  induction row with
  | nil => rfl
  | cons p rest ih =>
    obtain ⟨k, v⟩ := p
    have hb : (key == name) = false := by simpa using h
    by_cases hk : k = name
    · subst hk
      simp only [List.map_cons, beq_self_eq_true, if_true, List.lookup_cons, hb, ih]
    · have hkb : (k == name) = false := by simpa using hk
      simp only [List.map_cons, hkb, Bool.false_eq_true, if_false, List.lookup_cons, ih]

theorem lookup_map_set_self (name value : String) :
    ∀ row : Row, row.any (fun p => p.1 == name) = true →
      List.lookup name (row.map (fun p => if p.1 == name then (name, value) else p))
        = some value := by
  intro row
  induction row with
  | nil => intro h; simp at h
  | cons p rest ih =>
    obtain ⟨k, v⟩ := p
    intro h
    by_cases hk : k = name
    · subst hk
      simp [List.lookup_cons]
    · have hkb : (k == name) = false := by simpa using hk
      have hnk : (name == k) = false := by simpa using fun e : name = k => hk e.symm
      simp only [List.any_cons, hkb, Bool.false_or] at h
      simp only [List.map_cons, hkb, Bool.false_eq_true, if_false, List.lookup_cons, hnk]
      exact ih h

theorem lookup_none_of_not_any (name : String) :
    ∀ row : Row, row.any (fun p => p.1 == name) = false → List.lookup name row = none := by
  intro row
  induction row with
  | nil => intro _; rfl
  | cons p rest ih =>
    obtain ⟨k, v⟩ := p
    intro h
    simp only [List.any_cons, Bool.or_eq_false_iff] at h
    have hnk : (name == k) = false := by
      have : k ≠ name := by simpa using h.1
      simpa using fun e : name = k => this e.symm
    simp only [List.lookup_cons, hnk]
    exact ih h.2

theorem Row.get_set (row : Row) (name value key : String) :
    (row.set name value).get key = if key = name then some value else row.get key := by
  unfold Row.set Row.get
  by_cases hany : row.any (fun p => p.1 == name) = true
  · rw [if_pos hany]
    by_cases h : key = name
    · subst h
      rw [if_pos rfl, lookup_map_set_self _ _ row hany]
    · rw [if_neg h, lookup_map_set_of_ne _ _ _ h]
  · rw [if_neg hany]
    have hany2 : row.any (fun p => p.1 == name) = false := Bool.eq_false_iff.2 hany
    rw [List.lookup_append]
    by_cases h : key = name
    · subst h
      rw [if_pos rfl, lookup_none_of_not_any _ row hany2]
      simp [List.lookup_cons]
    · have hb : (key == name) = false := by simpa using h
      rw [if_neg h]
      simp [List.lookup_cons, hb]

/-- The properties of a built row, for header names that are pairwise
distinct: the value of a name is the value paired with it. -/
theorem get_foldl_set :
    ∀ (pairs : List (String × String)) (acc : Row) (key : String),
      (pairs.map Prod.fst).Nodup →
      (pairs.foldl (fun order p => order.set p.1 p.2) acc).get key
        = (match List.lookup key pairs with
          | some v => some v
          | none => acc.get key) := by
  intro pairs
  induction pairs with
  | nil => intro acc key _; rfl
  | cons p rest ih =>
    obtain ⟨k, v⟩ := p
    intro acc key hnd
    rw [List.map_cons, List.nodup_cons] at hnd
    rw [List.foldl_cons, ih _ _ hnd.2]
    by_cases h : key = k
    · subst h
      have hnone : List.lookup key rest = none := by
        rw [List.lookup_eq_none_iff]
        intro p hp
        have hne : p.1 ≠ key := fun e => hnd.1 (List.mem_map.2 ⟨p, hp, e⟩)
        simpa using fun e : key = p.1 => hne e.symm
      simp [hnone, Row.get_set, List.lookup_cons]
    · have hb : (key == k) = false := by simpa using h
      simp only [Row.get_set, if_neg h, List.lookup_cons, hb]

theorem lookup_eq_of_perm {l₁ l₂ : List (String × String)} (hp : l₁.Perm l₂)
    (hnd : (l₁.map Prod.fst).Nodup) (key : String) :
    List.lookup key l₁ = List.lookup key l₂ := by
  have hnd2 : (l₂.map Prod.fst).Nodup := (hp.map Prod.fst).nodup_iff.1 hnd
  have hchar : ∀ (l : List (String × String)), (l.map Prod.fst).Nodup →
      ∀ v, List.lookup key l = some v ↔ (key, v) ∈ l := by
    intro l
    induction l with
    | nil => intro _ v; simp
    | cons p rest ih =>
      obtain ⟨k, w⟩ := p
      intro hn v
      rw [List.map_cons, List.nodup_cons] at hn
      by_cases h : key = k
      · subst h
        simp only [List.lookup_cons, beq_self_eq_true, Option.some.injEq, List.mem_cons,
          Prod.mk.injEq, true_and]
        constructor
        · intro e; exact Or.inl e.symm
        · rintro (e | hm)
          · exact e.symm
          · exact absurd (List.mem_map.2 ⟨(key, v), hm, rfl⟩) hn.1
      · have hb : (key == k) = false := by simpa using h
        simp only [List.lookup_cons, hb, List.mem_cons, Prod.mk.injEq, h, false_and, false_or]
        exact ih hn.2 v
  apply Option.ext
  intro v
  rw [Option.mem_def, Option.mem_def, hchar l₁ hnd v, hchar l₂ hnd2 v]
  exact hp.mem_iff

theorem csvRow_eq_columns (headers : List String) (line : String) :
    csvRow headers (parseCSVLine line)
      = (csvColumns headers line).foldl
          (fun (order : Row) (p : String × String) => order.set p.1 p.2) [] := by
  unfold csvRow csvColumns
  rw [List.zip_map_right, List.foldl_map]
  rfl

theorem csvRow_get (headers : List String) (hnd : headers.Nodup) (line : String)
    (hlen : (parseCSVLine line).length = headers.length) (name : String) :
    (csvRow headers (parseCSVLine line)).get name
      = List.lookup name (csvColumns headers line) := by
  have hkeys : (csvColumns headers line).map Prod.fst = headers := by
    unfold csvColumns
    apply List.map_fst_zip
    rw [List.length_map, hlen]
  rw [csvRow_eq_columns, get_foldl_set _ _ _ (by rw [hkeys]; exact hnd)]
  cases List.lookup name (csvColumns headers line) <;> rfl

theorem filterMap_keep {α β : Type} (p : α → Bool) (g : α → β) :
    ∀ l : List α, l.filterMap (fun x => if p x = true then some (g x) else none)
      = (l.filter p).map g := by
  intro l
  induction l with
  | nil => rfl
  | cons a rest ih =>
    by_cases h : p a = true
    · simp [List.filterMap_cons, List.filter_cons, h, ih]
    · simp [List.filterMap_cons, List.filter_cons, h, ih]

theorem parseCSV_eq (toLowerCase : String → String) (text : String) :
    parseCSV toLowerCase text
      = ((csvLines text).tail.filter (fun line =>
            decide ((parseCSVLine line).length
              = (csvHeaders toLowerCase ((csvLines text).headD "")).length) &&
            csvRowValid (csvRow (csvHeaders toLowerCase ((csvLines text).headD ""))
              (parseCSVLine line)))).map
          (fun line => csvRow (csvHeaders toLowerCase ((csvLines text).headD ""))
            (parseCSVLine line)) := by
  unfold parseCSV
  simp only
  split_ifs with hlt
  · have htail : (csvLines text).tail = [] := by
      apply List.eq_nil_of_length_eq_zero
      rw [List.length_tail]
      omega
    rw [htail]
    rfl
  · rw [← filterMap_keep]
    congr 1
    funext line
    by_cases h1 : (parseCSVLine line).length
        = (csvHeaders toLowerCase ((csvLines text).headD "")).length
    · rw [if_neg (not_not_intro h1)]
      simp only [decide_eq_true h1, Bool.true_and]
    · rw [if_pos h1]
      simp only [decide_eq_false h1, Bool.false_and, Bool.false_eq_true, if_false]

theorem forall2_filterMap {α β γ δ : Type} {R : α → β → Prop} {S : γ → δ → Prop}
    {f : α → Option γ} {g : β → Option δ} {l : List α} {l' : List β}
    (h : List.Forall₂ R l l')
    (hfg : ∀ a b, R a b →
      (f a = none ∧ g b = none) ∨ ∃ x y, f a = some x ∧ g b = some y ∧ S x y) :
    List.Forall₂ S (l.filterMap f) (l'.filterMap g) := by
  induction h with
  | nil => exact List.Forall₂.nil
  | cons hab _ ih =>
    rcases hfg _ _ hab with ⟨h1, h2⟩ | ⟨x, y, h1, h2, hs⟩
    · rw [List.filterMap_cons_none h1, List.filterMap_cons_none h2]
      exact ih
    · rw [List.filterMap_cons_some h1, List.filterMap_cons_some h2]
      exact List.Forall₂.cons hs ih

/-- C19 (counterexample): the only data line of the text has as many fields
as the header and carries an order number but no date.  It has one of the two
columns, yet `parseCSV` drops it. -/
theorem parseCSV_drops_row_without_date :
    csvLines csvNoDate = ["номер заказа,дата заказа", "ORD-1,"] ∧
    (parseCSVLine "ORD-1,").length
      = (csvHeaders lowerBasic "номер заказа,дата заказа").length ∧
    (csvRow (csvHeaders lowerBasic "номер заказа,дата заказа") (parseCSVLine "ORD-1,")).get
      "номер заказа" = some "ORD-1" ∧
    parseCSV lowerBasic csvNoDate = [] := by
  decide

/-- C19 (amended): for every CSV text, `parseCSV` returns, in file order, the
rows built from the non-blank data lines whose number of parsed fields equals
the number of header fields and in which the order-number column and the date
column are both present and non-empty; a line in which either of the two is
missing or empty is dropped. -/
theorem parseCSV_keeps_rows_with_both (toLowerCase : String → String) (text : String) :
    parseCSV toLowerCase text
      = ((csvLines text).tail.filter (fun line =>
            decide ((parseCSVLine line).length
              = (csvHeaders toLowerCase ((csvLines text).headD "")).length) &&
            csvRowValid (csvRow (csvHeaders toLowerCase ((csvLines text).headD ""))
              (parseCSVLine line)))).map
          (fun line => csvRow (csvHeaders toLowerCase ((csvLines text).headD ""))
            (parseCSVLine line)) ∧
    (∀ order ∈ parseCSV toLowerCase text,
      truthy (order.get "номер заказа") = true ∧ truthy (order.get "дата заказа") = true) ∧
    (∀ order : Row, csvRowValid order = true ↔
      (∃ number date, order.get "номер заказа" = some number ∧ number ≠ "" ∧
        order.get "дата заказа" = some date ∧ date ≠ "")) := by
  refine ⟨parseCSV_eq toLowerCase text, ?_, ?_⟩
  · intro order horder
    rw [parseCSV_eq, List.mem_map] at horder
    obtain ⟨line, hline, rfl⟩ := horder
    have h := (List.mem_filter.1 hline).2
    simp only [Bool.and_eq_true, decide_eq_true_eq] at h
    simpa [csvRowValid] using h.2
  · intro order
    unfold csvRowValid
    rw [Bool.and_eq_true]
    constructor
    · rintro ⟨h1, h2⟩
      obtain ⟨e1, n1⟩ := truthy_some h1
      obtain ⟨e2, n2⟩ := truthy_some h2
      exact ⟨_, _, e1, n1, e2, n2⟩
    · rintro ⟨number, date, e1, n1, e2, n2⟩
      rw [e1, e2]
      simp [truthy, n1, n2]

/-- C20 (counterexample): two columns of the text carry the same header name
`материал`.  Exchanging these two columns changes the row that `parseCSV`
returns: the value of `материал` is that of whichever column comes last. -/
theorem parseCSV_twin_columns :
    ColumnsPermuted lowerBasic csvTwin csvTwinSwapped ∧
    (parseCSV lowerBasic csvTwin).map (fun row => row.get "материал") = [some "медь"] ∧
    (parseCSV lowerBasic csvTwinSwapped).map (fun row => row.get "материал")
      = [some "сталь"] ∧
    (parseCSV lowerBasic csvTwin).map (fun row => row.get "материал")
      ≠ (parseCSV lowerBasic csvTwinSwapped).map (fun row => row.get "материал") :=
  ⟨⟨by decide, List.Forall₂.cons ⟨by decide, by decide⟩ List.Forall₂.nil⟩,
    by decide, by decide, by decide⟩

/-- C20 (amended): for a CSV text whose header names are pairwise distinct
after trimming and lower-casing, `parseCSV` does not depend on the order of
the columns nor on the letter case of the header names: a text with the same
columns in another order and with re-cased header names yields the same number
of rows, and row by row the same value for every header name. -/
theorem parseCSV_columns_permuted (toLowerCase : String → String) (text text' : String)
    (hperm : ColumnsPermuted toLowerCase text text')
    (hnodup : (csvHeaders toLowerCase ((csvLines text).headD "")).Nodup) :
    List.Forall₂ (fun row row' : Row => ∀ name, row'.get name = row.get name)
      (parseCSV toLowerCase text) (parseCSV toLowerCase text') := by
  obtain ⟨hh, hrows⟩ := hperm
  have hlen := hh.length_eq
  have hnodup' := hh.nodup_iff.2 hnodup
  have htl := hrows.length_eq
  rw [List.length_tail, List.length_tail] at htl
  unfold parseCSV
  simp only
  by_cases hlt : (csvLines text).length < 2
  · have hlt' : (csvLines text').length < 2 := by omega
    rw [if_pos hlt, if_pos hlt']
    exact List.Forall₂.nil
  · have hlt' : ¬ (csvLines text').length < 2 := by omega
    rw [if_neg hlt, if_neg hlt']
    refine forall2_filterMap hrows ?_
    intro line line' hline
    obtain ⟨hcount, hcols⟩ := hline
    by_cases h1 : (parseCSVLine line).length
        = (csvHeaders toLowerCase ((csvLines text).headD "")).length
    · have h1' : (parseCSVLine line').length
          = (csvHeaders toLowerCase ((csvLines text').headD "")).length := by
        rw [hcount, h1, hlen]
      have hget : ∀ name,
          (csvRow (csvHeaders toLowerCase ((csvLines text').headD ""))
              (parseCSVLine line')).get name
            = (csvRow (csvHeaders toLowerCase ((csvLines text).headD ""))
              (parseCSVLine line)).get name := by
        intro name
        rw [csvRow_get _ hnodup' _ h1', csvRow_get _ hnodup _ h1]
        apply lookup_eq_of_perm hcols
        have hkeys : (csvColumns (csvHeaders toLowerCase ((csvLines text').headD ""))
            line').map Prod.fst = csvHeaders toLowerCase ((csvLines text').headD "") := by
          unfold csvColumns
          apply List.map_fst_zip
          rw [List.length_map, h1']
        rw [hkeys]
        exact hnodup'
      have hvalid : csvRowValid (csvRow (csvHeaders toLowerCase ((csvLines text').headD ""))
            (parseCSVLine line'))
          = csvRowValid (csvRow (csvHeaders toLowerCase ((csvLines text).headD ""))
            (parseCSVLine line)) := by
        unfold csvRowValid
        rw [hget, hget]
      rw [if_neg (not_not_intro h1), if_neg (not_not_intro h1'), hvalid]
      by_cases hv : csvRowValid (csvRow (csvHeaders toLowerCase ((csvLines text).headD ""))
            (parseCSVLine line)) = true
      · right
        rw [if_pos hv, if_pos hv]
        exact ⟨_, _, rfl, rfl, hget⟩
      · left
        rw [if_neg hv, if_neg hv]
        exact ⟨rfl, rfl⟩
    · have h1' : ¬ (parseCSVLine line').length
          = (csvHeaders toLowerCase ((csvLines text').headD "")).length := by
        rw [hcount, hlen]
        exact h1
      left
      rw [if_pos h1, if_pos h1']
      exact ⟨rfl, rfl⟩

/-- Witness of C20 (amended): a text with three columns, and the same text
with the columns rearranged and the header names in another letter case. -/
theorem parseCSV_columns_permuted_witness :
    ColumnsPermuted lowerBasic csvPlain csvPlainPermuted ∧
    (csvHeaders lowerBasic ((csvLines csvPlain).headD "")).Nodup ∧
    List.Forall₂ (fun row row' : Row => ∀ name, row'.get name = row.get name)
      (parseCSV lowerBasic csvPlain) (parseCSV lowerBasic csvPlainPermuted) :=
  ⟨⟨by decide, List.Forall₂.cons ⟨by decide, by decide⟩
      (List.Forall₂.cons ⟨by decide, by decide⟩ List.Forall₂.nil)⟩,
    by decide,
    parseCSV_columns_permuted lowerBasic csvPlain csvPlainPermuted
      ⟨by decide, List.Forall₂.cons ⟨by decide, by decide⟩
        (List.Forall₂.cons ⟨by decide, by decide⟩ List.Forall₂.nil)⟩
      (by decide)⟩

/-! ## Lemmas on `generateId` -/

theorem replaceDigit_zero_hex (byte : Nat) : isLowerHex (replaceDigit 0 byte) = true := by
  show isLowerHex (Nat.digitChar (0 ^^^ ((byte % 256) &&& 15))) = true
  have hle : (byte % 256) &&& 15 ≤ 15 := Nat.and_le_right
  generalize (byte % 256) &&& 15 = y at hle
  interval_cases y <;> decide

theorem replaceDigit_one_hex (byte : Nat) : isLowerHex (replaceDigit 1 byte) = true := by
  show isLowerHex (Nat.digitChar (1 ^^^ ((byte % 256) &&& 15))) = true
  have hle : (byte % 256) &&& 15 ≤ 15 := Nat.and_le_right
  generalize (byte % 256) &&& 15 = y at hle
  interval_cases y <;> decide

theorem replaceDigit_low_hex (c byte : Nat) (hc : c ≤ 1) :
    isLowerHex (replaceDigit c byte) = true := by
  interval_cases c
  · exact replaceDigit_zero_hex byte
  · exact replaceDigit_one_hex byte

theorem replaceDigit_eight (byte : Nat) : replaceDigit 8 byte ∈ ['8', '9', 'a', 'b'] := by
  show Nat.digitChar (8 ^^^ ((byte % 256) &&& 3)) ∈ ['8', '9', 'a', 'b']
  have hle : (byte % 256) &&& 3 ≤ 3 := Nat.and_le_right
  generalize (byte % 256) &&& 3 = y at hle
  interval_cases y <;> decide

theorem generateId_chars (random : Nat → Nat) :
    (generateId random).toList
      = [replaceDigit 1 (random 0), replaceDigit 0 (random 1), replaceDigit 0 (random 2),
         replaceDigit 0 (random 3), replaceDigit 0 (random 4), replaceDigit 0 (random 5),
         replaceDigit 0 (random 6), replaceDigit 0 (random 7), '-',
         replaceDigit 1 (random 8), replaceDigit 0 (random 9), replaceDigit 0 (random 10),
         replaceDigit 0 (random 11), '-', '4',
         replaceDigit 0 (random 12), replaceDigit 0 (random 13), replaceDigit 0 (random 14), '-',
         replaceDigit 8 (random 15), replaceDigit 0 (random 16), replaceDigit 0 (random 17),
         replaceDigit 0 (random 18), '-',
         replaceDigit 1 (random 19), replaceDigit 0 (random 20), replaceDigit 0 (random 21),
         replaceDigit 0 (random 22), replaceDigit 0 (random 23), replaceDigit 0 (random 24),
         replaceDigit 0 (random 25), replaceDigit 0 (random 26), replaceDigit 0 (random 27),
         replaceDigit 0 (random 28), replaceDigit 0 (random 29), replaceDigit 0 (random 30)] := by
  simp [generateId, replaceAll, idTemplate]

/-- C21: for every sequence of bytes of the random source, `generateId`
returns a string of exactly 36 characters with `-` at the positions 8, 13, 18
and 23, `4` at position 14, one of `8`, `9`, `a`, `b` at position 19, and a
lower-case hexadecimal digit at every other position. -/
theorem generateId_shape (random : Nat → Nat) :
    (generateId random).length = 36 ∧
    (∀ i ∈ [8, 13, 18, 23], (generateId random).toList.get? i = some '-') ∧
    (generateId random).toList.get? 14 = some '4' ∧
    (∃ c ∈ ['8', '9', 'a', 'b'], (generateId random).toList.get? 19 = some c) ∧
    (∀ i, i < 36 → i ∉ [8, 13, 14, 18, 19, 23] →
      ∃ c, (generateId random).toList.get? i = some c ∧ isLowerHex c = true) := by
  have hchars := generateId_chars random
  refine ⟨?_, ?_, ?_, ?_, ?_⟩
  · show (generateId random).toList.length = 36
    rw [hchars]; rfl
  · intro i hi
    rw [hchars]
    simp only [List.mem_cons, List.mem_singleton, List.not_mem_nil, or_false] at hi
    rcases hi with rfl | rfl | rfl | rfl <;> rfl
  · rw [hchars]; rfl
  · rw [hchars]
    exact ⟨_, replaceDigit_eight (random 15), rfl⟩
  · intro i hi hnot
    rw [hchars]
    simp only [List.mem_cons, List.mem_singleton, List.not_mem_nil, or_false, not_or] at hnot
    interval_cases i <;>
      first
        | (exfalso; exact absurd rfl hnot.1)
        | (exfalso; exact absurd rfl hnot.2.1)
        | (exfalso; exact absurd rfl hnot.2.2.1)
        | (exfalso; exact absurd rfl hnot.2.2.2.1)
        | (exfalso; exact absurd rfl hnot.2.2.2.2.1)
        | (exfalso; exact absurd rfl hnot.2.2.2.2.2)
        | exact ⟨_, rfl, replaceDigit_low_hex _ _ (by decide)⟩

/-- C22: `validateForm` returns true exactly when the order number and the
date are both non-empty and every character of the order number is an ASCII
letter, a digit or a hyphen; when it returns false `submitForm` returns before
saving and leaves the table as it was, so a record reaches `saveRecord` from
the primary form only with values that pass the validation. -/
theorem validateForm_accepts (form : FormValues) :
    (validateForm form = true ↔
      form.orderNumber ≠ "" ∧ form.date ≠ "" ∧
      ∀ c ∈ form.orderNumber.toList, c.isAlpha = true ∨ c.isDigit = true ∨ c = '-') ∧
    (∀ (self : OrdersManager) (random : Nat → Nat) (now createdNow updatedNow : String)
        (fails : Bool) (t : Table),
      submitForm self form random now createdNow updatedNow fails t
        = if validateForm form = true then
            (some (self.saveRecord createdNow updatedNow fails
                (collectFormData form random now) t).1,
              (self.saveRecord createdNow updatedNow fails
                (collectFormData form random now) t).2)
          else (none, t)) := by
  constructor
  · have hne : ∀ s : String, truthy (some s) = true ↔ s ≠ "" := by
      intro s; simp [truthy]
    have hpat : orderNumberPattern form.orderNumber = true ↔
        form.orderNumber ≠ "" ∧
        ∀ c ∈ form.orderNumber.toList, c.isAlpha = true ∨ c.isDigit = true ∨ c = '-' := by
      unfold orderNumberPattern isOrderNumberChar
      have hs : form.orderNumber.toList.isEmpty = true ↔ form.orderNumber = "" := by
        rw [List.isEmpty_iff]
        constructor
        · intro h; exact String.ext h
        · intro h; rw [h]; rfl
      simp only [Bool.and_eq_true, Bool.not_eq_true', List.all_eq_true, Bool.or_eq_true,
        beq_iff_eq, or_assoc]
      rw [← Bool.not_eq_true, hs]
    unfold validateForm
    by_cases h1 : truthy (some form.orderNumber) = true
    · by_cases h2 : truthy (some form.date) = true
      · by_cases h3 : orderNumberPattern form.orderNumber = true
        · simp only [h1, h2, h3, Bool.not_true, Bool.or_self, Bool.false_eq_true, if_false,
            true_iff]
          exact ⟨(hne _).1 h1, (hne _).1 h2, (hpat.1 h3).2⟩
        · have h3' : orderNumberPattern form.orderNumber = false := by simpa using h3
          simp only [h1, h2, h3', Bool.not_true, Bool.or_self, Bool.false_eq_true, if_false,
            Bool.not_false, if_true, false_iff]
          rintro ⟨hn, _, hc⟩
          exact h3 (hpat.2 ⟨hn, hc⟩)
      · have h2' : truthy (some form.date) = false := by simpa using h2
        simp only [h1, h2', Bool.not_true, Bool.not_false, Bool.or_true, if_true,
          Bool.false_eq_true, false_iff]
        rintro ⟨_, hd, _⟩
        exact h2 ((hne _).2 hd)
    · have h1' : truthy (some form.orderNumber) = false := by simpa using h1
      simp only [h1', Bool.not_false, Bool.true_or, if_true, Bool.false_eq_true, false_iff]
      rintro ⟨hn, _, _⟩
      exact h1 ((hne _).2 hn)
  · intro self random now createdNow updatedNow fails t
    unfold submitForm
    cases validateForm form <;> simp

/-- C23: an open that succeeds while the stored version is lower than the
version asked for runs the upgrade, which drops the `orders` table and creates
it anew: whatever the table held, it holds no row after the open.  An open at
the stored version leaves the database, every row included, as it was. -/
theorem initDatabase_upgrade_destroys (self : OrdersManager) (d : Database)
    (hv : d.version ≤ DB_VERSION) :
    (∃ m, (self.initDatabase false d).1 = .ok m ∧ m.db.isSome = true) ∧
    (self.initDatabase false d).2.version = DB_VERSION ∧
    (self.initDatabase false d).2.orders
      = (if d.version < DB_VERSION then [] else d.orders) ∧
    (d.version = DB_VERSION → (self.initDatabase false d).2 = d) := by
  unfold initDatabase
  have h1 : ¬ DB_VERSION < d.version := Nat.not_lt.2 hv
  rw [if_neg (by decide : ¬ (false = true)), if_neg h1]
  by_cases h2 : d.version < DB_VERSION
  · rw [if_pos h2, if_pos h2]
    exact ⟨⟨_, rfl, rfl⟩, rfl, rfl, fun h => absurd h (Nat.ne_of_lt h2)⟩
  · rw [if_neg h2, if_neg h2]
    have heq : d.version = DB_VERSION := by omega
    exact ⟨⟨_, rfl, rfl⟩, heq, rfl, fun _ => rfl⟩

/-- Witness of C23: a database at version 2 that holds a record is opened. -/
theorem initDatabase_upgrade_destroys_witness :
    ({ version := 2, orders := sampleTable } : Database).version ≤ DB_VERSION ∧
    ((∃ m, (OrdersManager.new.initDatabase false { version := 2, orders := sampleTable }).1
        = .ok m ∧ m.db.isSome = true) ∧
    (OrdersManager.new.initDatabase false { version := 2, orders := sampleTable }).2.version
      = DB_VERSION ∧
    (OrdersManager.new.initDatabase false { version := 2, orders := sampleTable }).2.orders
      = (if ({ version := 2, orders := sampleTable } : Database).version < DB_VERSION then []
         else ({ version := 2, orders := sampleTable } : Database).orders) ∧
    (({ version := 2, orders := sampleTable } : Database).version = DB_VERSION →
      (OrdersManager.new.initDatabase false { version := 2, orders := sampleTable }).2
        = { version := 2, orders := sampleTable })) ∧
    (OrdersManager.new.initDatabase false { version := 2, orders := sampleTable }).2.orders = [] ∧
    (OrdersManager.new.initDatabase false sampleDatabase).2.orders = sampleTable :=
  ⟨by decide,
    initDatabase_upgrade_destroys OrdersManager.new { version := 2, orders := sampleTable }
      (by decide),
    by decide, by decide⟩

/-! ## Lemmas on the record an import writes -/

theorem orEmpty_eq_getD (v : Option String) : orEmpty v = v.getD "" := by
  cases v with
  | none => rfl
  | some s =>
    by_cases h : s = ""
    · subst h; rfl
    · simp [orEmpty, truthy, h]

theorem stamp_fields (c u : String) (r : OrderRecord) :
    (stamp c u r).date = r.date ∧ (stamp c u r).orderNumber = r.orderNumber ∧
    (stamp c u r).diameter = r.diameter ∧ (stamp c u r).thickness = r.thickness ∧
    (stamp c u r).typeSize = r.typeSize ∧ (stamp c u r).cutting = r.cutting ∧
    (stamp c u r).bottomNumber = r.bottomNumber ∧ (stamp c u r).material = r.material ∧
    (stamp c u r).heatTreatment = r.heatTreatment ∧
    (stamp c u r).treatmentDate = r.treatmentDate ∧
    (stamp c u r).executors = r.executors := by
  unfold stamp
  split_ifs <;> exact ⟨rfl, rfl, rfl, rfl, rfl, rfl, rfl, rfl, rfl, rfl, rfl⟩

/-- The fields of the record `saveRecord` stores for the record built from a
row: the values of the row, whatever record was stored before. -/
theorem saved_fields (c u : String) (orderId : String) (row : Row)
    (existing : Option OrderRecord) (cn un : String) :
    (stamp c u (orderToSave orderId row existing cn un)).date
      = some ((row.get "дата заказа").getD "") ∧
    (stamp c u (orderToSave orderId row existing cn un)).orderNumber
      = some ((row.get "номер заказа").getD "") ∧
    (stamp c u (orderToSave orderId row existing cn un)).diameter
      = some ((row.get "диаметр (мм)").getD "") ∧
    (stamp c u (orderToSave orderId row existing cn un)).thickness
      = some ((row.get "толщина (мм)").getD "") ∧
    (stamp c u (orderToSave orderId row existing cn un)).typeSize
      = some ((row.get "типоразмер").getD "") ∧
    (stamp c u (orderToSave orderId row existing cn un)).cutting
      = some ((row.get "раскрой").getD "") ∧
    (stamp c u (orderToSave orderId row existing cn un)).bottomNumber
      = some ((row.get "номер днища").getD "") ∧
    (stamp c u (orderToSave orderId row existing cn un)).material
      = some ((row.get "материал").getD "") ∧
    (stamp c u (orderToSave orderId row existing cn un)).heatTreatment
      = some ((row.get "режим то").getD "") ∧
    (stamp c u (orderToSave orderId row existing cn un)).treatmentDate
      = some ((row.get "дата то").getD "") ∧
    (stamp c u (orderToSave orderId row existing cn un)).executors =
      [ { name := (row.get "сварщик").getD "", date := (row.get "дата сварки").getD "" },
        { name := (row.get "штамповка").getD "", date := (row.get "дата штамповки").getD "" },
        { name := (row.get "отбортовка").getD "",
          date := (row.get "дата отбортовки").getD "" },
        { name := (row.get "калибровка").getD "",
          date := (row.get "дата калибровки").getD "" },
        { name := (row.get "сварщик (заглушки)").getD "",
          date := (row.get "дата сварки заглушек").getD "" },
        { name := (row.get "резчик").getD "", date := (row.get "дата резки").getD "" } ] ∧
    { stamp c u (orderToSave orderId row existing cn un) with id := "", createdAt := none }
      = { stamp c u (orderToSave "" row none cn un) with id := "", createdAt := none } := by
  obtain ⟨h1, h2, h3, h4, h5, h6, h7, h8, h9, h10, h11⟩ :=
    stamp_fields c u (orderToSave orderId row existing cn un)
  rw [h1, h2, h3, h4, h5, h6, h7, h8, h9, h10, h11]
  refine ⟨?_, ?_, ?_, ?_, ?_, ?_, ?_, ?_, ?_, ?_, ?_, ?_⟩
  all_goals try (simp only [orderToSave, orEmpty_eq_getD])
  unfold stamp
  simp only [orderToSave]
  split_ifs <;> rfl

/-- C24: a row that `handleImportOrders` creates or updates (it is not
skipped and its `put` succeeds) writes a record whose ten scalar fields are
the values of the row for the corresponding columns, the empty string where a
column is missing, and whose executors are exactly six slots filled by
position from the six pairs of name and date columns.  Apart from `id` and
`createdAt` the record written by an update does not depend on the record
stored before: it is the record the same row gives when it creates. -/
theorem importRow_record_fields (self : OrdersManager) (db : IDBDatabase)
    (hdb : self.db = some db) (ow bn : Bool) (c : ImportSummary) (t : Table) (row : Row)
    (env : RowEnv) (hput : env.putFails = false)
    (hreach : ¬ ((findExisting self bn env.searchFails row t).isSome = true ∧ ow = false)) :
    ∃ w : OrderRecord,
      (importRow self ow bn (c, t) (row, env)).2 = t.put w ∧
      (t.put w).get w.id = some w ∧
      w.date = some ((row.get "дата заказа").getD "") ∧
      w.orderNumber = some ((row.get "номер заказа").getD "") ∧
      w.diameter = some ((row.get "диаметр (мм)").getD "") ∧
      w.thickness = some ((row.get "толщина (мм)").getD "") ∧
      w.typeSize = some ((row.get "типоразмер").getD "") ∧
      w.cutting = some ((row.get "раскрой").getD "") ∧
      w.bottomNumber = some ((row.get "номер днища").getD "") ∧
      w.material = some ((row.get "материал").getD "") ∧
      w.heatTreatment = some ((row.get "режим то").getD "") ∧
      w.treatmentDate = some ((row.get "дата то").getD "") ∧
      w.executors =
        [ { name := (row.get "сварщик").getD "", date := (row.get "дата сварки").getD "" },
          { name := (row.get "штамповка").getD "", date := (row.get "дата штамповки").getD "" },
          { name := (row.get "отбортовка").getD "",
            date := (row.get "дата отбортовки").getD "" },
          { name := (row.get "калибровка").getD "",
            date := (row.get "дата калибровки").getD "" },
          { name := (row.get "сварщик (заглушки)").getD "",
            date := (row.get "дата сварки заглушек").getD "" },
          { name := (row.get "резчик").getD "", date := (row.get "дата резки").getD "" } ] ∧
      w.executors.length = 6 ∧
      w.updatedAt = some env.saveUpdatedNow ∧
      (∀ e, findExisting self bn env.searchFails row t = some e →
        w.id = e.id ∧
        { w with id := "", createdAt := none }
          = { stamp env.saveCreatedNow env.saveUpdatedNow
                (orderToSave "" row none env.createdNow env.updatedNow) with
              id := "", createdAt := none }) := by
  cases hex : findExisting self bn env.searchFails row t with
  | none =>
    obtain ⟨h1, h2, h3, h4, h5, h6, h7, h8, h9, h10, h11, h12⟩ :=
      saved_fields env.saveCreatedNow env.saveUpdatedNow (generateId env.random) row none
        env.createdNow env.updatedNow
    refine ⟨_, by rw [importRow_create self db hdb ow bn c t row env hex hput],
      Table.get_put_self _ t, h1, h2, h3, h4, h5, h6, h7, h8, h9, h10, h11, ?_,
      stamp_updatedAt _ _ _, ?_⟩
    · rw [h11]; rfl
    · intro e he
      exact absurd he (by simp)
  | some e =>
    have how : ow = true := by
      cases ow
      · exact absurd ⟨by rw [hex]; rfl, rfl⟩ hreach
      · rfl
    subst how
    obtain ⟨h1, h2, h3, h4, h5, h6, h7, h8, h9, h10, h11, h12⟩ :=
      saved_fields env.saveCreatedNow env.saveUpdatedNow e.id row (some e)
        env.createdNow env.updatedNow
    refine ⟨_, by rw [importRow_update self db hdb bn c t row env e hex hput],
      Table.get_put_self _ t, h1, h2, h3, h4, h5, h6, h7, h8, h9, h10, h11, ?_,
      stamp_updatedAt _ _ _, ?_⟩
    · rw [h11]; rfl
    · intro e2 he2
      cases he2
      exact ⟨id_saved _ _ _ _ _ _ _, h12⟩

/-- Witness of C24: a row with an order number, a date and a welder updates
the stored record `a1`. -/
theorem importRow_record_fields_witness :
    opened.db = some { name := "OrdersDB", version := 3 } ∧
    (sampleEnv 0).putFails = false ∧
    ¬ ((findExisting opened false (sampleEnv 0).searchFails welderRow sampleTable).isSome = true
        ∧ true = false) ∧
    ∃ w : OrderRecord,
      (importRow opened true false ({}, sampleTable) (welderRow, sampleEnv 0)).2
        = sampleTable.put w ∧
      (sampleTable.put w).get w.id = some w ∧
      w.date = some ((welderRow.get "дата заказа").getD "") ∧
      w.orderNumber = some ((welderRow.get "номер заказа").getD "") ∧
      w.diameter = some ((welderRow.get "диаметр (мм)").getD "") ∧
      w.thickness = some ((welderRow.get "толщина (мм)").getD "") ∧
      w.typeSize = some ((welderRow.get "типоразмер").getD "") ∧
      w.cutting = some ((welderRow.get "раскрой").getD "") ∧
      w.bottomNumber = some ((welderRow.get "номер днища").getD "") ∧
      w.material = some ((welderRow.get "материал").getD "") ∧
      w.heatTreatment = some ((welderRow.get "режим то").getD "") ∧
      w.treatmentDate = some ((welderRow.get "дата то").getD "") ∧
      w.executors =
        [ { name := (welderRow.get "сварщик").getD "",
            date := (welderRow.get "дата сварки").getD "" },
          { name := (welderRow.get "штамповка").getD "",
            date := (welderRow.get "дата штамповки").getD "" },
          { name := (welderRow.get "отбортовка").getD "",
            date := (welderRow.get "дата отбортовки").getD "" },
          { name := (welderRow.get "калибровка").getD "",
            date := (welderRow.get "дата калибровки").getD "" },
          { name := (welderRow.get "сварщик (заглушки)").getD "",
            date := (welderRow.get "дата сварки заглушек").getD "" },
          { name := (welderRow.get "резчик").getD "",
            date := (welderRow.get "дата резки").getD "" } ] ∧
      w.executors.length = 6 ∧
      w.updatedAt = some (sampleEnv 0).saveUpdatedNow ∧
      (∀ e, findExisting opened false (sampleEnv 0).searchFails welderRow sampleTable = some e →
        w.id = e.id ∧
        { w with id := "", createdAt := none }
          = { stamp (sampleEnv 0).saveCreatedNow (sampleEnv 0).saveUpdatedNow
                (orderToSave "" welderRow none (sampleEnv 0).createdNow
                  (sampleEnv 0).updatedNow) with
              id := "", createdAt := none }) :=
  ⟨rfl, rfl, by decide,
    importRow_record_fields opened _ rfl true false {} sampleTable welderRow (sampleEnv 0) rfl
      (by decide)⟩

/-- C25: several stored records share the non-empty match key of a row, and
the index lookup returns `e` first.  With `overwrite = true` the row replaces
the record `e` and no other: every record with another id, the other records
with that key among them, is still stored as it was, nothing else is added,
and the number of records does not change.  With `overwrite = false` the row
is skipped once and the table is left as it was. -/
theorem importRow_shared_key (self : OrdersManager) (db : IDBDatabase)
    (hdb : self.db = some db) (bn : Bool) (c : ImportSummary) (t : Table) (ht : t.WF)
    (row : Row) (env : RowEnv) (e : OrderRecord) (others : List OrderRecord)
    (hsearch : env.searchFails = false) (hput : env.putFails = false)
    (hkey : truthy (searchKeyOf bn row) = true)
    (hmatch : t.indexGetAll (matchField bn) ((searchKeyOf bn row).getD "") = e :: others) :
    (∃ w : OrderRecord,
      importRow self true bn (c, t) (row, env)
        = ({ c with updated := c.updated + 1 }, t.put w) ∧
      w.id = e.id ∧
      (∀ r ∈ others, r ∈ t ∧ r.id ≠ e.id ∧
        r.prop (matchField bn) = some ((searchKeyOf bn row).getD "")) ∧
      (∀ r ∈ t, r.id ≠ e.id → r ∈ t.put w ∧ (t.put w).get r.id = some r) ∧
      (∀ r ∈ t.put w, r = w ∨ (r ∈ t ∧ r.id ≠ e.id)) ∧
      (t.put w).length = t.length) ∧
    importRow self false bn (c, t) (row, env) = ({ c with skipped := c.skipped + 1 }, t) := by
  have hex : findExisting self bn env.searchFails row t = some e := by
    rw [hsearch, findExisting_eq self db hdb, if_pos hkey, hmatch]
    rfl
  have hmem : ∀ r, r ∈ e :: others → r ∈ t ∧
      r.prop (matchField bn) = some ((searchKeyOf bn row).getD "") := by
    intro r hr
    rw [← hmatch] at hr
    simpa [Table.indexGetAll, List.mem_filter] using hr
  have hsub : List.Sublist (e :: others) t := by
    rw [← hmatch]
    exact List.filter_sublist _
  have hpw : (e :: others).Pairwise (fun a b => Table.keyLt a.id b.id) :=
    List.Pairwise.sublist hsub ht
  have he : e ∈ t := (hmem e (List.mem_cons_self _ _)).1
  have hid := id_saved env.saveCreatedNow env.saveUpdatedNow e.id row (some e)
    env.createdNow env.updatedNow
  refine ⟨⟨_, importRow_update self db hdb bn c t row env e hex hput, hid, ?_, ?_, ?_, ?_⟩,
    importRow_skip self bn c t row env e hex⟩
  · intro r hr
    have h := hmem r (List.mem_cons_of_mem _ hr)
    exact ⟨h.1, fun hre => Table.ne_of_keyLt ((List.pairwise_cons.1 hpw).1 r hr) hre.symm, h.2⟩
  · intro r hr hne
    have hin : r ∈ Table.put (stamp env.saveCreatedNow env.saveUpdatedNow
        (orderToSave e.id row (some e) env.createdNow env.updatedNow)) t :=
      Table.mem_put_of_ne hr (by rw [hid]; exact hne)
    exact ⟨hin, Table.get_eq_some_of_mem (Table.wf_put _ ht) hin⟩
  · intro r hr
    rcases Table.mem_put hr with h | h
    · exact Or.inl h
    · by_cases hre : r.id = e.id
      · left
        have hw_in := Table.mem_put_self (stamp env.saveCreatedNow env.saveUpdatedNow
          (orderToSave e.id row (some e) env.createdNow env.updatedNow)) t
        exact Table.eq_of_mem_of_id_eq (Table.wf_put _ ht) hr hw_in (by rw [hid]; exact hre)
      · exact Or.inr ⟨h, hre⟩
  · rw [Table.length_put _ ht, hid, Table.get_eq_some_of_mem ht he]
    simp

/-- Witness of C25: the records `a1` and `b2` both carry the order number
`ORD-1` of the row; the lookup returns `a1` first. -/
theorem importRow_shared_key_witness :
    opened.db = some { name := "OrdersDB", version := 3 } ∧
    twinKeyTable.WF ∧
    (sampleEnv 0).searchFails = false ∧ (sampleEnv 0).putFails = false ∧
    truthy (searchKeyOf false (sampleRow "ORD-1")) = true ∧
    twinKeyTable.indexGetAll (matchField false) ((searchKeyOf false (sampleRow "ORD-1")).getD "")
      = { id := "a1", orderNumber := some "ORD-1", material := some "сталь" }
        :: [{ id := "b2", orderNumber := some "ORD-1", material := some "медь" }] ∧
    ((∃ w : OrderRecord,
      importRow opened true false ({}, twinKeyTable) (sampleRow "ORD-1", sampleEnv 0)
        = ({ ({} : ImportSummary) with updated := ({} : ImportSummary).updated + 1 },
            twinKeyTable.put w) ∧
      w.id = ({ id := "a1", orderNumber := some "ORD-1", material := some "сталь"
                : OrderRecord }).id ∧
      (∀ r ∈ [({ id := "b2", orderNumber := some "ORD-1", material := some "медь"
                 : OrderRecord })],
        r ∈ twinKeyTable ∧
        r.id ≠ ({ id := "a1", orderNumber := some "ORD-1", material := some "сталь"
                  : OrderRecord }).id ∧
        r.prop (matchField false) = some ((searchKeyOf false (sampleRow "ORD-1")).getD "")) ∧
      (∀ r ∈ twinKeyTable,
        r.id ≠ ({ id := "a1", orderNumber := some "ORD-1", material := some "сталь"
                  : OrderRecord }).id →
        r ∈ twinKeyTable.put w ∧ (twinKeyTable.put w).get r.id = some r) ∧
      (∀ r ∈ twinKeyTable.put w, r = w ∨ (r ∈ twinKeyTable ∧
        r.id ≠ ({ id := "a1", orderNumber := some "ORD-1", material := some "сталь"
                  : OrderRecord }).id)) ∧
      (twinKeyTable.put w).length = twinKeyTable.length) ∧
    importRow opened false false ({}, twinKeyTable) (sampleRow "ORD-1", sampleEnv 0)
      = ({ ({} : ImportSummary) with skipped := ({} : ImportSummary).skipped + 1 },
          twinKeyTable)) :=
  ⟨rfl, by decide, rfl, rfl, by decide, by decide,
    importRow_shared_key opened _ rfl false {} twinKeyTable (by decide) (sampleRow "ORD-1")
      (sampleEnv 0) _ _ rfl rfl (by decide) (by decide)⟩

/-! ## Lemmas on `parseCSVLine` and `escapeCSV` -/

theorem push_eq_mk (cur : String) (c : Char) (s : List Char) :
    String.mk ((cur.push c).toList ++ s) = String.mk (cur.toList ++ c :: s) := by
  simp [String.toList]

theorem mk_toList_nil (cur : String) : String.mk (cur.toList ++ []) = cur := by
  simp [String.toList]

/-- Outside quotes, characters other than the quote and the comma are added
to the current value. -/
theorem parseCSVLoop_plain (rest : List Char) (values : List String) :
    ∀ (s : List Char) (cur : String), (∀ c ∈ s, c ≠ '"' ∧ c ≠ ',') →
      parseCSVLoop (s ++ rest) cur false false values
        = parseCSVLoop rest (String.mk (cur.toList ++ s)) false false values
  | [], cur, _ => by rw [mk_toList_nil]; rfl
  | c :: s, cur, h => by
    have hc := h c (List.mem_cons_self _ _)
    have ih := parseCSVLoop_plain rest values s (cur.push c)
      (fun x hx => h x (List.mem_cons_of_mem _ hx))
    rw [push_eq_mk] at ih
    rw [← ih]
    simp [parseCSVLoop, hc.1, hc.2]

/-- Inside quotes, the doubled text of a value followed by the closing quote
adds the value and leaves the quotes. -/
theorem parseCSVLoop_quoted (rest : List Char) (hrest : rest.head? ≠ some '"')
    (values : List String) :
    ∀ (s : List Char) (cur : String),
      parseCSVLoop (doubleQuotes s ++ '"' :: rest) cur true false values
        = parseCSVLoop rest (String.mk (cur.toList ++ s)) false false values
  | [], cur => by
    rw [mk_toList_nil]
    have h : (rest.head? == some '"') = false := by
      simpa using hrest
    simp [doubleQuotes, parseCSVLoop, h]
  | c :: s, cur => by
    have ih := parseCSVLoop_quoted rest hrest values s (cur.push c)
    rw [push_eq_mk] at ih
    rw [← ih]
    by_cases hc : c = '"'
    · subst hc
      simp [doubleQuotes, parseCSVLoop]
    · simp [doubleQuotes, parseCSVLoop, hc]

/-- One escaped field, followed by the end of the line or by a comma, is read
back as the field. -/
theorem parseCSVLoop_escapeCSV (f : String) (rest : List Char)
    (hrest : rest.head? ≠ some '"') (values : List String) :
    parseCSVLoop ((escapeCSV f).toList ++ rest) "" false false values
      = parseCSVLoop rest f false false values := by
  have hf : String.mk (("" : String).toList ++ f.toList) = f := by
    simp [String.toList]
  unfold escapeCSV
  split_ifs with h
  · have h1 : (String.mk ('"' :: (doubleQuotes f.toList ++ ['"']))).toList ++ rest
        = '"' :: (doubleQuotes f.toList ++ '"' :: rest) := by
      simp [String.toList]
    rw [h1]
    have h2 := parseCSVLoop_quoted rest hrest values f.toList ""
    rw [hf] at h2
    rw [← h2]
    simp [parseCSVLoop]
  · have h3 := parseCSVLoop_plain rest values f.toList "" (by
      intro c hc
      simp only [Bool.or_eq_true, List.any_eq_true, beq_iff_eq, not_or, not_exists,
        not_and] at h
      exact ⟨fun hq => h.1.2 c hc hq, fun hq => h.1.1 c hc hq⟩)
    rw [hf] at h3
    exact h3

/-- A line of escaped fields is read back as the fields. -/
theorem parseCSVLoop_join :
    ∀ (fs : List String), fs ≠ [] → ∀ (values : List String),
      parseCSVLoop (joinChars ',' ((fs.map escapeCSV).map String.toList)) "" false false values
        = values ++ fs
  | [], h, _ => absurd rfl h
  | [f], _, values => by
    have h := parseCSVLoop_escapeCSV f [] (by simp) values
    rw [List.append_nil] at h
    simp only [List.map, joinChars]
    rw [h]
    rfl
  | f :: g :: fs, _, values => by
    have ih := parseCSVLoop_join (g :: fs) (by simp) (values ++ [f])
    have h := parseCSVLoop_escapeCSV f
      (',' :: joinChars ',' (((g :: fs).map escapeCSV).map String.toList)) (by simp) values
    simp only [List.map, joinChars] at ih h ⊢
    rw [h]
    simp only [parseCSVLoop]
    simp only [Bool.false_eq_true, if_false, Bool.not_false, Bool.and_true, decide_True,
      if_true]
    rw [if_neg (by decide)]
    rw [ih]
    simp

theorem parseCSVLine_join (fs : List String) (h : fs ≠ []) :
    parseCSVLine (join ',' (fs.map escapeCSV)) = fs := by
  unfold parseCSVLine join
  have := parseCSVLoop_join fs h []
  simpa [String.toList] using this

/-- C27: `parseCSVLine` undoes `escapeCSV`.  For every non-empty list of
strings, whatever characters they hold, the line made of the escaped fields
joined with commas parses to the list itself, so to the same number of
fields; the line joined from no field at all parses to one empty field. -/
theorem parseCSVLine_escapeCSV (fs : List String) (h : fs ≠ []) :
    parseCSVLine (join ',' (fs.map escapeCSV)) = fs ∧
    (parseCSVLine (join ',' (fs.map escapeCSV))).length = fs.length ∧
    parseCSVLine (join ',' (([] : List String).map escapeCSV)) = [""] := by
  have h1 := parseCSVLine_join fs h
  exact ⟨h1, by rw [h1], by decide⟩

/-- Witness of C27: four fields, with a comma, with double quotes, empty, and
plain. -/
theorem parseCSVLine_escapeCSV_witness :
    ["1200, эллипт.", "сталь \"09Г2С\"", "", "ORD-1"] ≠ ([] : List String) ∧
    join ',' (["1200, эллипт.", "сталь \"09Г2С\"", "", "ORD-1"].map escapeCSV)
      = "\"1200, эллипт.\",\"сталь \"\"09Г2С\"\"\",,ORD-1" ∧
    (parseCSVLine (join ','
        (["1200, эллипт.", "сталь \"09Г2С\"", "", "ORD-1"].map escapeCSV))
      = ["1200, эллипт.", "сталь \"09Г2С\"", "", "ORD-1"] ∧
    (parseCSVLine (join ','
        (["1200, эллипт.", "сталь \"09Г2С\"", "", "ORD-1"].map escapeCSV))).length
      = ["1200, эллипт.", "сталь \"09Г2С\"", "", "ORD-1"].length ∧
    parseCSVLine (join ',' (([] : List String).map escapeCSV)) = [""]) :=
  ⟨by decide, by decide,
    parseCSVLine_escapeCSV ["1200, эллипт.", "сталь \"09Г2С\"", "", "ORD-1"] (by decide)⟩

/-! ## Lemmas on the export -/

theorem splitChars_of_not_mem (sep : Char) :
    ∀ x : List Char, sep ∉ x → splitChars sep x = [x]
  | [], _ => rfl
  | c :: x, h => by
    have hc : c ≠ sep := fun e => h (e ▸ List.mem_cons_self _ _)
    have ih := splitChars_of_not_mem sep x (fun hx => h (List.mem_cons_of_mem _ hx))
    simp [splitChars, hc, ih]

theorem splitChars_append (sep : Char) (rest : List Char) :
    ∀ x : List Char, sep ∉ x →
      splitChars sep (x ++ sep :: rest) = x :: splitChars sep rest
  | [], _ => by simp [splitChars]
  | c :: x, h => by
    have hc : c ≠ sep := fun e => h (e ▸ List.mem_cons_self _ _)
    have ih := splitChars_append sep rest x (fun hx => h (List.mem_cons_of_mem _ hx))
    simp [splitChars, hc, ih]

theorem splitChars_joinChars (sep : Char) :
    ∀ xs : List (List Char), xs ≠ [] → (∀ x ∈ xs, sep ∉ x) →
      splitChars sep (joinChars sep xs) = xs
  | [], h, _ => absurd rfl h
  | [x], _, hx => by
    simp only [joinChars]
    exact splitChars_of_not_mem sep x (hx x (List.mem_cons_self _ _))
  | x :: y :: xs, _, hx => by
    have ih := splitChars_joinChars sep (y :: xs) (by simp)
      (fun z hz => hx z (List.mem_cons_of_mem _ hz))
    simp only [joinChars] at ih ⊢
    rw [splitChars_append sep _ x (hx x (List.mem_cons_self _ _)), ih]

theorem split_join (sep : Char) (ls : List String) (hne : ls ≠ [])
    (h : ∀ l ∈ ls, sep ∉ l.toList) : split sep (join sep ls) = ls := by
  unfold split join
  have h1 : (String.mk (joinChars sep (ls.map String.toList))).toList
      = joinChars sep (ls.map String.toList) := rfl
  rw [h1, splitChars_joinChars sep _ (by simpa using hne) (by
    intro x hx
    obtain ⟨l, hl, rfl⟩ := List.mem_map.1 hx
    exact h l hl)]
  rw [List.map_map]
  have h2 : (String.mk ∘ String.toList) = id := by
    funext s
    rfl
  rw [h2, List.map_id]

theorem mem_joinChars (sep c : Char) :
    ∀ xs : List (List Char), c ∈ joinChars sep xs → c = sep ∨ ∃ x ∈ xs, c ∈ x
  | [], h => by simp [joinChars] at h
  | [x], h => by
    simp only [joinChars] at h
    exact Or.inr ⟨x, List.mem_cons_self _ _, h⟩
  | x :: y :: xs, h => by
    simp only [joinChars, List.mem_append, List.mem_cons] at h
    rcases h with h | h | h
    · exact Or.inr ⟨x, List.mem_cons_self _ _, h⟩
    · exact Or.inl h
    · rcases mem_joinChars sep c (y :: xs) (by simpa only [joinChars] using h) with h | ⟨z, hz, hc⟩
      · exact Or.inl h
      · exact Or.inr ⟨z, List.mem_cons_of_mem _ hz, hc⟩

theorem mem_joinChars_of_mem (sep c : Char) :
    ∀ (xs : List (List Char)) (x : List Char), x ∈ xs → c ∈ x → c ∈ joinChars sep xs
  | [], _, h, _ => by simp at h
  | [y], x, h, hc => by
    simp only [List.mem_singleton] at h
    subst h
    simpa only [joinChars] using hc
  | y :: z :: xs, x, h, hc => by
    simp only [joinChars, List.mem_append, List.mem_cons]
    rcases List.mem_cons.1 h with h | h
    · subst h
      exact Or.inl hc
    · have := mem_joinChars_of_mem sep c (z :: xs) x h hc
      simp only [joinChars] at this
      exact Or.inr (Or.inr this)

theorem mem_doubleQuotes (c : Char) : ∀ l : List Char, c ∈ doubleQuotes l ↔ c ∈ l
  | [] => by simp [doubleQuotes]
  | d :: l => by
    have ih := mem_doubleQuotes c l
    by_cases hd : d = '"'
    · subst hd
      simp [doubleQuotes, ih]
    · simp [doubleQuotes, hd, ih]

theorem mem_escapeCSV_of_mem (c : Char) (f : String) (h : c ∈ f.toList) :
    c ∈ (escapeCSV f).toList := by
  unfold escapeCSV
  split_ifs
  · show c ∈ '"' :: (doubleQuotes f.toList ++ ['"'])
    exact List.mem_cons_of_mem _ (List.mem_append_left _ ((mem_doubleQuotes c _).2 h))
  · exact h

theorem newline_not_mem_escapeCSV (f : String) (h : '\n' ∉ f.toList) :
    '\n' ∉ (escapeCSV f).toList := by
  unfold escapeCSV
  split_ifs
  · show '\n' ∉ '"' :: (doubleQuotes f.toList ++ ['"'])
    intro hm
    rcases List.mem_cons.1 hm with hm | hm
    · exact absurd hm (by decide)
    · rcases List.mem_append.1 hm with hm | hm
      · exact h ((mem_doubleQuotes _ _).1 hm)
      · exact absurd (List.mem_singleton.1 hm) (by decide)
  · exact h

theorem mem_dropWhile_of_false (p : Char → Bool) (c : Char) (hc : p c = false) :
    ∀ l : List Char, c ∈ l → c ∈ l.dropWhile p
  | [], h => h
  | d :: l, h => by
    by_cases hd : p d = true
    · rw [List.dropWhile_cons_of_pos hd]
      rcases List.mem_cons.1 h with h | h
      · subst h
        rw [hc] at hd
        exact absurd hd (by decide)
      · exact mem_dropWhile_of_false p c hc l h
    · rw [List.dropWhile_cons_of_neg hd]
      exact h

theorem trim_ne_empty (s : String) (c : Char) (hc : c ∈ s.toList)
    (hws : isWhiteSpace c = false) : trim s ≠ "" := by
  unfold trim
  intro h
  have h1 : c ∈ ((s.toList.dropWhile isWhiteSpace).reverse.dropWhile isWhiteSpace).reverse := by
    apply List.mem_reverse.2
    apply mem_dropWhile_of_false _ _ hws
    apply List.mem_reverse.2
    exact mem_dropWhile_of_false _ _ hws _ hc
  have h2 : ((s.toList.dropWhile isWhiteSpace).reverse.dropWhile isWhiteSpace).reverse = [] := by
    have := congrArg String.toList h
    exact this
  rw [h2] at h1
  exact absurd h1 (List.not_mem_nil _)

theorem exists_not_whiteSpace (s : String) (hne : s ≠ "") (ht : trim s = s) :
    ∃ c ∈ s.toList, isWhiteSpace c = false := by
  by_contra hall
  apply hne
  have hall2 : ∀ c ∈ s.toList, isWhiteSpace c = true := by
    intro c hc
    by_contra hf
    exact hall ⟨c, hc, by simpa using hf⟩
  have hd : s.toList.dropWhile isWhiteSpace = [] := List.dropWhile_eq_nil_iff.2 hall2
  rw [← ht]
  unfold trim
  rw [hd]
  rfl

theorem orEmpty_idem (v : Option String) : orEmpty (some (orEmpty v)) = orEmpty v := by
  rw [orEmpty_eq_getD, Option.getD_some]

theorem orEmpty_ne_empty {v : Option String} (h : truthy v = true) : orEmpty v ≠ "" := by
  cases v with
  | none => simp [truthy] at h
  | some s =>
    have hs : s ≠ "" := by simpa [truthy] using h
    rw [orEmpty_eq_getD]
    exact hs

/-! ## Lemmas on export followed by import -/

theorem exportHeaders_lower :
    exportHeaders.map lowerBasic =
      ["id", "дата заказа", "номер заказа", "диаметр (мм)", "толщина (мм)", "типоразмер",
       "раскрой", "номер днища", "материал", "режим то", "дата то", "сварщик", "дата сварки",
       "штамповка", "дата штамповки", "отбортовка", "дата отбортовки", "калибровка",
       "дата калибровки", "сварщик (заглушки)", "дата сварки заглушек", "резчик",
       "дата резки", "дата создания", "дата обновления"] := by
  decide

theorem csvHeaders_export (toLowerCase : String → String) :
    csvHeaders toLowerCase (join ',' exportHeaders) = exportHeaders.map toLowerCase := by
  unfold csvHeaders
  rw [split_join ',' exportHeaders (by decide) (by decide)]
  apply List.map_congr_left
  intro h hh
  have ht : ∀ x ∈ exportHeaders, trim x = x := by decide
  rw [ht h hh]

theorem exportHeaders_lower_nodup : (exportHeaders.map lowerBasic).Nodup := by
  rw [exportHeaders_lower]
  decide

theorem exportValues_length (o : OrderRecord) : (exportValues o).length = 25 := rfl

theorem exportValues_ne_nil (o : OrderRecord) : exportValues o ≠ [] := by
  intro h
  have := congrArg List.length h
  rw [exportValues_length] at this
  exact absurd this (by decide)

theorem export_lookup (o : OrderRecord) (name : String) :
    List.lookup name ((exportHeaders.map lowerBasic).zip (exportValues o))
      = List.lookup name
        [("id", orEmpty (some o.id)), ("дата заказа", orEmpty o.date),
         ("номер заказа", orEmpty o.orderNumber), ("диаметр (мм)", orEmpty o.diameter),
         ("толщина (мм)", orEmpty o.thickness), ("типоразмер", orEmpty o.typeSize),
         ("раскрой", orEmpty o.cutting), ("номер днища", orEmpty o.bottomNumber),
         ("материал", orEmpty o.material), ("режим то", orEmpty o.heatTreatment),
         ("дата то", orEmpty o.treatmentDate),
         ("сварщик", executorName o 0), ("дата сварки", executorDate o 0),
         ("штамповка", executorName o 1), ("дата штамповки", executorDate o 1),
         ("отбортовка", executorName o 2), ("дата отбортовки", executorDate o 2),
         ("калибровка", executorName o 3), ("дата калибровки", executorDate o 3),
         ("сварщик (заглушки)", executorName o 4), ("дата сварки заглушек", executorDate o 4),
         ("резчик", executorName o 5), ("дата резки", executorDate o 5),
         ("дата создания", orEmpty o.createdAt), ("дата обновления", orEmpty o.updatedAt)] := by
  rw [exportHeaders_lower]
  rfl

/-- The row `parseCSV` builds from the exported line of a record: the value of
each column of the import is the exported value. -/
theorem export_row_get (o : OrderRecord) (htrim : ∀ s ∈ exportValues o, trim s = s)
    (name : String) :
    (csvRow (exportHeaders.map lowerBasic) (exportValues o)).get name
      = List.lookup name ((exportHeaders.map lowerBasic).zip (exportValues o)) := by
  have hp := parseCSVLine_join (exportValues o) (exportValues_ne_nil o)
  have h := csvRow_get (exportHeaders.map lowerBasic) exportHeaders_lower_nodup
    (join ',' ((exportValues o).map escapeCSV))
    (by rw [hp, exportValues_length]; rfl) name
  unfold csvColumns at h
  rw [hp] at h
  have hid : (exportValues o).map trim = exportValues o := by
    conv_rhs => rw [← List.map_id (exportValues o)]
    exact List.map_congr_left (fun s hs => htrim s hs)
  rw [hid] at h
  exact h

theorem export_row_fields (o : OrderRecord) (htrim : ∀ s ∈ exportValues o, trim s = s) :
    (csvRow (exportHeaders.map lowerBasic) (exportValues o)).get "дата заказа"
      = some (orEmpty o.date) ∧
    (csvRow (exportHeaders.map lowerBasic) (exportValues o)).get "номер заказа"
      = some (orEmpty o.orderNumber) ∧
    (csvRow (exportHeaders.map lowerBasic) (exportValues o)).get "диаметр (мм)"
      = some (orEmpty o.diameter) ∧
    (csvRow (exportHeaders.map lowerBasic) (exportValues o)).get "толщина (мм)"
      = some (orEmpty o.thickness) ∧
    (csvRow (exportHeaders.map lowerBasic) (exportValues o)).get "типоразмер"
      = some (orEmpty o.typeSize) ∧
    (csvRow (exportHeaders.map lowerBasic) (exportValues o)).get "раскрой"
      = some (orEmpty o.cutting) ∧
    (csvRow (exportHeaders.map lowerBasic) (exportValues o)).get "номер днища"
      = some (orEmpty o.bottomNumber) ∧
    (csvRow (exportHeaders.map lowerBasic) (exportValues o)).get "материал"
      = some (orEmpty o.material) ∧
    (csvRow (exportHeaders.map lowerBasic) (exportValues o)).get "режим то"
      = some (orEmpty o.heatTreatment) ∧
    (csvRow (exportHeaders.map lowerBasic) (exportValues o)).get "дата то"
      = some (orEmpty o.treatmentDate) ∧
    (csvRow (exportHeaders.map lowerBasic) (exportValues o)).get "сварщик"
      = some (executorName o 0) ∧
    (csvRow (exportHeaders.map lowerBasic) (exportValues o)).get "дата сварки"
      = some (executorDate o 0) ∧
    (csvRow (exportHeaders.map lowerBasic) (exportValues o)).get "штамповка"
      = some (executorName o 1) ∧
    (csvRow (exportHeaders.map lowerBasic) (exportValues o)).get "дата штамповки"
      = some (executorDate o 1) ∧
    (csvRow (exportHeaders.map lowerBasic) (exportValues o)).get "отбортовка"
      = some (executorName o 2) ∧
    (csvRow (exportHeaders.map lowerBasic) (exportValues o)).get "дата отбортовки"
      = some (executorDate o 2) ∧
    (csvRow (exportHeaders.map lowerBasic) (exportValues o)).get "калибровка"
      = some (executorName o 3) ∧
    (csvRow (exportHeaders.map lowerBasic) (exportValues o)).get "дата калибровки"
      = some (executorDate o 3) ∧
    (csvRow (exportHeaders.map lowerBasic) (exportValues o)).get "сварщик (заглушки)"
      = some (executorName o 4) ∧
    (csvRow (exportHeaders.map lowerBasic) (exportValues o)).get "дата сварки заглушек"
      = some (executorDate o 4) ∧
    (csvRow (exportHeaders.map lowerBasic) (exportValues o)).get "резчик"
      = some (executorName o 5) ∧
    (csvRow (exportHeaders.map lowerBasic) (exportValues o)).get "дата резки"
      = some (executorDate o 5) := by
  simp only [export_row_get o htrim, export_lookup]
  refine ⟨rfl, rfl, rfl, rfl, rfl, rfl, rfl, rfl, rfl, rfl, rfl, rfl, rfl, rfl, rfl, rfl, rfl, rfl, rfl, rfl, rfl, rfl⟩

theorem executorName_idem (o : OrderRecord) (i : Nat) :
    orEmpty (some (executorName o i)) = executorName o i := orEmpty_idem _

theorem executorDate_idem (o : OrderRecord) (i : Nat) :
    orEmpty (some (executorDate o i)) = executorDate o i := orEmpty_idem _

/-- The record built from the row of an exported record. -/
theorem orderToSave_export (o : OrderRecord) (htrim : ∀ s ∈ exportValues o, trim s = s)
    (orderId : String) (existing : Option OrderRecord) (cn un : String) :
    scalarFields (orderToSave orderId (csvRow (exportHeaders.map lowerBasic) (exportValues o))
        existing cn un)
      = (scalarFields o).map (fun v => some (orEmpty v)) ∧
    (orderToSave orderId (csvRow (exportHeaders.map lowerBasic) (exportValues o))
        existing cn un).executors
      = (List.range 6).map (fun i =>
          ({ name := executorName o i, date := executorDate o i } : Executor)) := by
  obtain ⟨h1, h2, h3, h4, h5, h6, h7, h8, h9, h10, h11, h12, h13, h14, h15, h16, h17, h18,
    h19, h20, h21, h22⟩ := export_row_fields o htrim
  unfold scalarFields orderToSave
  simp only [h1, h2, h3, h4, h5, h6, h7, h8, h9, h10, h11, h12, h13, h14, h15, h16, h17, h18,
    h19, h20, h21, h22, orEmpty_idem, executorName_idem, executorDate_idem]
  exact ⟨rfl, rfl⟩

theorem newline_not_mem_exportLine (o : OrderRecord)
    (h : ∀ s ∈ exportValues o, '\n' ∉ s.toList) :
    '\n' ∉ (join ',' ((exportValues o).map escapeCSV)).toList := by
  intro hm
  have hm2 : '\n' ∈ joinChars ',' (((exportValues o).map escapeCSV).map String.toList) := hm
  rcases mem_joinChars ',' '\n' _ hm2 with hc | ⟨x, hx, hc⟩
  · exact absurd hc (by decide)
  · obtain ⟨e, he, rfl⟩ := List.mem_map.1 hx
    obtain ⟨f, hf, rfl⟩ := List.mem_map.1 he
    exact newline_not_mem_escapeCSV f (h f hf) hc

theorem exportLine_not_blank (o : OrderRecord)
    (htrim : ∀ s ∈ exportValues o, trim s = s) (hreq : truthy o.orderNumber = true) :
    trim (join ',' ((exportValues o).map escapeCSV)) ≠ "" := by
  have hmem : orEmpty o.orderNumber ∈ exportValues o := by
    simp [exportValues]
  obtain ⟨c, hc, hws⟩ := exists_not_whiteSpace (orEmpty o.orderNumber)
    (orEmpty_ne_empty hreq) (htrim _ hmem)
  apply trim_ne_empty _ c _ hws
  show c ∈ joinChars ',' (((exportValues o).map escapeCSV).map String.toList)
  apply mem_joinChars_of_mem ',' c _ (escapeCSV (orEmpty o.orderNumber)).toList
  · exact List.mem_map_of_mem _ (List.mem_map_of_mem _ hmem)
  · exact mem_escapeCSV_of_mem c _ hc

/-- The lines `parseCSV` sees in an exported text: the header line and one
line per record. -/
theorem csvLines_export (orders : List OrderRecord)
    (hclean : ∀ o ∈ orders, ∀ s ∈ exportValues o, '\n' ∉ s.toList ∧ trim s = s)
    (hreq : ∀ o ∈ orders, truthy o.orderNumber = true ∧ truthy o.date = true) :
    csvLines (join '\n' (join ',' exportHeaders ::
        orders.map (fun order => join ',' ((exportValues order).map escapeCSV))))
      = join ',' exportHeaders ::
        orders.map (fun order => join ',' ((exportValues order).map escapeCSV)) := by
  unfold csvLines
  rw [split_join '\n' _ (by simp) (by
    intro l hl
    rcases List.mem_cons.1 hl with hl | hl
    · rw [hl]
      decide
    · obtain ⟨o, ho, rfl⟩ := List.mem_map.1 hl
      exact newline_not_mem_exportLine o (fun s hs => (hclean o ho s hs).1))]
  apply List.filter_eq_self.2
  intro l hl
  rcases List.mem_cons.1 hl with hl | hl
  · rw [hl]
    decide
  · obtain ⟨o, ho, rfl⟩ := List.mem_map.1 hl
    have := exportLine_not_blank o (fun s hs => (hclean o ho s hs).2) (hreq o ho).1
    simpa using this

/-- The rows `parseCSV` returns for an exported text: one row per record, in
order. -/
theorem parseCSV_export (toLowerCase : String → String)
    (htl : exportHeaders.map toLowerCase = exportHeaders.map lowerBasic)
    (orders : List OrderRecord)
    (hclean : ∀ o ∈ orders, ∀ s ∈ exportValues o, '\n' ∉ s.toList ∧ trim s = s)
    (hreq : ∀ o ∈ orders, truthy o.orderNumber = true ∧ truthy o.date = true) :
    parseCSV toLowerCase (join '\n' (join ',' exportHeaders ::
        orders.map (fun order => join ',' ((exportValues order).map escapeCSV))))
      = orders.map (fun o => csvRow (exportHeaders.map lowerBasic) (exportValues o)) := by
  rw [parseCSV_eq, csvLines_export orders hclean hreq]
  simp only [List.headD_cons, List.tail_cons]
  simp only [csvHeaders_export, htl]
  rw [List.filter_eq_self.2, List.map_map]
  · apply List.map_congr_left
    intro o _
    show csvRow _ (parseCSVLine (join ',' ((exportValues o).map escapeCSV))) = _
    rw [parseCSVLine_join _ (exportValues_ne_nil o)]
  · intro l hl
    obtain ⟨o, ho, rfl⟩ := List.mem_map.1 hl
    rw [parseCSVLine_join _ (exportValues_ne_nil o)]
    have hf := export_row_fields o (fun s hs => (hclean o ho s hs).2)
    have hv : csvRowValid (csvRow (exportHeaders.map lowerBasic) (exportValues o)) = true := by
      unfold csvRowValid
      rw [hf.2.1, hf.1]
      have h1 : truthy (some (orEmpty o.orderNumber)) = true := by
        simpa [truthy] using orEmpty_ne_empty (hreq o ho).1
      have h2 : truthy (some (orEmpty o.date)) = true := by
        simpa [truthy] using orEmpty_ne_empty (hreq o ho).2
      rw [h1, h2]
      rfl
    rw [hv, Bool.and_true]
    exact decide_eq_true rfl

theorem executors_of_length_six (o : OrderRecord) (h : o.executors.length = 6) :
    (List.range 6).map (fun i =>
        ({ name := executorName o i, date := executorDate o i } : Executor))
      = o.executors := by
  unfold executorName executorDate
  simp only [orEmpty_eq_getD]
  match hx : o.executors, h with
  | [e0, e1, e2, e3, e4, e5], _ => rfl

theorem scalarFields_of_isSome (o : OrderRecord) (h : ∀ v ∈ scalarFields o, v.isSome = true) :
    (scalarFields o).map (fun v => some (orEmpty v)) = scalarFields o := by
  conv_rhs => rw [← List.map_id (scalarFields o)]
  apply List.map_congr_left
  intro v hv
  obtain ⟨s, rfl⟩ := Option.isSome_iff_exists.1 (h v hv)
  rw [orEmpty_eq_getD]
  rfl

/-- C26: export followed by import recovers the data.  The platform method
`toLowerCase` is a parameter that maps the header names of the export to
their lower-case forms.  For a non-empty list of records whose exported
values hold no line feed and no leading or trailing white space and whose
`orderNumber` and `date` are non-empty, `exportToCSV` builds a text, and
`parseCSV` returns for it one row per record, in order.  The record
`handleImportOrders` builds from the row of a record `o` has the ten scalar
fields and the six executor slots of `o`, an undefined value of `o` read as
the empty string: they are the fields and the executors of `o` itself when
the ten fields of `o` are defined and `o` has six executors.  Its `id`,
`createdAt` and `updatedAt` do not come from the row.  The lower-cased header
names of the export are the column names the import reads. -/
theorem export_then_import (toLowerCase : String → String)
    (htl : exportHeaders.map toLowerCase = exportHeaders.map lowerBasic)
    (orders : List OrderRecord) (hne : orders ≠ [])
    (hclean : ∀ o ∈ orders, ∀ s ∈ exportValues o, '\n' ∉ s.toList ∧ trim s = s)
    (hreq : ∀ o ∈ orders, truthy o.orderNumber = true ∧ truthy o.date = true) :
    ∃ text : String,
      exportToCSV orders = some text ∧
      (parseCSV toLowerCase text).length = orders.length ∧
      List.Forall₂
        (fun (o : OrderRecord) (row : Row) =>
          ∀ (orderId : String) (existing : Option OrderRecord) (cn un : String),
            scalarFields (orderToSave orderId row existing cn un)
              = (scalarFields o).map (fun v => some (orEmpty v)) ∧
            (orderToSave orderId row existing cn un).executors
              = (List.range 6).map (fun i =>
                  ({ name := executorName o i, date := executorDate o i } : Executor)) ∧
            ((∀ v ∈ scalarFields o, v.isSome = true) →
              scalarFields (orderToSave orderId row existing cn un) = scalarFields o) ∧
            (o.executors.length = 6 →
              (orderToSave orderId row existing cn un).executors = o.executors) ∧
            (orderToSave orderId row existing cn un).id = orderId ∧
            (orderToSave orderId row existing cn un).updatedAt = some un ∧
            (orderToSave orderId row none cn un).createdAt = some cn)
        orders (parseCSV toLowerCase text) ∧
      exportHeaders.map toLowerCase =
        ["id", "дата заказа", "номер заказа", "диаметр (мм)", "толщина (мм)", "типоразмер",
         "раскрой", "номер днища", "материал", "режим то", "дата то", "сварщик",
         "дата сварки", "штамповка", "дата штамповки", "отбортовка", "дата отбортовки",
         "калибровка", "дата калибровки", "сварщик (заглушки)", "дата сварки заглушек",
         "резчик", "дата резки", "дата создания", "дата обновления"] := by
  have hlen : ¬ orders.length = 0 := fun h => hne (List.eq_nil_of_length_eq_zero h)
  refine ⟨_, by unfold exportToCSV; rw [if_neg hlen], ?_, ?_, ?_⟩
  · rw [parseCSV_export toLowerCase htl orders hclean hreq, List.length_map]
  · rw [parseCSV_export toLowerCase htl orders hclean hreq, List.forall₂_map_right_iff,
      List.forall₂_same]
    intro o ho orderId existing cn un
    obtain ⟨h1, h2⟩ := orderToSave_export o (fun s hs => (hclean o ho s hs).2)
      orderId existing cn un
    refine ⟨h1, h2, ?_, ?_, rfl, rfl, rfl⟩
    · intro hs
      rw [h1, scalarFields_of_isSome o hs]
    · intro h6
      rw [h2, executors_of_length_six o h6]
  · rw [htl, exportHeaders_lower]

set_option maxRecDepth 100000 in
/-- Witness of C26: two records, the first with a comma and double quotes in
its fields, are exported and read back. -/
theorem export_then_import_witness :
    exportHeaders.map lowerBasic = exportHeaders.map lowerBasic ∧
    exportSample ≠ [] ∧
    (∀ o ∈ exportSample, ∀ s ∈ exportValues o, '\n' ∉ s.toList ∧ trim s = s) ∧
    (∀ o ∈ exportSample, truthy o.orderNumber = true ∧ truthy o.date = true) ∧
    (∃ text : String,
      exportToCSV exportSample = some text ∧
      (parseCSV lowerBasic text).length = exportSample.length ∧
      List.Forall₂
        (fun (o : OrderRecord) (row : Row) =>
          ∀ (orderId : String) (existing : Option OrderRecord) (cn un : String),
            scalarFields (orderToSave orderId row existing cn un)
              = (scalarFields o).map (fun v => some (orEmpty v)) ∧
            (orderToSave orderId row existing cn un).executors
              = (List.range 6).map (fun i =>
                  ({ name := executorName o i, date := executorDate o i } : Executor)) ∧
            ((∀ v ∈ scalarFields o, v.isSome = true) →
              scalarFields (orderToSave orderId row existing cn un) = scalarFields o) ∧
            (o.executors.length = 6 →
              (orderToSave orderId row existing cn un).executors = o.executors) ∧
            (orderToSave orderId row existing cn un).id = orderId ∧
            (orderToSave orderId row existing cn un).updatedAt = some un ∧
            (orderToSave orderId row none cn un).createdAt = some cn)
        exportSample (parseCSV lowerBasic text) ∧
      exportHeaders.map lowerBasic =
        ["id", "дата заказа", "номер заказа", "диаметр (мм)", "толщина (мм)", "типоразмер",
         "раскрой", "номер днища", "материал", "режим то", "дата то", "сварщик",
         "дата сварки", "штамповка", "дата штамповки", "отбортовка", "дата отбортовки",
         "калибровка", "дата калибровки", "сварщик (заглушки)", "дата сварки заглушек",
         "резчик", "дата резки", "дата создания", "дата обновления"]) ∧
    (parseCSV lowerBasic ((exportToCSV exportSample).getD "")).map
        (fun row => (row.get "типоразмер", row.get "материал", row.get "сварщик"))
      = [(some "1200, эллипт.", some "сталь \"09Г2С\"", some "Иванов"),
         (some "", some "", some "")] :=
  ⟨rfl, by decide, by decide, by decide,
    export_then_import lowerBasic rfl exportSample (by decide) (by decide) (by decide),
    by decide⟩

end Orders
